import Mathlib

/-!
Transaction service: a verification development

A shallow embedding of the store/fetch workflow of the transaction service
(`internal/transaction`, `internal/validation`, `internal/business`,
`internal/forex`, `internal/errorhandling`) together with the parts of the Go
runtime and of the libraries those packages rely on (`time.Parse`,
`time.Time.AddDate`, `time.Time.Format`, `math/big` floats of precision 53,
`url.QueryEscape`, the list of errors and the response of a `gin.Context`).
The decoder `json.Unmarshal` and the HTTP client are parameters.

Conventions.
* A Go `string` is a Lean `String`; Go's `len` is the number of bytes of the
  UTF-8 encoding, `String.utf8ByteSize`.
* A Go `*T` that may be `nil` is an `Option T`.
* A Go `int` is an `Int`; the one place where the 64-bit width matters
  (`big.Int.Int64`) wraps explicitly.
* A Go `error` is an `Option GoError` (`none` is `nil`).
-/

/-! ## Package `time` (the part used by the service) -/

namespace GoTime

/-- Go's `time.Time`, for a time without monotonic clock reading: `sec` counts
the seconds since January 1, year 1, 00:00:00 UTC, `nsec` the nanoseconds
within the second, and `offset` is the offset east of UTC (in seconds) of the
location the time is presented in (`0` for UTC, the `nil` location). -/
structure Time where
  sec : Int
  nsec : Nat
  offset : Int
  deriving DecidableEq, Repr

/-- The zero value `time.Time{}`: January 1, year 1, 00:00:00 UTC. -/
def Time.zero : Time := ⟨0, 0, 0⟩

/-- The method `Time.After`: `t` is an instant strictly after `u`. -/
def Time.After (t u : Time) : Bool :=
  decide (t.sec > u.sec) || (decide (t.sec = u.sec) && decide (t.nsec > u.nsec))

/-- The function `isLeap`. -/
def isLeap (year : Int) : Bool :=
  decide (year % 4 = 0) && (decide (year % 100 ≠ 0) || decide (year % 400 = 0))

/-- The table `daysBefore`: the days of a non-leap year before month `m + 1`
begins (`m` counted from 0; the entry 12 is the length of the year). -/
def daysBefore (m : Nat) : Int :=
  match m with
  | 0 => 0
  | 1 => 31
  | 2 => 59
  | 3 => 90
  | 4 => 120
  | 5 => 151
  | 6 => 181
  | 7 => 212
  | 8 => 243
  | 9 => 273
  | 10 => 304
  | 11 => 334
  | _ => 365

/-- The function `daysIn`: the number of days of month `m` (1 to 12) of `year`. -/
def daysIn (m : Nat) (year : Int) : Int :=
  if m = 2 ∧ isLeap year = true then 29 else daysBefore m - daysBefore (m - 1)

/-- The function `daysSinceEpoch`, counted from January 1 of year 1: the days
before January 1 of `year` in the proleptic Gregorian calendar. -/
def daysSinceEpoch (year : Int) : Int :=
  let y := year - 1
  365 * y + y / 4 - y / 100 + y / 400

def secondsPerDay : Int := 86400

/-- The function `time.Date` for a UTC date at midnight,
`Date(year, month, day, 0, 0, 0, 0, time.UTC)`. The month may lie outside
1..12 and the day outside the month: both are normalised, as Go does, the
month overflowing into the year and the day into the following months. -/
def Date (year month day : Int) : Time :=
  let m := month - 1
  let year := year + m / 12
  let m := m % 12
  let d := daysSinceEpoch year + daysBefore m.toNat
    + (if isLeap year = true ∧ m ≥ 2 then 1 else 0) + (day - 1)
  ⟨d * secondsPerDay, 0, 0⟩

/-- The year of a day number counted from January 1 of year 1, and the day
within that year, counted from 0 (the first half of Go's `absDate`): the
400-year, 100-year, 4-year and 1-year cycles are cut off in turn. -/
def yearDay (days : Int) : Int × Int :=
  let n400 := days / 146097
  let d := days - 146097 * n400
  let n100 := d / 36524
  let n100 := n100 - n100 / 4
  let d := d - 36524 * n100
  let n4 := d / 1461
  let d := d - 1461 * n4
  let n1 := d / 365
  let n1 := n1 - n1 / 4
  let d := d - 365 * n1
  (400 * n400 + 100 * n100 + 4 * n4 + n1 + 1, d)

/-- The month (1 to 12) and the day of the month of the day `day` (from 0) of
a year without February 29: the month is estimated on the assumption that
every month has 31 days, and the estimate corrected (the end of Go's
`absDate`). -/
def monthOfDay (day : Int) : Nat × Int :=
  let month := (day / 31).toNat
  let endd := daysBefore (month + 1)
  if day ≥ endd then (month + 2, day - endd + 1)
  else (month + 1, day - daysBefore month + 1)

/-- The month (1 to 12) and the day of the month of the day `yday` (from 0)
of a year (the second half of Go's `absDate`): in a leap year February 29 is
answered at once and the later days are moved back by one. -/
def monthDay (leap : Bool) (yday : Int) : Nat × Int :=
  if leap = true ∧ yday = 31 + 29 - 1 then (2, 29)
  else monthOfDay (if leap = true ∧ yday > 31 + 29 - 1 then yday - 1 else yday)

/-- The calendar date (year, month, day) of a day number counted from
January 1 of year 1 (Go's `absDate`). -/
def civil (days : Int) : Int × Nat × Int :=
  let (year, yday) := yearDay days
  let (month, day) := monthDay (isLeap year) yday
  (year, month, day)

/-- The method `Time.Date`: year, month and day of `t` in its location. -/
def Time.civilDate (t : Time) : Int × Nat × Int :=
  civil ((t.sec + t.offset) / secondsPerDay)

/-- The method `Time.AddDate(years, months, days)`:
`Date(year+years, month+months, day+days, hour, min, sec, nsec, loc)`, here
for a time in UTC; the time of day is carried over unchanged. -/
def Time.AddDate (t : Time) (years months days : Int) : Time :=
  let (year, month, day) := t.civilDate
  let r := Date (year + years) ((month : Int) + months) (day + days)
  ⟨r.sec + (t.sec + t.offset) % secondsPerDay - t.offset, t.nsec, t.offset⟩

/-- The decimal digit `n % 10` as a character. -/
def digitChar (n : Nat) : Char := Char.ofNat (48 + n % 10)

/-- The value of a decimal digit character (`c - '0'`). -/
def digitVal (c : Char) : Nat := c.toNat - 48

/-- The byte test `isDigit`: `'0' <= c && c <= '9'`. -/
def isDigitChar (c : Char) : Bool := decide (48 ≤ c.toNat) && decide (c.toNat ≤ 57)

/-- The last `width` decimal digits of `n`, most significant first. -/
def padDigits : Nat → Nat → List Char
  | 0, _ => []
  | w + 1, n => padDigits w (n / 10) ++ [digitChar n]

/-- The function `appendInt(b, x, width)`: `x` in decimal, zero-padded to at
least `width` digits, with a leading minus sign when negative. -/
def appendInt (x : Int) (width : Nat) : List Char :=
  let u := x.natAbs
  let digits := if u < 10 ^ width then padDigits width u else Nat.toDigits 10 u
  if x < 0 then '-' :: digits else digits

/-- The method `Time.Format("2006-01-02")`. -/
def Time.Format (t : Time) : String :=
  let (year, month, day) := t.civilDate
  String.mk (appendInt year 4 ++ '-' :: appendInt month 2 ++ '-' :: appendInt day 2)

/-- The function `getnum(s, true)`: exactly two leading digits. -/
def getnum2 (s : List Char) : Option (Nat × List Char) :=
  match s with
  | a :: b :: rest =>
    if isDigitChar a = true ∧ isDigitChar b = true then
      some (digitVal a * 10 + digitVal b, rest)
    else none
  | _ => none

/-- The year chunk `2006` of a layout: the value must start with four digits
(`len(value) < 4 || !isDigit(value, 0)` is an error, and so is a failing
`atoi` of the four bytes). -/
def getyear4 (s : List Char) : Option (Nat × List Char) :=
  match s with
  | a :: b :: c :: d :: rest =>
    if isDigitChar a = true ∧ isDigitChar b = true ∧ isDigitChar c = true
        ∧ isDigitChar d = true then
      some (digitVal a * 1000 + digitVal b * 100 + digitVal c * 10 + digitVal d, rest)
    else none
  | _ => none

/-- The function `skip(value, "-")`: the literal `-` of the layout. -/
def skipDash (s : List Char) : Option (List Char) :=
  match s with
  | c :: rest => if c = '-' then some rest else none
  | [] => none

/-- The function `time.Parse("2006-01-02", value)`; `none` stands for a
returned error. The steps are those of Go's parser for this layout: year,
`-`, two-digit month in 1..12, `-`, two-digit day, no text left over, and the
day within the month. Every test is on ASCII bytes and every byte of a
multi-byte UTF-8 sequence is at least 0x80, so the characters of the string
can stand for its bytes. -/
def Parse (value : String) : Option Time :=
  match getyear4 value.data with
  | none => none
  | some (year, v) =>
    match skipDash v with
    | none => none
    | some v =>
      match getnum2 v with
      | none => none
      | some (month, v) =>
        if month ≤ 0 ∨ 12 < month then none
        else
          match skipDash v with
          | none => none
          | some v =>
            match getnum2 v with
            | none => none
            | some (day, v) =>
              if v ≠ [] then none
              else if (day : Int) < 1 ∨ (day : Int) > daysIn month year then none
              else some (Date year month day)

end GoTime

/-! ## Package `internal/business` -/

namespace business

/-- The type `business.Reason`: a readable text id of an error. -/
abbrev Reason := String

/-- The struct `business.FieldError`. -/
structure FieldError where
  FieldName : String
  Reason : Reason
  deriving DecidableEq, Repr

/-- The constructor `business.NewFieldError`; the result is never `nil`. -/
def NewFieldError (fieldName : String) (reason : Reason) : Option FieldError :=
  some ⟨fieldName, reason⟩

/-- The struct `business.Error`; a `nil` slice of fields is the empty list. -/
structure Error where
  Fields : List FieldError
  Message : String
  deriving DecidableEq, Repr

end business

/-- A non-nil Go `error` value: a `*business.Error`, or any other error, of
which only the text is kept. -/
inductive GoError where
  | business (e : business.Error)
  | other (text : String)
  deriving DecidableEq, Repr

/-! ## Package `internal/validation` -/

namespace validation

open business GoTime

def Required : Reason := "REQUIRED"
def MinLength : Reason := "MIN_LENGTH"
def MaxLength : Reason := "MAX_LENGTH"
def DateBadFormat : Reason := "DATE_BAD_FORMAT"
def DateInFuture : Reason := "DATE_IN_FUTURE"
def ZeroValue : Reason := "ZERO_VALUE"

/-- Go's `len` of a string: its length in bytes. -/
def len (s : String) : Nat := s.utf8ByteSize

def IsRequiredString (fieldName : String) (value : Option String) : Option FieldError :=
  if value = none then NewFieldError fieldName Required else none

def IsRequiredInt (fieldName : String) (value : Option Int) : Option FieldError :=
  if value = none then NewFieldError fieldName Required else none

def IsMinLength (fieldName : String) (value : Option String) (min : Nat) : Option FieldError :=
  match value with
  | some v => if len v < min then NewFieldError fieldName MinLength else none
  | none => none

def IsMaxLength (fieldName : String) (value : Option String) (max : Nat) : Option FieldError :=
  match value with
  | some v => if len v > max then NewFieldError fieldName MaxLength else none
  | none => none

/-- The function `parseDate`: `time.Parse(DateFormat, value)`, any error of
which becomes the field error `DATE_BAD_FORMAT` (with the zero time). -/
def parseDate (fieldName : String) (value : String) : Time × Option FieldError :=
  match Parse value with
  | none => (Time.zero, NewFieldError fieldName DateBadFormat)
  | some parsed => (parsed, none)

def IsDate (fieldName : String) (value : Option String) : Time × Option FieldError :=
  match value with
  | none => (Time.zero, none)
  | some v =>
    match parseDate fieldName v with
    | (_, some err) => (Time.zero, some err)
    | (parsed, none) => (parsed, none)

/-- The function `IsDateNowOrEarlier`; `now` is the value of `time.Now()`. -/
def IsDateNowOrEarlier (now : Time) (fieldName : String) (value : Time) : Option FieldError :=
  if value.After now = true then NewFieldError fieldName DateInFuture else none

def IsNotZero (fieldName : String) (value : Option Int) : Option FieldError :=
  match value with
  | some v => if v = 0 then NewFieldError fieldName ZeroValue else none
  | none => none

end validation

/-! ## Package `internal/forex`: the conversion result -/

namespace forex

/-- A finite `float64`: the number `(-1)^neg * mant * 2^exp`. A value of the
type `float64` has `mant < 2^53` and `-1074 ≤ exp ≤ 971`. -/
structure Float64 where
  neg : Bool
  mant : Nat
  exp : Int
  deriving DecidableEq, Repr

/-- The `float64` zero value, `+0`. -/
def Float64.zero : Float64 := ⟨false, 0, 0⟩

/-- A value of Go's type `float64`: a finite number, an infinity or a NaN. -/
inductive GoFloat64 where
  | finite (x : Float64)
  | inf (neg : Bool)
  | nan
  deriving DecidableEq, Repr

/-- The `float64` zero value as a `GoFloat64`. -/
def GoFloat64.zero : GoFloat64 := GoFloat64.finite Float64.zero

/-- Two finite `float64` denote the same number: both are zero (of either
sign), or the signs agree and so do the mantissas brought to the smaller
exponent. -/
def Float64.sameValue (x y : Float64) : Bool :=
  (decide (x.mant = 0) && decide (y.mant = 0))
    || (decide (x.neg = y.neg)
      && decide (x.mant * 2 ^ (x.exp - min x.exp y.exp).toNat
        = y.mant * 2 ^ (y.exp - min x.exp y.exp).toNat))

/-- Go's `==` on `float64`: equal numbers are equal, `+0 == -0`, and a NaN
is equal to nothing, itself included. -/
def GoFloat64.eq : GoFloat64 → GoFloat64 → Bool
  | GoFloat64.finite x, GoFloat64.finite y => Float64.sameValue x y
  | GoFloat64.inf a, GoFloat64.inf b => a == b
  | _, _ => false

/-- The struct `forex.ConversionResult`. -/
structure ConversionResult where
  Amount : Int
  ExchangeRate : GoFloat64
  deriving DecidableEq, Repr

def ConversionResult.zero : ConversionResult := ⟨0, GoFloat64.zero⟩

/-- The struct `forex.Record`: the fields `RecordDate` (a `RecordDate`, which
wraps a `time.Time`) and `ExchangeRate` (an `ExchangeRate`, which wraps the
`float64` field `Value`). A `time.Time` holds a pointer to its location,
which Go's `==` compares and `GoTime.Time` does not keep (it keeps the
offset): `Loc` is that pointer of the time in `RecordDate`, `none` for `nil`,
which is the pointer of the zero time and of every time in UTC (such as
`time.Parse` returns for a date), and else the name of the location. -/
structure Record where
  RecordDate : GoTime.Time
  ExchangeRate : GoFloat64
  Loc : Option String
  deriving DecidableEq, Repr

/-- The zero value `Record{}`. -/
def Record.zero : Record := ⟨GoTime.Time.zero, GoFloat64.zero, none⟩

/-- The comparison `record == (Record{})`: Go compares the structs field by
field, the time as a struct (the instant and the location pointer, which is
`nil` in the zero time) and the rate with `==` of `float64`. -/
def Record.isZero (record : Record) : Bool :=
  decide (record.RecordDate = GoTime.Time.zero) && decide (record.Loc = none)
    && GoFloat64.eq record.ExchangeRate GoFloat64.zero

def unableToConvertToTargetCurrency : String := "UNABLE_TO_CONVERT_TO_TARGET_CURRENCY"

/-- The interface `forex.Repository` over a state of type `σ` (the context is
not modelled). -/
structure Repository (σ : Type) where
  FindByCountry : String → GoTime.Time → σ → (Record × Option GoError) × σ

/-- The struct `forex.RepositoryService`; its `Converter` carries no data. -/
structure RepositoryService (σ : Type) where
  repository : Repository σ

end forex

/-! ## Package `internal/transaction` -/

namespace transaction

open business GoTime

/-- The struct `transaction.StoreRequest`; an absent field is `none`. -/
structure StoreRequest where
  Description : Option String
  TransactionDate : Option String
  AmountInCents : Option Int
  deriving DecidableEq, Repr

/-- The struct `transaction.Entity`. -/
structure Entity where
  ID : String
  Description : String
  TransactionDate : Time
  AmountInCents : Int
  deriving DecidableEq, Repr

/-- The zero value `Entity{}`. -/
def Entity.zero : Entity := ⟨"", "", Time.zero, 0⟩

/-- The struct `transaction.StoreResponse`. -/
structure StoreResponse where
  ID : String
  deriving DecidableEq, Repr

def StoreResponse.zero : StoreResponse := ⟨""⟩

/-- The struct `transaction.Amount`. -/
structure Amount where
  USDAmountInCents : Int
  ConvertedAmountInCents : Int
  ExchangeRate : forex.GoFloat64
  deriving DecidableEq, Repr

/-- The struct `transaction.Response`; `TransactionDate` is the pointer
`*FormattedDate`, `none` when `nil`. -/
structure Response where
  ID : String
  Description : String
  TransactionDate : Option Time
  Amount : Amount
  deriving DecidableEq, Repr

/-- The struct `transaction.FetchResponse`. -/
structure FetchResponse where
  Transaction : Response
  deriving DecidableEq, Repr

def FetchResponse.zero : FetchResponse := ⟨⟨"", "", none, ⟨0, 0, forex.GoFloat64.zero⟩⟩⟩

/-- The text that `FormattedDate.MarshalJSON` writes for the date of a
response: `d.Time.Format("2006-01-02")`. -/
def FormattedDate (r : Response) : Option String := r.TransactionDate.map Time.Format

def message : String := "VALIDATION_ERROR"
def countryFieldName : String := "country"
def countryMinLength : Nat := 2
def descriptionFieldName : String := "description"
def descriptionMinLength : Nat := 1
def descriptionMaxLength : Nat := 50
def transactionDateFieldName : String := "transactionDate"
def amountInCentsFieldName : String := "amountInCents"
def transactionNotFound : String := "TRANSACTION_NOT_FOUND"

/-- The statement `if err != nil { fieldErrors = append(fieldErrors, *err) }`. -/
def appendIfErr (fieldErrors : List FieldError) (err : Option FieldError) : List FieldError :=
  match err with
  | some e => fieldErrors ++ [e]
  | none => fieldErrors

def checkForErrors (fieldErrors : List FieldError) : Option GoError :=
  if fieldErrors.length > 0 then some (GoError.business ⟨fieldErrors, message⟩) else none

def mandatory (transaction : StoreRequest) : Option GoError :=
  let fieldErrors : List FieldError := []
  let fieldErrors := appendIfErr fieldErrors
    (validation.IsRequiredString descriptionFieldName transaction.Description)
  let fieldErrors := appendIfErr fieldErrors
    (validation.IsRequiredString transactionDateFieldName transaction.TransactionDate)
  let fieldErrors := appendIfErr fieldErrors
    (validation.IsRequiredInt amountInCentsFieldName transaction.AmountInCents)
  checkForErrors fieldErrors

def correctness (now : Time) (transaction : StoreRequest) : Option GoError :=
  let fieldErrors : List FieldError := []
  let fieldErrors := appendIfErr fieldErrors
    (validation.IsMinLength descriptionFieldName transaction.Description descriptionMinLength)
  let fieldErrors := appendIfErr fieldErrors
    (validation.IsMaxLength descriptionFieldName transaction.Description descriptionMaxLength)
  let (transactionDate, err) := validation.IsDate transactionDateFieldName transaction.TransactionDate
  let fieldErrors := appendIfErr fieldErrors err
  let fieldErrors := appendIfErr fieldErrors
    (validation.IsDateNowOrEarlier now transactionDateFieldName transactionDate)
  let fieldErrors := appendIfErr fieldErrors
    (validation.IsNotZero amountInCentsFieldName transaction.AmountInCents)
  checkForErrors fieldErrors

/-- The method `storeValidator.validate`; `now` is what `time.Now()` returns
during the call. -/
def storeValidator.validate (now : Time) (transaction : StoreRequest) : Option GoError :=
  match mandatory transaction with
  | some err => some err
  | none =>
    match correctness now transaction with
    | some err => some err
    | none => none

/-- The method `fetchValidator.validate`; the country is passed on as the
non-nil pointer `&country`. -/
def fetchValidator.validate (country : String) : Option GoError :=
  let fieldErrors : List FieldError := []
  let fieldErrors := appendIfErr fieldErrors
    (validation.IsRequiredString countryFieldName (some country))
  let fieldErrors := appendIfErr fieldErrors
    (validation.IsMinLength countryFieldName (some country) countryMinLength)
  checkForErrors fieldErrors

/-- The function `monthsOlderThan`: `date.AddDate(0, numberOfMonths*-1, 0)`. -/
def monthsOlderThan (date : Time) (numberOfMonths : Int) : Time :=
  date.AddDate 0 (numberOfMonths * -1) 0

/-- The function `mapDate`. -/
def mapDate (date : Option String) : Time × Option GoError :=
  match date with
  | none => (Time.zero, none)
  | some d =>
    match Parse d with
    | none => (Time.zero, some (GoError.other "parsing time: cannot parse"))
    | some mappedDate => (mappedDate, none)

/-- The function `mapToEntity`; `none` stands for the run-time panic of
dereferencing a `nil` description or amount. -/
def mapToEntity (txn : StoreRequest) : Option (Entity × Option GoError) :=
  match mapDate txn.TransactionDate with
  | (_, some err) => some (Entity.zero, some err)
  | (txnDate, none) =>
    match txn.Description, txn.AmountInCents with
    | some description, some amountInCents =>
      some (⟨"", description, txnDate, amountInCents⟩, none)
    | _, _ => none

/-- A call made to a collaborator of the service. -/
inductive Call where
  | Save (txn : Entity)
  | FindByID (id : String)
  | Convert (country : String) (dateOfOldestExchangeRate : Time) (amountInCents : Int)
  deriving DecidableEq, Repr

/-- The interface `transaction.Repository` over a store of type `σ`: each
method is a function of the state of the store before the call and returns
the state after it. -/
structure Repository (σ : Type) where
  Save : Entity → σ → (Entity × Option GoError) × σ
  FindByID : String → σ → Entity × σ

/-- The interface `transaction.ForExService`, over the same state; `none`
stands for a call that does not return (a run-time panic). -/
structure ForExService (σ : Type) where
  Convert : String → Time → Int → σ → Option ((forex.ConversionResult × Option GoError) × σ)

/-- The struct `transaction.RepositoryService`; its two validators carry no
data. -/
structure RepositoryService (σ : Type) where
  txnRepository : Repository σ
  forExService : ForExService σ

/-- What a call of a service method leaves behind: the returned response and
error, the state of the collaborators, and the calls made to them, in order.
`panicked` is set when the method did not return (a run-time panic). -/
structure Outcome (α σ : Type) where
  response : α
  err : Option GoError
  state : σ
  calls : List Call
  panicked : Bool

/-- The method `RepositoryService.Store`. -/
def RepositoryService.Store {σ : Type} (s : RepositoryService σ) (now : Time)
    (txn : StoreRequest) (w : σ) : Outcome StoreResponse σ :=
  match storeValidator.validate now txn with
  | some err => ⟨StoreResponse.zero, some err, w, [], false⟩
  | none =>
    match mapToEntity txn with
    | none => ⟨StoreResponse.zero, none, w, [], true⟩
    | some (_, some err) => ⟨StoreResponse.zero, some err, w, [], false⟩
    | some (entity, none) =>
      match s.txnRepository.Save entity w with
      | ((_, some err), w1) => ⟨StoreResponse.zero, some err, w1, [Call.Save entity], false⟩
      | ((updated, none), w1) => ⟨⟨updated.ID⟩, none, w1, [Call.Save entity], false⟩

/-- The method `RepositoryService.Fetch` (the context is not modelled). -/
def RepositoryService.Fetch {σ : Type} (s : RepositoryService σ)
    (transactionID country : String) (w : σ) : Outcome FetchResponse σ :=
  match fetchValidator.validate country with
  | some err => ⟨FetchResponse.zero, some err, w, [], false⟩
  | none =>
    let (entity, w1) := s.txnRepository.FindByID transactionID w
    if entity = Entity.zero then
      ⟨FetchResponse.zero, some (GoError.business ⟨[], transactionNotFound⟩), w1,
        [Call.FindByID transactionID], false⟩
    else
      let dateOfOldestExchangeRate := monthsOlderThan entity.TransactionDate 6
      match s.forExService.Convert country dateOfOldestExchangeRate entity.AmountInCents w1 with
      | none =>
        ⟨FetchResponse.zero, none, w1,
          [Call.FindByID transactionID,
            Call.Convert country dateOfOldestExchangeRate entity.AmountInCents], true⟩
      | some ((_, some err), w2) =>
        ⟨FetchResponse.zero, some err, w2,
          [Call.FindByID transactionID,
            Call.Convert country dateOfOldestExchangeRate entity.AmountInCents], false⟩
      | some ((result, none), w2) =>
        ⟨⟨⟨entity.ID, entity.Description, some entity.TransactionDate,
            ⟨entity.AmountInCents, result.Amount, result.ExchangeRate⟩⟩⟩, none, w2,
          [Call.FindByID transactionID,
            Call.Convert country dateOfOldestExchangeRate entity.AmountInCents], false⟩

/-- The interface `transaction.IDGenerator` over a generator state `γ`. -/
structure IDGenerator (γ : Type) where
  NewID : γ → (String × Option GoError) × γ

/-- The struct `transaction.InMemoryRepository`: the map `data` (a missing
key is `none`) and the state of its id generator. The lock is not modelled
here, where calls are taken one at a time; calls made at the same time are
modelled with `Goroutines` below. -/
structure InMemoryRepository (γ : Type) where
  data : String → Option Entity
  idGenerator : γ

/-- The constructor `NewInMemoryRepository`: an empty map. -/
def NewInMemoryRepository {γ : Type} (g : γ) : InMemoryRepository γ :=
  ⟨fun _ => none, g⟩

/-- The method `InMemoryRepository.Save`. -/
def InMemoryRepository.Save {γ : Type} (gen : IDGenerator γ) (txn : Entity)
    (r : InMemoryRepository γ) : (Entity × Option GoError) × InMemoryRepository γ :=
  match gen.NewID r.idGenerator with
  | ((_, some err), g1) => ((Entity.zero, some err), ⟨r.data, g1⟩)
  | ((id, none), g1) =>
    let txn : Entity := { txn with ID := id }
    ((txn, none), ⟨fun k => if k = txn.ID then some txn else r.data k, g1⟩)

/-- The method `InMemoryRepository.FindByID`: the map lookup `r.data[id]`,
which is the zero value for a missing key. -/
def InMemoryRepository.FindByID {γ : Type} (id : String) (r : InMemoryRepository γ) : Entity :=
  match r.data id with
  | some txn => txn
  | none => Entity.zero

/-- The `InMemoryRepository` as an implementation of `Repository`. -/
def InMemoryRepository.repository {γ : Type} (gen : IDGenerator γ) :
    Repository (InMemoryRepository γ) where
  Save := InMemoryRepository.Save gen
  FindByID := fun id r => (InMemoryRepository.FindByID id r, r)

/-- A call of a method of the repository. -/
inductive RepositoryCall where
  | Save (txn : Entity)
  | FindByID (id : String)
  deriving DecidableEq, Repr

/-- The state of the repository after a sequence of calls, made one after
another. -/
def InMemoryRepository.run {γ : Type} (gen : IDGenerator γ) :
    List RepositoryCall → InMemoryRepository γ → InMemoryRepository γ
  | [], r => r
  | RepositoryCall.Save txn :: calls, r => run gen calls (InMemoryRepository.Save gen txn r).2
  | RepositoryCall.FindByID _ :: calls, r => run gen calls r

/-- The ids that the generator returns (without error) during a sequence of
calls. -/
def InMemoryRepository.generated {γ : Type} (gen : IDGenerator γ) :
    List RepositoryCall → InMemoryRepository γ → List String
  | [], _ => []
  | RepositoryCall.Save txn :: calls, r =>
    match (gen.NewID r.idGenerator).1 with
    | (id, none) => id :: generated gen calls (InMemoryRepository.Save gen txn r).2
    | (_, some _) => generated gen calls (InMemoryRepository.Save gen txn r).2
  | RepositoryCall.FindByID _ :: calls, r => generated gen calls r

/-- The entities saved one after another: what each `Save` returns, and the
state of the repository at the end. -/
def InMemoryRepository.saveAll {γ : Type} (gen : IDGenerator γ) :
    List Entity → InMemoryRepository γ → List (Entity × Option GoError) × InMemoryRepository γ
  | [], r => ([], r)
  | txn :: txns, r =>
    let saved := InMemoryRepository.Save gen txn r
    let rest := saveAll gen txns saved.2
    (saved.1 :: rest.1, rest.2)

end transaction

/-! ## Package `internal/id` -/

namespace id

/-- The method `SequentialGenerator.NewID`; the state is `previousID`. -/
def SequentialGenerator : transaction.IDGenerator Nat where
  NewID := fun previousID =>
    (("sequentialID-" ++ Nat.repr (previousID + 1), none), previousID + 1)

end id

/-! ## Package `math/big` (floats of precision 53) and `internal/forex` -/

namespace big

/-- A finite `big.Float`: the number `(-1)^neg * mant * 2^exp`, zero when
`mant = 0` (then `neg` tells `-0` from `+0`). Every `big.Float` of the
converter has precision 53 and the rounding mode `ToNearestEven`. -/
structure Float where
  neg : Bool
  mant : Nat
  exp : Int
  deriving DecidableEq, Repr

/-- The bit length of `n` computed with `fuel` halvings at most. -/
def bitLenFuel : Nat → Nat → Nat
  | 0, _ => 0
  | fuel + 1, n => if n = 0 then 0 else bitLenFuel fuel (n / 2) + 1

/-- The bit length of `n` (`nat.bitLen`): the least `k` with `n < 2^k`. -/
def bitLen (n : Nat) : Nat := bitLenFuel n n

/-- Rounding of `mant * 2^exp` to 53 significant bits, to nearest, a tie to
the even mantissa (`Float.round` with `prec = 53`, `mode = ToNearestEven`). -/
def round (mant : Nat) (exp : Int) : Nat × Int :=
  if mant < 2 ^ 53 then (mant, exp)
  else
    let shift := bitLen mant - 53
    let q := mant / 2 ^ shift
    let r := mant % 2 ^ shift
    let half := 2 ^ (shift - 1)
    let q := if r > half ∨ (r = half ∧ q % 2 = 1) then q + 1 else q
    (q, exp + shift)

/-- The function `big.NewFloat(x)` for a finite `x`: exact, since a `float64`
has at most 53 significant bits. -/
def NewFloat (x : forex.Float64) : Float := ⟨x.neg, x.mant, x.exp⟩

/-- The method `Float.Sign`: `-1`, `0` (for `+0` and `-0`) or `+1`. -/
def Float.Sign (x : Float) : Int :=
  if x.mant = 0 then 0 else if x.neg = true then -1 else 1

/-- The call `z.Mul(x, y)` for a `z` of precision 0, which takes the larger
precision of the operands, 53, and rounds the exact product to it. -/
def Float.Mul (x y : Float) : Float :=
  if x.mant = 0 ∨ y.mant = 0 then ⟨x.neg != y.neg, 0, 0⟩
  else
    let (m, e) := round (x.mant * y.mant) (x.exp + y.exp)
    ⟨x.neg != y.neg, m, e⟩

/-- The call `z.Add(x, y)` for a `z` of precision 53: the exact sum rounded to
53 bits. A zero sum of two non-zero operands is `+0`. -/
def Float.Add (x y : Float) : Float :=
  if x.mant = 0 ∧ y.mant = 0 then ⟨x.neg && y.neg, 0, 0⟩
  else if y.mant = 0 then
    let (m, e) := round x.mant x.exp
    ⟨x.neg, m, e⟩
  else if x.mant = 0 then
    let (m, e) := round y.mant y.exp
    ⟨y.neg, m, e⟩
  else
    let e := min x.exp y.exp
    let mx : Nat := x.mant * 2 ^ (x.exp - e).toNat
    let my : Nat := y.mant * 2 ^ (y.exp - e).toNat
    let sum : ℤ := (if x.neg = true then -(mx : ℤ) else mx) + (if y.neg = true then -(my : ℤ) else my)
    let (m, e1) := round sum.natAbs e
    ⟨if x.neg = y.neg then x.neg else decide (sum < 0), m, e1⟩

/-- The exact rational number a finite `big.Float` denotes. -/
def Float.toRat (x : Float) : ℚ :=
  (if x.neg = true then -1 else 1) * (x.mant : ℚ) * (2 : ℚ) ^ x.exp

/-- The method `Float.Int`: the value truncated towards zero, as a `big.Int`. -/
def Float.Int (x : Float) : ℤ :=
  let mag : Nat := if 0 ≤ x.exp then x.mant * 2 ^ x.exp.toNat else x.mant / 2 ^ (-x.exp).toNat
  if x.neg = true then -(mag : ℤ) else mag

/-- The method `Int.Int64`: the low 64 bits, in two's complement. -/
def Int64 (x : ℤ) : ℤ := (x + 9223372036854775808) % 18446744073709551616 - 9223372036854775808

/-- The mantissa that `round` keeps of `m` when it cuts off `s` bits: the
quotient by `2^s`, one more when the remainder is above one half, or is one
half and the quotient is odd. -/
def rne (m s : Nat) : Nat :=
  if m % 2 ^ s > 2 ^ (s - 1) ∨ (m % 2 ^ s = 2 ^ (s - 1) ∧ m / 2 ^ s % 2 = 1) then m / 2 ^ s + 1
  else m / 2 ^ s

/-- The number that a natural number is rounded to: `round m 0` as a
number. -/
def rounded (m : Nat) : Nat := (round m 0).1 * 2 ^ (round m 0).2.toNat

/-- The constants `MaxExp` and `MinExp`: the largest and the smallest exponent
of a `big.Float`, the range of an `int32`. -/
def MaxExp : ℤ := 2147483647
def MinExp : ℤ := -2147483648

/-- A `*big.Float` of precision 53 in any of its three forms: finite or zero
(a `Float`, zero when the mantissa is 0) or an infinity. -/
inductive GoFloat where
  | finite (x : Float)
  | inf (neg : Bool)
  deriving DecidableEq, Repr

/-- The method `setExpAndRound` of a non-zero mantissa: Go keeps the mantissa
as a fraction in `[1/2, 1)`, so the exponent it checks is `exp` plus the bit
length. Below `MinExp` the result is a zero, above `MaxExp` an infinity;
else the mantissa is rounded, and a carry out of the rounding at `MaxExp`
gives an infinity too. -/
def setExpAndRound (neg : Bool) (mant : Nat) (exp : ℤ) : GoFloat :=
  if (bitLen mant : ℤ) + exp < MinExp then GoFloat.finite ⟨neg, 0, 0⟩
  else if (bitLen mant : ℤ) + exp > MaxExp then GoFloat.inf neg
  else
    let (m, e) := round mant exp
    if (bitLen m : ℤ) + e > MaxExp then GoFloat.inf neg else GoFloat.finite ⟨neg, m, e⟩

/-- The function `big.NewFloat` on any `float64`; `none` stands for the panic
`ErrNaN` on a NaN. -/
def NewFloatOrPanic : forex.GoFloat64 → Option GoFloat
  | forex.GoFloat64.finite x => some (GoFloat.finite (NewFloat x))
  | forex.GoFloat64.inf neg => some (GoFloat.inf neg)
  | forex.GoFloat64.nan => none

/-- The method `Float.Sign` in any form. -/
def GoFloat.Sign : GoFloat → ℤ
  | GoFloat.finite x => x.Sign
  | GoFloat.inf neg => if neg = true then -1 else 1

/-- The call `z.Mul(x, y)` for a `z` of precision 0, in any form of the
operands; `none` stands for the panic `ErrNaN` on a zero times an
infinity. -/
def GoFloat.Mul : GoFloat → GoFloat → Option GoFloat
  | GoFloat.finite x, GoFloat.finite y =>
    if x.mant = 0 ∨ y.mant = 0 then some (GoFloat.finite ⟨x.neg != y.neg, 0, 0⟩)
    else some (setExpAndRound (x.neg != y.neg) (x.mant * y.mant) (x.exp + y.exp))
  | GoFloat.finite x, GoFloat.inf n =>
    if x.mant = 0 then none else some (GoFloat.inf (x.neg != n))
  | GoFloat.inf n, GoFloat.finite y =>
    if y.mant = 0 then none else some (GoFloat.inf (n != y.neg))
  | GoFloat.inf a, GoFloat.inf b => some (GoFloat.inf (a != b))

/-- The call `z.Add(x, y)` for a `z` of precision 53, in any form of the
operands; `none` stands for the panic `ErrNaN` on infinities of opposite
signs. With a zero operand the other one is copied (`z.Set`), as `Float.Add`
does; the sum of two non-zero operands goes through `setExpAndRound`, and a
zero sum of theirs is `+0`. -/
def GoFloat.Add : GoFloat → GoFloat → Option GoFloat
  | GoFloat.finite x, GoFloat.finite y =>
    if x.mant = 0 ∨ y.mant = 0 then some (GoFloat.finite (x.Add y))
    else
      let e := min x.exp y.exp
      let mx : Nat := x.mant * 2 ^ (x.exp - e).toNat
      let my : Nat := y.mant * 2 ^ (y.exp - e).toNat
      let sum : ℤ := (if x.neg = true then -(mx : ℤ) else mx) + (if y.neg = true then -(my : ℤ) else my)
      if sum = 0 then some (GoFloat.finite ⟨false, 0, 0⟩)
      else some (setExpAndRound (if x.neg = y.neg then x.neg else decide (sum < 0)) sum.natAbs e)
  | GoFloat.inf a, GoFloat.inf b => if a = b then some (GoFloat.inf a) else none
  | GoFloat.inf a, GoFloat.finite _ => some (GoFloat.inf a)
  | GoFloat.finite _, GoFloat.inf b => some (GoFloat.inf b)

/-- The call `x.Int(nil)` in any form: the `nil` pointer (`none`) for an
infinity. -/
def GoFloat.Int : GoFloat → Option ℤ
  | GoFloat.finite x => some x.Int
  | GoFloat.inf _ => none

end big

namespace forex

/-- The conversion `float64(amount)` of an `int`: the nearest `float64`, a tie
to the even mantissa (exact up to `2^53` in absolute value). -/
def Float64.ofInt (amount : Int) : Float64 :=
  let (m, e) := big.round amount.natAbs 0
  ⟨decide (amount < 0), m, e⟩

/-- The `float64` that a Go constant of the exact value `num / den` (negated
when `neg`) becomes: the nearest `float64`, a tie to the even mantissa. The
quotient is taken with at least 55 bits and a sticky bit for the remainder,
then rounded; the constants of the service are far from the subnormal and
the overflow range, which is not modelled. -/
def Float64.ofConst (neg : Bool) (num den : Nat) : Float64 :=
  if num = 0 ∨ den = 0 then Float64.zero
  else
    let s : Int := 55 + (big.bitLen den : Int) - (big.bitLen num : Int)
    let n := num * 2 ^ s.toNat
    let d := den * 2 ^ (-s).toNat
    let (m, e) := big.round (2 * (n / d) + (if n % d = 0 then 0 else 1)) (-s - 1)
    ⟨neg, m, e⟩

/-- The exact rational number a finite `float64` denotes. -/
def Float64.toRat (x : Float64) : ℚ :=
  (if x.neg = true then -1 else 1) * (x.mant : ℚ) * (2 : ℚ) ^ x.exp

/-- The function `roundToNearestBigInt`. -/
def roundToNearestBigInt (value : big.Float) : Int :=
  let newValue := value
  let delta : Float64 := if newValue.Sign < 0 then ⟨true, 1, -1⟩ else ⟨false, 1, -1⟩
  let newValue := newValue.Add (big.NewFloat delta)
  newValue.Int

/-- The method `Converter.Convert`. -/
def Converter.Convert (amount : Int) (exchangeRate : Float64) : Int :=
  let rate := big.NewFloat exchangeRate
  let originalAmount := big.NewFloat (Float64.ofInt amount)
  let targetCurrencyAmount := originalAmount.Mul rate
  let rounded := roundToNearestBigInt targetCurrencyAmount
  big.Int64 rounded

/-- The method `Converter.Convert` on any `float64`; `none` stands for a
run-time panic. A finite rate is converted as above. For a NaN,
`big.NewFloat` panics (`ErrNaN`). For an infinity the product is an infinity
(or `Mul` panics, when the amount is 0), the sum with the half is an infinity
again, `Float.Int` of an infinity is the `nil` pointer and `Int64` on it
panics. -/
def Converter.ConvertOrPanic (amount : Int) (exchangeRate : GoFloat64) : Option Int :=
  match exchangeRate with
  | GoFloat64.finite x => some (Converter.Convert amount x)
  | GoFloat64.inf _ => none
  | GoFloat64.nan => none

/-- The method `forex.RepositoryService.Convert` (the context is not
modelled); `none` stands for a run-time panic (of the converter). -/
def RepositoryService.Convert {σ : Type} (s : RepositoryService σ) (country : String)
    (dateOfOldestExchangeRate : GoTime.Time) (amountInCents : Int) (w : σ) :
    Option ((ConversionResult × Option GoError) × σ) :=
  match s.repository.FindByCountry country dateOfOldestExchangeRate w with
  | ((_, some err), w1) => some ((ConversionResult.zero, some err), w1)
  | ((record, none), w1) =>
    if record.isZero = true then
      some ((ConversionResult.zero,
        some (GoError.business ⟨[], unableToConvertToTargetCurrency⟩)), w1)
    else
      let exchangeRate := record.ExchangeRate
      match Converter.ConvertOrPanic amountInCents exchangeRate with
      | none => none
      | some amount => some ((⟨amount, exchangeRate⟩, none), w1)

/-- The `forex.RepositoryService` as an implementation of the interface
`transaction.ForExService` (the wiring of `app.NewDependencies`). -/
def RepositoryService.forExService {σ : Type} (s : RepositoryService σ) :
    transaction.ForExService σ where
  Convert := s.Convert

/-- Go's unary minus on a finite `float64`: the sign bit is flipped. -/
def Float64.negate (x : Float64) : Float64 := ⟨!x.neg, x.mant, x.exp⟩

/-- The function `roundToNearestBigInt` on a `*big.Float` in any form. The
outer `none` stands for a panic, the inner one for the `nil` pointer that
`Int` returns for an infinity. -/
def roundToNearestBigIntOrPanic (value : big.GoFloat) : Option (Option Int) :=
  let newValue := value
  let delta : Float64 := if newValue.Sign < 0 then ⟨true, 1, -1⟩ else ⟨false, 1, -1⟩
  match big.NewFloatOrPanic (GoFloat64.finite delta) with
  | none => none
  | some d =>
    match newValue.Add d with
    | none => none
    | some newValue => some newValue.Int

/-- The method `Converter.Convert` statement by statement, on values of
`*big.Float` in any form; `none` stands for a run-time panic: of
`big.NewFloat`, of `Mul`, of `Add`, or of `Int64` on the `nil` pointer. -/
def Converter.ConvertSteps (amount : Int) (exchangeRate : GoFloat64) : Option Int :=
  match big.NewFloatOrPanic exchangeRate with
  | none => none
  | some rate =>
    match big.NewFloatOrPanic (GoFloat64.finite (Float64.ofInt amount)) with
    | none => none
    | some originalAmount =>
      match originalAmount.Mul rate with
      | none => none
      | some targetCurrencyAmount =>
        match roundToNearestBigIntOrPanic targetCurrencyAmount with
        | none => none
        | some none => none
        | some (some rounded) => some (big.Int64 rounded)

/-- The nearest integer to `x`, a value exactly at .5 rounded away from zero. -/
def roundHalfAwayFromZero (x : ℚ) : Int :=
  if 0 ≤ x then ⌊x + 1 / 2⌋ else -⌊-x + 1 / 2⌋

end forex


/-! ## Package `internal/forex`: the repository of the Treasury API -/

namespace forex

def baseURL : String :=
  "https://api.fiscaldata.treasury.gov/services/api/fiscal_service/v1/accounting/od/rates_of_exchange?sort=-record_date&format=json"

def pageSize : Nat := 1
def pageNumber : Nat := 1

/-- The bytes of a character in UTF-8; a Go string is its bytes. -/
def utf8Bytes (c : Char) : List Nat :=
  let v := c.toNat
  if v < 128 then [v]
  else if v < 2048 then [192 + v / 64, 128 + v % 64]
  else if v < 65536 then [224 + v / 4096, 128 + v / 64 % 64, 128 + v % 64]
  else [240 + v / 262144, 128 + v / 4096 % 64, 128 + v / 64 % 64, 128 + v % 64]

/-- The function `shouldEscape(c, encodeQueryComponent)` of `net/url`: letters,
digits and the marks `-`, `_`, `.`, `~` are kept, every other byte is
escaped. -/
def shouldEscape (c : Nat) : Bool :=
  if (97 ≤ c ∧ c ≤ 122) ∨ (65 ≤ c ∧ c ≤ 90) ∨ (48 ≤ c ∧ c ≤ 57) then false
  else if c = 45 ∨ c = 95 ∨ c = 46 ∨ c = 126 then false
  else true

/-- The table `upperhex` of `net/url`. -/
def upperhex (n : Nat) : Char :=
  ['0', '1', '2', '3', '4', '5', '6', '7', '8', '9', 'A', 'B', 'C', 'D', 'E', 'F'].getD n '0'

/-- What `escape(s, encodeQueryComponent)` writes for one byte: a space
becomes `+`, another byte to escape becomes `%` and two hexadecimal digits. -/
def escapeByte (c : Nat) : List Char :=
  if shouldEscape c = true then
    if c = 32 then ['+'] else ['%', upperhex (c / 16), upperhex (c % 16)]
  else [Char.ofNat c]

/-- The function `url.QueryEscape`. -/
def QueryEscape (s : String) : String :=
  String.mk ((s.data.map utf8Bytes).flatten.map escapeByte).flatten

/-- The function `ishex` of `net/url`. -/
def ishex (c : Nat) : Bool :=
  (48 ≤ c ∧ c ≤ 57) ∨ (97 ≤ c ∧ c ≤ 102) ∨ (65 ≤ c ∧ c ≤ 70)

/-- The function `unhex` of `net/url`. -/
def unhex (c : Nat) : Nat :=
  if 48 ≤ c ∧ c ≤ 57 then c - 48
  else if 97 ≤ c ∧ c ≤ 102 then c - 97 + 10
  else if 65 ≤ c ∧ c ≤ 70 then c - 65 + 10
  else 0

/-- The function `unescape(s, encodeQueryComponent)` of `net/url` on the bytes
of a string: `%` and two hexadecimal digits give the byte they write, `+`
gives a space, every other byte stands for itself; `none` stands for the
error of a `%` that two hexadecimal digits do not follow. -/
def unescapeBytes : List Nat → Option (List Nat)
  | [] => some []
  | c :: rest =>
    if c = 37 then
      match rest with
      | a :: b :: rest2 =>
        if ishex a = true ∧ ishex b = true then
          (unescapeBytes rest2).map (fun t => (unhex a * 16 + unhex b) :: t)
        else none
      | _ => none
    else if c = 43 then (unescapeBytes rest).map (fun t => 32 :: t)
    else (unescapeBytes rest).map (fun t => c :: t)

/-- The function `url.QueryUnescape`, giving the bytes of the string that it
returns. -/
def QueryUnescape (s : String) : Option (List Nat) :=
  unescapeBytes (s.data.map utf8Bytes).flatten

/-- The verb `%d` on an `int`. -/
def itoa (n : Int) : String :=
  if n < 0 then "-" ++ Nat.repr n.natAbs else Nat.repr n.toNat

/-- The function `newURL`. -/
def newURL (country : String) (dateOfOldestRecord : GoTime.Time) : String :=
  baseURL ++ "&filter=record_date:gte:" ++ dateOfOldestRecord.Format ++ ",country:eq:"
    ++ QueryEscape country ++ "&page[size]=" ++ itoa pageSize ++ "&page[number]=" ++ itoa pageNumber

/-- A `*http.Request`, of which the method and the URL are kept. -/
structure Request where
  Method : String
  URL : String
  deriving DecidableEq, Repr

/-- The function `http.NewRequestWithContext` with a non-nil context and no
body. It returns an error for an invalid method or a URL that does not
parse; the method here is `GET`, and a URL of `newURL` has the fixed scheme,
host and path of `baseURL` and a query without a control byte, so it
parses. -/
def NewRequestWithContext (method url : String) : Request × Option GoError :=
  (⟨method, url⟩, none)

/-- A `*http.Response`: the status code, and what `io.ReadAll` returns for the
body (the bytes read and an error). -/
structure HttpResponse where
  StatusCode : Int
  Body : String × Option GoError
  deriving DecidableEq, Repr

/-- The interface `forex.HttpClient` over a state of type `σ`; with an error
the response is `nil` and what stands for it here is not looked at. -/
structure HttpClient (σ : Type) where
  Do : Request → σ → (HttpResponse × Option GoError) × σ

/-- The struct `forex.APIResponse`. -/
structure APIResponse where
  Data : List Record
  deriving DecidableEq, Repr

/-- The zero value `APIResponse{}`. -/
def APIResponse.zero : APIResponse := ⟨[]⟩

/-- The struct `forex.TreasuryRepository`. -/
structure TreasuryRepository (σ : Type) where
  httpClient : HttpClient σ

/-- The function `read`: `io.ReadAll` of the body (closing it is not
modelled). -/
def read (closer : String × Option GoError) : String × Option GoError := closer

/-- The function `parseResponse`; `Unmarshal` is `json.Unmarshal` into an
`APIResponse`. -/
def parseResponse (Unmarshal : String → APIResponse × Option GoError)
    (response : HttpResponse) : APIResponse × Option GoError :=
  match read response.Body with
  | (_, some err) => (APIResponse.zero, some err)
  | (body, none) =>
    match Unmarshal body with
    | (_, some err) => (APIResponse.zero, some err)
    | (unmarshalled, none) => (unmarshalled, none)

/-- The text of the error for a status other than 200. -/
def statusError (statusCode : Int) (body : String) : GoError :=
  GoError.other ("http status " ++ itoa statusCode
    ++ " received from treasury api. response body: " ++ body)

/-- The method `TreasuryRepository.FindByCountry` (the context is not
modelled); `Unmarshal` is `json.Unmarshal` into an `APIResponse`. -/
def TreasuryRepository.FindByCountry {σ : Type}
    (Unmarshal : String → APIResponse × Option GoError) (r : TreasuryRepository σ)
    (country : String) (dateOfOldestRecord : GoTime.Time) (w : σ) :
    (Record × Option GoError) × σ :=
  match NewRequestWithContext "GET" (newURL country dateOfOldestRecord) with
  | (_, some err) => ((Record.zero, some err), w)
  | (request, none) =>
    match r.httpClient.Do request w with
    | ((_, some err), w1) => ((Record.zero, some err), w1)
    | ((response, none), w1) =>
      if response.StatusCode ≠ 200 then
        match read response.Body with
        | (_, some err) => ((Record.zero, some err), w1)
        | (body, none) => ((Record.zero, some (statusError response.StatusCode body)), w1)
      else
        match parseResponse Unmarshal response with
        | (_, some err) => ((Record.zero, some err), w1)
        | (unmarshalled, none) =>
          match unmarshalled.Data with
          | [] => ((Record.zero, none), w1)
          | first :: _ => ((first, none), w1)

/-- The `TreasuryRepository` as an implementation of the interface
`forex.Repository` (the wiring of `app.NewDependencies`). -/
def TreasuryRepository.repository {σ : Type}
    (Unmarshal : String → APIResponse × Option GoError) (r : TreasuryRepository σ) :
    Repository σ where
  FindByCountry := r.FindByCountry Unmarshal

end forex

/-! ## Package `internal/errorhandling`, the handlers, and the context of `gin` -/

namespace business

/-- The text that the verb `%+v` writes for a `[]FieldError`: the elements
as `{FieldName:... Reason:...}`, separated by a space, within brackets (the
method `Error` has a pointer receiver, so it is not used for the elements). -/
def fieldsText (fields : List FieldError) : String :=
  "[" ++ " ".intercalate
    (fields.map fun f => "\x7bFieldName:" ++ f.FieldName ++ " Reason:" ++ f.Reason ++ "\x7d") ++ "]"

set_option linter.dupNamespace false in
/-- The method `(*Error).Error`. -/
def Error.Error (e : Error) : String :=
  "[message '" ++ e.Message ++ "', fields '" ++ fieldsText e.Fields ++ "']"

end business

/-- The method `Error` of an `error` value: its text. -/
def GoError.Error : GoError → String
  | GoError.business e => e.Error
  | GoError.other text => text

namespace json

/-- A JSON value, as far as the bodies of the error responses need it. -/
inductive Value where
  | str (s : String)
  | arr (items : List Value)
  | obj (members : List (String × Value))

end json

namespace business

/-- What `encoding/json` writes for a `FieldError`, by its struct tags. -/
def FieldError.toJSON (f : FieldError) : json.Value :=
  json.Value.obj [("fieldName", json.Value.str f.FieldName), ("reason", json.Value.str f.Reason)]

/-- What `encoding/json` writes for an `Error`, by its struct tags: `fields`
has the option `omitempty`, so a slice of length 0 is left out. -/
def Error.toJSON (e : business.Error) : json.Value :=
  json.Value.obj
    ((if e.Fields.length = 0 then []
      else [("fields", json.Value.arr (e.Fields.map FieldError.toJSON))])
      ++ [("message", json.Value.str e.Message)])

end business

namespace errorhandling

def BadRequest : String := "BAD_REQUEST"
def systemErrorMessage : String := "SYSTEM_ERROR"
def badRequestErrorMessage : String := "BAD_REQUEST"

/-- The struct `errorhandling.ErrorResponse`. -/
structure ErrorResponse where
  Message : String
  deriving DecidableEq, Repr

/-- What `encoding/json` writes for an `ErrorResponse`, by its struct tag. -/
def ErrorResponse.toJSON (r : ErrorResponse) : json.Value :=
  json.Value.obj [("message", json.Value.str r.Message)]

end errorhandling

namespace gin

/-- The value handed to `ctx.JSON`, which `encoding/json` writes as the body
of the response. -/
inductive Body where
  | errorResponse (r : errorhandling.ErrorResponse)
  | businessError (e : business.Error)
  | storeResponse (r : transaction.StoreResponse)
  | fetchResponse (r : transaction.FetchResponse)
  deriving DecidableEq, Repr

/-- The part of a `*gin.Context` that the handlers and the middleware use:
the list `Errors`, and the response written so far, `none` before anything
is written, else the status and the body (`none` when only the header is
written). -/
structure Context where
  Errors : List GoError
  Response : Option (Nat × Option Body)
  deriving DecidableEq, Repr

/-- The context of a request before any handler has run. -/
def Context.new : Context := ⟨[], none⟩

/-- The method `ctx.Error`: the error is appended to `ctx.Errors`. -/
def Context.Error (ctx : Context) (err : GoError) : Context :=
  { ctx with Errors := ctx.Errors ++ [err] }

/-- The method `ctx.JSON`: the status is set unless a header is written
already, and the value is written as the body. The handlers and the
middleware write a body at most once for a request. -/
def Context.JSON (ctx : Context) (code : Nat) (obj : Body) : Context :=
  match ctx.Response with
  | some (written, _) => { ctx with Response := some (written, some obj) }
  | none => { ctx with Response := some (code, some obj) }

/-- The method `ctx.AbortWithError`: the header is written with the status
(unless one is written already) and the error is appended to `ctx.Errors`. -/
def Context.AbortWithError (ctx : Context) (code : Nat) (err : GoError) : Context :=
  match ctx.Response with
  | some _ => ctx.Error err
  | none => { ctx with Response := some (code, none) }.Error err

end gin

namespace errorhandling

open gin

def handleBadRequest (ctx : Context) : Context :=
  ctx.JSON 400 (Body.errorResponse ⟨badRequestErrorMessage⟩)

def handleBusinessError (ctx : Context) (businessError : business.Error) : Context :=
  ctx.JSON 422 (Body.businessError businessError)

/-- The function `handleSystemError`; the line written to the log is not
modelled. -/
def handleSystemError (ctx : Context) : Context :=
  ctx.JSON 500 (Body.errorResponse ⟨systemErrorMessage⟩)

/-- The loop of `NewMiddleware` over `ctx.Errors`: the response of the first
error that is handled, `none` when the loop ends without one. An error of
the kind `GoError.other` is one for which `errors.As` finds no
`*business.Error`. -/
def handleFirst (ctx : Context) : List GoError → Option Context
  | [] => none
  | err :: rest =>
    if err.Error = BadRequest then some (handleBadRequest ctx)
    else
      match err with
      | GoError.business businessError => some (handleBusinessError ctx businessError)
      | GoError.other _ => handleFirst ctx rest

/-- The function `NewMiddleware`; `next` stands for `ctx.Next()`, the
handlers that follow, over the state `σ` of the service, and `none` for a
run-time panic of theirs, which passes through the middleware. -/
def NewMiddleware {σ : Type} (next : Context → σ → Option (Context × σ)) (ctx : Context)
    (w : σ) : Option (Context × σ) :=
  match next ctx w with
  | none => none
  | some (ctx, w1) =>
    match handleFirst ctx ctx.Errors with
    | some handled => some (handled, w1)
    | none =>
      if ctx.Errors.length > 0 then some (handleSystemError ctx, w1)
      else some (ctx, w1)

end errorhandling

namespace transaction

open gin

/-- The interface `transaction.Storer` over a state of type `σ`; `none`
stands for a call that does not return (a run-time panic). -/
structure Storer (σ : Type) where
  Store : StoreRequest → σ → Option ((StoreResponse × Option GoError) × σ)

/-- The interface `transaction.Fetcher`, likewise (the context is not
modelled). -/
structure Fetcher (σ : Type) where
  Fetch : String → String → σ → Option ((FetchResponse × Option GoError) × σ)

/-- The `RepositoryService` as an implementation of `Storer` (the wiring of
`app.NewRouter`); `now` is what `time.Now()` returns during the call. -/
def RepositoryService.storer {σ : Type} (s : RepositoryService σ) (now : GoTime.Time) :
    Storer σ where
  Store := fun request w =>
    let out := s.Store now request w
    if out.panicked = true then none else some ((out.response, out.err), out.state)

/-- The `RepositoryService` as an implementation of `Fetcher`. -/
def RepositoryService.fetcher {σ : Type} (s : RepositoryService σ) : Fetcher σ where
  Fetch := fun transactionID country w =>
    let out := s.Fetch transactionID country w
    if out.panicked = true then none else some ((out.response, out.err), out.state)

/-- The handler of `NewStoreHandler`. `bind` is what `ctx.Bind(&request)`
makes of the body of the request: the request, or the error of the binding,
in which case `Bind` has aborted the context with the status 400 and that
error. -/
def NewStoreHandler {σ : Type} (service : Storer σ) (bind : Except GoError StoreRequest)
    (ctx : Context) (w : σ) : Option (Context × σ) :=
  match bind with
  | Except.error bindErr =>
    let ctx := ctx.AbortWithError 400 bindErr
    some (ctx.Error (GoError.other errorhandling.BadRequest), w)
  | Except.ok request =>
    match service.Store request w with
    | none => none
    | some ((_, some err), w1) => some (ctx.Error err, w1)
    | some ((response, none), w1) => some (ctx.JSON 200 (Body.storeResponse response), w1)

/-- The handler of `NewFetchHandler`; `id` is `ctx.Param("id")` and `country`
is `ctx.Query("country")`. -/
def NewFetchHandler {σ : Type} (service : Fetcher σ) (id country : String)
    (ctx : Context) (w : σ) : Option (Context × σ) :=
  match service.Fetch id country w with
  | none => none
  | some ((_, some err), w1) => some (ctx.Error err, w1)
  | some ((response, none), w1) => some (ctx.JSON 200 (Body.fetchResponse response), w1)

end transaction

/-! ## Goroutines that run `Save` and `FindByID` at the same time -/

namespace transaction

/-- The statement that a goroutine running `InMemoryRepository.Save` (with the
`SequentialGenerator`) or `InMemoryRepository.FindByID` executes next. In
`Save`: `g.previousID++` and `fmt.Sprintf("sequentialID-%d", g.previousID)` of
`NewID`, then `r.mu.Lock()`, `r.data[txn.ID] = txn`, `r.mu.Unlock()`. In
`FindByID`: `r.mu.RLock()`, `txn := r.data[id]`, `r.mu.RUnlock()`. -/
inductive Statement where
  | increment
  | format
  | lock
  | write
  | unlock
  | rlock
  | read
  | runlock
  | returned
  deriving DecidableEq, Repr

/-- A goroutine in a call of `Save` or of `FindByID`: the statement it is at
and its local variables `txn` (the argument of `Save`, the result of both)
and `id` (the result of `NewID`, the argument of `FindByID`). -/
structure Goroutine where
  next : Statement
  txn : Entity
  id : String
  deriving DecidableEq, Repr

/-- A goroutine that enters `Save(txn)`. -/
def Goroutine.Save (txn : Entity) : Goroutine := ⟨Statement.increment, txn, ""⟩

/-- A goroutine that enters `FindByID(id)`. -/
def Goroutine.FindByID (id : String) : Goroutine := ⟨Statement.rlock, Entity.zero, id⟩

/-- What the goroutines share: the field `previousID` of the one
`SequentialGenerator`, the map `data` of the one `InMemoryRepository`, and
its `sync.RWMutex` (whether the write lock is held, and the number of read
locks held). -/
structure Shared where
  previousID : Nat
  data : String → Option Entity
  writer : Bool
  readers : Nat

/-- One statement of a goroutine. `NewID` takes no lock: the increment and
the formatting read and write `previousID` as it is at that moment. The
assignment `txn.ID = id` changes a local variable only and is taken with the
formatting. `Lock` is taken when no goroutine holds the write lock or a read
lock, `RLock` when no goroutine holds the write lock; a goroutine that cannot
take the lock stays where it is. -/
def Goroutine.step (g : Goroutine) (s : Shared) : Goroutine × Shared :=
  match g.next with
  | Statement.increment =>
    ({ g with next := Statement.format }, { s with previousID := s.previousID + 1 })
  | Statement.format =>
    (⟨Statement.lock, { g.txn with ID := "sequentialID-" ++ Nat.repr s.previousID },
        "sequentialID-" ++ Nat.repr s.previousID⟩, s)
  | Statement.lock =>
    if s.writer = false ∧ s.readers = 0 then
      ({ g with next := Statement.write }, { s with writer := true })
    else (g, s)
  | Statement.write =>
    ({ g with next := Statement.unlock },
      { s with data := fun k => if k = g.txn.ID then some g.txn else s.data k })
  | Statement.unlock => ({ g with next := Statement.returned }, { s with writer := false })
  | Statement.rlock =>
    if s.writer = false then
      ({ g with next := Statement.read }, { s with readers := s.readers + 1 })
    else (g, s)
  | Statement.read =>
    (⟨Statement.runlock,
        match s.data g.id with
        | some txn => txn
        | none => Entity.zero,
        g.id⟩, s)
  | Statement.runlock =>
    ({ g with next := Statement.returned }, { s with readers := s.readers - 1 })
  | Statement.returned => (g, s)

/-- The goroutines and what they share. -/
structure Goroutines where
  shared : Shared
  running : List Goroutine

/-- The goroutine of index `i` executes its next statement. -/
def Goroutines.step (c : Goroutines) (i : Nat) : Goroutines :=
  match c.running.get? i with
  | none => c
  | some g => ⟨(g.step c.shared).2, c.running.set i (g.step c.shared).1⟩

/-- A schedule: the goroutine of each index in turn executes one statement. -/
def Goroutines.run (c : Goroutines) (schedule : List Nat) : Goroutines :=
  schedule.foldl Goroutines.step c

/-- Goroutines that enter their calls on a new repository with a new
`SequentialGenerator`. -/
def Goroutines.start (running : List Goroutine) : Goroutines :=
  ⟨⟨0, fun _ => none, false, 0⟩, running⟩

/-- The values of `txn` that the goroutines return, `none` for a goroutine
that has not returned. -/
def Goroutines.results (c : Goroutines) : List (Option Entity) :=
  c.running.map (fun g => if g.next = Statement.returned then some g.txn else none)

end transaction

/-! ## Test doubles -/

namespace fixture

/-- An exchange-rate service that answers every call with the same result and
error, as the mock `MockForEx` of the service tests does. -/
def cannedForEx {σ : Type} (result : forex.ConversionResult) (err : Option GoError) :
    transaction.ForExService σ where
  Convert := fun _ _ _ w => some ((result, err), w)

/-- The generator `alwaysErrorIDGenerator` of the repository tests. -/
def alwaysErrorIDGenerator : transaction.IDGenerator Unit where
  NewID := fun g => (("", some (GoError.other "problem")), g)

/-- An exchange-rate repository that answers every call with the same record
and error, as the mock `MockRepository` of the forex service tests does. -/
def cannedRepository {σ : Type} (record : forex.Record) (err : Option GoError) :
    forex.Repository σ where
  FindByCountry := fun _ _ w => ((record, err), w)

/-- The service of the integration tests: an `InMemoryRepository` with the
`SequentialGenerator`, and a canned exchange-rate service. -/
def service (result : forex.ConversionResult) (err : Option GoError) :
    transaction.RepositoryService (transaction.InMemoryRepository Nat) :=
  ⟨transaction.InMemoryRepository.repository id.SequentialGenerator, cannedForEx result err⟩

/-- The mock `MockHttpClient` of the repository tests: it keeps the request
it receives (the state) and answers with the canned response. -/
def MockHttpClient (status : Int) (body : String) : forex.HttpClient (Option forex.Request) where
  Do := fun req _ => ((⟨status, (body, none)⟩, none), some req)

/-- A client whose every call fails, as a transport fault does. -/
def failingHttpClient (err : GoError) : forex.HttpClient Unit where
  Do := fun _ w => ((⟨0, ("", none)⟩, some err), w)

/-- The body `treasuryBody` of the tests: one record, of 2020-08-01 and the
rate 0.345. -/
def treasuryBody : String :=
  "\x7b\"data\": [\x7b\"record_date\": \"2020-08-01\", \"exchange_rate\": \"0.345\"\x7d]\x7d"

/-- The body `noExchangeRateTreasuryBody` of the tests: no record. -/
def noExchangeRateTreasuryBody : String := "\x7b\"data\": []\x7d"

/-- What `json.Unmarshal` makes of the bodies of the tests; a body that is
none of the two is answered as the malformed body `*error-payload*` is. -/
def Unmarshal (body : String) : forex.APIResponse × Option GoError :=
  if body = treasuryBody then
    (⟨[⟨GoTime.Date 2020 8 1, forex.GoFloat64.finite (forex.Float64.ofConst false 345 1000), none⟩]⟩,
      none)
  else if body = noExchangeRateTreasuryBody then (⟨[]⟩, none)
  else (forex.APIResponse.zero,
    some (GoError.other "invalid character '*' looking for beginning of value"))

/-- A generator that fails with an error of the given text. -/
def errorIDGenerator (text : String) : transaction.IDGenerator Unit where
  NewID := fun g => (("", some (GoError.other text)), g)

end fixture

/-! ## The calendar: `Date` and `civilDate` are inverse to each other -/

namespace GoTime

theorem isLeap_iff (Y : Int) :
    isLeap Y = true ↔ Y % 4 = 0 ∧ (Y % 100 ≠ 0 ∨ Y % 400 = 0) := by
  simp [isLeap]

theorem yearDay_cycles (a b c e yd : Int) (hb0 : 0 ≤ b) (hb : b < 4) (hc0 : 0 ≤ c)
    (hc : c < 25) (he0 : 0 ≤ e) (he : e < 4) (h0 : 0 ≤ yd)
    (h1 : yd < 365 ∨ (yd = 365 ∧ e = 3 ∧ (c < 24 ∨ b = 3))) :
    yearDay (146097 * a + 36524 * b + 1461 * c + 365 * e + yd)
      = (400 * a + 100 * b + 4 * c + e + 1, yd) := by
  have r2 : 1461 * c + 365 * e + yd < 36524 ∨ (b = 3 ∧ 1461 * c + 365 * e + yd = 36524) := by
    omega
  have k1 : (146097 * a + 36524 * b + 1461 * c + 365 * e + yd) / 146097 = a := by omega
  simp only [yearDay, k1]
  have k2 : (146097 * a + 36524 * b + 1461 * c + 365 * e + yd - 146097 * a)
      = 36524 * b + 1461 * c + 365 * e + yd := by ring
  rw [k2]
  have k3 : (36524 * b + 1461 * c + 365 * e + yd) / 36524
      - (36524 * b + 1461 * c + 365 * e + yd) / 36524 / 4 = b := by
    rcases r2 with r2 | ⟨r2, r2'⟩
    · have hq : (36524 * b + 1461 * c + 365 * e + yd) / 36524 = b := by omega
      rw [hq]; omega
    · have hq : (36524 * b + 1461 * c + 365 * e + yd) / 36524 = 4 := by omega
      rw [hq]; omega
  rw [k3]
  have k4 : 36524 * b + 1461 * c + 365 * e + yd - 36524 * b = 1461 * c + 365 * e + yd := by
    ring
  rw [k4]
  have k5 : (1461 * c + 365 * e + yd) / 1461 = c := by omega
  rw [k5]
  have k6 : 1461 * c + 365 * e + yd - 1461 * c = 365 * e + yd := by ring
  rw [k6]
  have k7 : (365 * e + yd) / 365 - (365 * e + yd) / 365 / 4 = e := by
    rcases h1 with h1 | ⟨h1, h2, _⟩
    · have hq : (365 * e + yd) / 365 = e := by omega
      rw [hq]; omega
    · have hq : (365 * e + yd) / 365 = 4 := by omega
      rw [hq]; omega
  rw [k7]
  simp

theorem daysSinceEpoch_cycles (Y : Int) :
    daysSinceEpoch Y = 146097 * ((Y - 1) / 400) + 36524 * ((Y - 1) % 400 / 100)
      + 1461 * ((Y - 1) % 100 / 4) + 365 * ((Y - 1) % 4) := by
  simp only [daysSinceEpoch]
  omega

/-- The day `yd` of year `Y` is found again from its day number. -/
theorem yearDay_daysSinceEpoch (Y yd : Int) (h0 : 0 ≤ yd)
    (h1 : yd < 365 ∨ (yd = 365 ∧ isLeap Y = true)) :
    yearDay (daysSinceEpoch Y + yd) = (Y, yd) := by
  rw [isLeap_iff] at h1
  rw [daysSinceEpoch_cycles, yearDay_cycles _ _ _ _ _ (by omega) (by omega) (by omega)
    (by omega) (by omega) (by omega) h0 (by omega)]
  congr 1
  omega

theorem monthOfDay_spec (day : Int) (m : Nat) (hm : m ≤ 11)
    (h0 : daysBefore m ≤ day) (h1 : day < daysBefore (m + 1)) :
    monthOfDay day = (m + 1, day - daysBefore m + 1) := by
  have hq : ∃ q : Nat, day / 31 = (q : Int) ∧ q ≤ 11 := by
    refine ⟨(day / 31).toNat, ?_, ?_⟩
    · interval_cases m <;> simp only [daysBefore] at h0 h1 <;> omega
    · interval_cases m <;> simp only [daysBefore] at h0 h1 <;> omega
  obtain ⟨q, hq, hq'⟩ := hq
  simp only [monthOfDay]
  rw [hq]
  simp only [Int.toNat_ofNat]
  interval_cases m <;> simp only [daysBefore] at h0 h1 <;> interval_cases q <;>
    first
    | omega
    | (simp [daysBefore]; omega)

theorem daysBefore_ge_59 (k : Nat) (hk : 2 ≤ k) : (59 : Int) ≤ daysBefore k := by
  by_cases h : k ≤ 12
  · interval_cases k <;> simp [daysBefore]
  · have : daysBefore k = 365 := by
      unfold daysBefore
      split <;> omega
    omega

theorem daysIn_eq (m : Nat) (Y : Int) :
    daysIn m Y = if m = 2 ∧ isLeap Y = true then 29 else daysBefore m - daysBefore (m - 1) :=
  rfl

theorem monthDay_spec (leap : Bool) (m : Nat) (d : Int) (hm1 : 1 ≤ m) (hm2 : m ≤ 12)
    (hd1 : 1 ≤ d)
    (hd2 : d ≤ if m = 2 ∧ leap = true then 29 else daysBefore m - daysBefore (m - 1)) :
    monthDay leap (daysBefore (m - 1) + (if leap = true ∧ ((m : Int) - 1) ≥ 2 then 1 else 0)
      + (d - 1)) = (m, d) := by
  obtain ⟨k, rfl⟩ : ∃ k, m = k + 1 := ⟨m - 1, by omega⟩
  have hk : k ≤ 11 := by omega
  simp only [Nat.add_sub_cancel]
  cases leap
  · have h0 : daysBefore k ≤ daysBefore k + (d - 1) := by omega
    have h1 : daysBefore k + (d - 1) < daysBefore (k + 1) := by
      simp at hd2; omega
    simp only [monthDay, Bool.false_eq_true, false_and, if_false, add_zero]
    rw [monthOfDay_spec _ k hk h0 h1]
    congr 1
    omega
  · simp only [true_and, and_true, Nat.add_sub_cancel] at hd2 ⊢
    by_cases hk2 : 2 ≤ k
    · have hc : ((k + 1 : Nat) : Int) - 1 ≥ 2 := by push_cast; omega
      have hne : ¬ (k + 1 = 2) := by omega
      rw [if_neg hne] at hd2
      rw [if_pos hc]
      have hge := daysBefore_ge_59 k hk2
      have e1 : ¬ (daysBefore k + 1 + (d - 1) = 31 + 29 - 1) := by omega
      have e2 : daysBefore k + 1 + (d - 1) > 31 + 29 - 1 := by omega
      have e3 : daysBefore k + 1 + (d - 1) - 1 = daysBefore k + (d - 1) := by ring
      rw [monthDay, if_neg (fun h => e1 h.2), if_pos ⟨rfl, e2⟩, e3,
        monthOfDay_spec _ k hk (by omega) (by omega)]
      congr 1
      omega
    · have hc : ¬ (((k + 1 : Nat) : Int) - 1 ≥ 2) := by push_cast; omega
      rw [if_neg hc, add_zero]
      by_cases hk1 : k = 1
      · subst hk1
        rw [if_pos rfl] at hd2
        have hb : daysBefore 1 = 31 := rfl
        by_cases hd29 : d = 29
        · subst hd29
          rw [monthDay, if_pos ⟨rfl, by rw [hb]; norm_num⟩]
        · have e1 : ¬ (daysBefore 1 + (d - 1) = 31 + 29 - 1) := by rw [hb]; omega
          have e2 : ¬ (daysBefore 1 + (d - 1) > 31 + 29 - 1) := by rw [hb]; omega
          have hb2 : daysBefore (1 + 1) = 59 := rfl
          rw [monthDay, if_neg (fun h => e1 h.2), if_neg (fun h => e2 h.2),
            monthOfDay_spec _ 1 hk (by omega) (by omega)]
          congr 1
          omega
      · have hk0 : k = 0 := by omega
        subst hk0
        have hb : daysBefore 0 = 0 := rfl
        have hb1 : daysBefore (0 + 1) = 31 := rfl
        have hne : ¬ (0 + 1 = 2) := by omega
        rw [if_neg hne, hb1, hb] at hd2
        have e1 : ¬ (daysBefore 0 + (d - 1) = 31 + 29 - 1) := by rw [hb]; omega
        have e2 : ¬ (daysBefore 0 + (d - 1) > 31 + 29 - 1) := by rw [hb]; omega
        rw [monthDay, if_neg (fun h => e1 h.2), if_neg (fun h => e2 h.2),
          monthOfDay_spec _ 0 hk (by omega) (by omega)]
        congr 1
        omega

/-- The calendar date of the day number of day `d` of month `m` of year `Y`
is `(Y, m, d)`, for every year. -/
theorem civil_dayNumber (Y : Int) (m : Nat) (d : Int) (hm1 : 1 ≤ m) (hm2 : m ≤ 12)
    (hd1 : 1 ≤ d) (hd2 : d ≤ daysIn m Y) :
    civil (daysSinceEpoch Y + daysBefore (m - 1)
      + (if isLeap Y = true ∧ ((m : Int) - 1) ≥ 2 then 1 else 0) + (d - 1)) = (Y, m, d) := by
  have hms := monthDay_spec (isLeap Y) m d hm1 hm2 hd1 hd2
  have hyd0 : 0 ≤ daysBefore (m - 1)
      + (if isLeap Y = true ∧ ((m : Int) - 1) ≥ 2 then 1 else 0) + (d - 1) := by
    have : (0 : Int) ≤ daysBefore (m - 1) := by
      interval_cases m <;> simp [daysBefore]
    split <;> omega
  have hyd1 : daysBefore (m - 1)
      + (if isLeap Y = true ∧ ((m : Int) - 1) ≥ 2 then 1 else 0) + (d - 1) < 365 ∨
      (daysBefore (m - 1)
      + (if isLeap Y = true ∧ ((m : Int) - 1) ≥ 2 then 1 else 0) + (d - 1) = 365
        ∧ isLeap Y = true) := by
    rw [daysIn_eq] at hd2
    cases hl : isLeap Y <;> simp only [hl] at hd2 ⊢ <;>
      interval_cases m <;> simp [daysBefore] at hd2 ⊢ <;> omega
  have e : daysSinceEpoch Y + daysBefore (m - 1)
      + (if isLeap Y = true ∧ ((m : Int) - 1) ≥ 2 then 1 else 0) + (d - 1)
      = daysSinceEpoch Y + (daysBefore (m - 1)
      + (if isLeap Y = true ∧ ((m : Int) - 1) ≥ 2 then 1 else 0) + (d - 1)) := by ring
  rw [e]
  simp only [civil, yearDay_daysSinceEpoch Y _ hyd0 hyd1, hms]

/-- The calendar date of `Date(Y, m, d)` is `(Y, m, d)` for every date of the
calendar. -/
theorem civilDate_Date (Y : Int) (m : Nat) (d : Int) (hm1 : 1 ≤ m) (hm2 : m ≤ 12)
    (hd1 : 1 ≤ d) (hd2 : d ≤ daysIn m Y) :
    (Date Y m d).civilDate = (Y, m, d) := by
  have h1 : ((m : Int) - 1) / 12 = 0 := by omega
  have h2 : ((m : Int) - 1) % 12 = (m : Int) - 1 := by omega
  have h3 : ((m : Int) - 1).toNat = m - 1 := by omega
  simp only [Date, Time.civilDate, h1, h2, h3, add_zero, secondsPerDay]
  rw [Int.mul_ediv_cancel _ (by norm_num)]
  exact civil_dayNumber Y m d hm1 hm2 hd1 hd2

end GoTime

/-! ## Parsing and formatting a date -/

namespace GoTime

theorem digitVal_le (c : Char) (h : isDigitChar c = true) : digitVal c ≤ 9 := by
  simp only [isDigitChar, Bool.and_eq_true, decide_eq_true_eq] at h
  simp only [digitVal]
  omega

theorem digitChar_of_digitVal (c : Char) (h : isDigitChar c = true) (n : Nat)
    (hn : n % 10 = digitVal c) : digitChar n = c := by
  simp only [isDigitChar, Bool.and_eq_true, decide_eq_true_eq] at h
  have e : 48 + (c.toNat - 48) = c.toNat := by omega
  rw [digitChar, hn, digitVal, e, Char.ofNat_toNat]

theorem getyear4_some (s r : List Char) (n : Nat) (h : getyear4 s = some (n, r)) :
    ∃ a b c d, s = a :: b :: c :: d :: r ∧ isDigitChar a = true ∧ isDigitChar b = true
      ∧ isDigitChar c = true ∧ isDigitChar d = true
      ∧ n = digitVal a * 1000 + digitVal b * 100 + digitVal c * 10 + digitVal d := by
  match s, h with
  | a :: b :: c :: d :: rest, h =>
    simp only [getyear4] at h
    split at h
    · rename_i hd
      simp only [Option.some.injEq, Prod.mk.injEq] at h
      exact ⟨a, b, c, d, by rw [h.2], hd.1, hd.2.1, hd.2.2.1, hd.2.2.2, h.1.symm⟩
    · exact absurd h (by simp)
  | [], h => simp [getyear4] at h
  | [_], h => simp [getyear4] at h
  | [_, _], h => simp [getyear4] at h
  | [_, _, _], h => simp [getyear4] at h

theorem getnum2_some (s r : List Char) (n : Nat) (h : getnum2 s = some (n, r)) :
    ∃ a b, s = a :: b :: r ∧ isDigitChar a = true ∧ isDigitChar b = true
      ∧ n = digitVal a * 10 + digitVal b := by
  match s, h with
  | a :: b :: rest, h =>
    simp only [getnum2] at h
    split at h
    · rename_i hd
      simp only [Option.some.injEq, Prod.mk.injEq] at h
      exact ⟨a, b, by rw [h.2], hd.1, hd.2, h.1.symm⟩
    · exact absurd h (by simp)
  | [], h => simp [getnum2] at h
  | [_], h => simp [getnum2] at h

theorem skipDash_some (s r : List Char) (h : skipDash s = some r) : s = '-' :: r := by
  match s, h with
  | c :: rest, h =>
    simp only [skipDash] at h
    split at h
    · rename_i hc
      simp only [Option.some.injEq] at h
      rw [hc, h]
    · exact absurd h (by simp)
  | [], h => simp [skipDash] at h

/-- What `Parse` accepts: ten characters `YYYY-MM-DD` of a date of the
calendar, which it returns at midnight UTC. -/
theorem Parse_some (s : String) (t : Time) (h : Parse s = some t) :
    ∃ a b c d e f g k : Char, s.data = [a, b, c, d, '-', e, f, '-', g, k]
      ∧ isDigitChar a = true ∧ isDigitChar b = true ∧ isDigitChar c = true
      ∧ isDigitChar d = true ∧ isDigitChar e = true ∧ isDigitChar f = true
      ∧ isDigitChar g = true ∧ isDigitChar k = true
      ∧ 1 ≤ digitVal e * 10 + digitVal f ∧ digitVal e * 10 + digitVal f ≤ 12
      ∧ (1 : Int) ≤ ((digitVal g * 10 + digitVal k : Nat) : Int)
      ∧ ((digitVal g * 10 + digitVal k : Nat) : Int) ≤ daysIn (digitVal e * 10 + digitVal f)
          ((digitVal a * 1000 + digitVal b * 100 + digitVal c * 10 + digitVal d : Nat) : Int)
      ∧ t = Date ((digitVal a * 1000 + digitVal b * 100 + digitVal c * 10 + digitVal d : Nat) : Int)
          ((digitVal e * 10 + digitVal f : Nat) : Int) ((digitVal g * 10 + digitVal k : Nat) : Int) := by
  simp only [Parse] at h
  cases h1 : getyear4 s.data with
  | none => rw [h1] at h; exact absurd h (by simp)
  | some yv =>
    obtain ⟨year, v1⟩ := yv
    rw [h1] at h
    simp only [] at h
    cases h2 : skipDash v1 with
    | none => rw [h2] at h; exact absurd h (by simp)
    | some v2 =>
      rw [h2] at h
      simp only [] at h
      cases h3 : getnum2 v2 with
      | none => rw [h3] at h; exact absurd h (by simp)
      | some mv =>
        obtain ⟨month, v3⟩ := mv
        rw [h3] at h
        simp only [] at h
        split at h
        · exact absurd h (by simp)
        · rename_i hmonth
          cases h4 : skipDash v3 with
          | none => rw [h4] at h; exact absurd h (by simp)
          | some v4 =>
            rw [h4] at h
            simp only [] at h
            cases h5 : getnum2 v4 with
            | none => rw [h5] at h; exact absurd h (by simp)
            | some dv =>
              obtain ⟨day, v5⟩ := dv
              rw [h5] at h
              simp only [] at h
              split at h
              · exact absurd h (by simp)
              · rename_i hrest
                split at h
                · exact absurd h (by simp)
                · rename_i hday
                  obtain ⟨a, b, c, d, hs, ha, hb, hc, hd, hy⟩ := getyear4_some _ _ _ h1
                  obtain ⟨e, f, hs3, he, hf, hm⟩ := getnum2_some _ _ _ h3
                  obtain ⟨g, k, hs5, hg, hk, hdd⟩ := getnum2_some _ _ _ h5
                  have hs2 := skipDash_some _ _ h2
                  have hs4 := skipDash_some _ _ h4
                  have hv5 : v5 = [] := by
                    by_contra hne; exact hrest hne
                  subst hy hm hdd
                  refine ⟨a, b, c, d, e, f, g, k, ?_, ha, hb, hc, hd, he, hf, hg, hk, ?_, ?_,
                    ?_, ?_, ?_⟩
                  · rw [hs, hs2, hs3, hs4, hs5, hv5]
                  · omega
                  · omega
                  · omega
                  · omega
                  · exact (Option.some.inj h).symm

theorem padDigits_two (n : Nat) : padDigits 2 n = [digitChar (n / 10), digitChar n] := by
  simp [padDigits]

theorem padDigits_four (n : Nat) :
    padDigits 4 n
      = [digitChar (n / 10 / 10 / 10), digitChar (n / 10 / 10), digitChar (n / 10),
          digitChar n] := by
  simp [padDigits]

/-- Formatting gives back the text that was parsed. -/
theorem Format_Parse (s : String) (t : Time) (h : Parse s = some t) : t.Format = s := by
  obtain ⟨a, b, c, d, e, f, g, k, hs, ha, hb, hc, hd, he, hf, hg, hk, hm1, hm2, hd1, hd2, ht⟩ :=
    Parse_some s t h
  have la := digitVal_le a ha
  have lb := digitVal_le b hb
  have lc := digitVal_le c hc
  have ld := digitVal_le d hd
  have le := digitVal_le e he
  have lf := digitVal_le f hf
  have lg := digitVal_le g hg
  have lk := digitVal_le k hk
  have hcd := civilDate_Date _ _ _ hm1 hm2 hd1 hd2
  rw [← ht] at hcd
  simp only [Time.Format, hcd]
  have y4 : appendInt ((digitVal a * 1000 + digitVal b * 100 + digitVal c * 10 + digitVal d
      : Nat) : Int) 4 = [a, b, c, d] := by
    have hlt : digitVal a * 1000 + digitVal b * 100 + digitVal c * 10 + digitVal d < 10 ^ 4 := by
      norm_num; omega
    have hnn : ¬ (((digitVal a * 1000 + digitVal b * 100 + digitVal c * 10 + digitVal d
      : Nat) : Int) < 0) := by omega
    simp only [appendInt, Int.natAbs_ofNat, if_pos hlt, if_neg hnn, padDigits_four]
    rw [digitChar_of_digitVal a ha _ (by omega), digitChar_of_digitVal b hb _ (by omega),
      digitChar_of_digitVal c hc _ (by omega), digitChar_of_digitVal d hd _ (by omega)]
  have m2 : appendInt ((digitVal e * 10 + digitVal f : Nat) : Int) 2 = [e, f] := by
    have hlt : digitVal e * 10 + digitVal f < 10 ^ 2 := by norm_num; omega
    have hnn : ¬ (((digitVal e * 10 + digitVal f : Nat) : Int) < 0) := by omega
    simp only [appendInt, Int.natAbs_ofNat, if_pos hlt, if_neg hnn, padDigits_two]
    rw [digitChar_of_digitVal e he _ (by omega), digitChar_of_digitVal f hf _ (by omega)]
  have d2 : appendInt ((digitVal g * 10 + digitVal k : Nat) : Int) 2 = [g, k] := by
    have hlt : digitVal g * 10 + digitVal k < 10 ^ 2 := by norm_num; omega
    have hnn : ¬ (((digitVal g * 10 + digitVal k : Nat) : Int) < 0) := by omega
    simp only [appendInt, Int.natAbs_ofNat, if_pos hlt, if_neg hnn, padDigits_two]
    rw [digitChar_of_digitVal g hg _ (by omega), digitChar_of_digitVal k hk _ (by omega)]
  rw [y4, m2, d2]
  cases s
  simp only at hs
  simp [hs]

end GoTime

/-! ## Six months earlier -/

namespace GoTime

/-- A day beyond the end of its month is the same `Date` as the day that many
days into the following month. -/
theorem Date_day_overflow (Y : Int) (m : Nat) (d : Int) (hm1 : 1 ≤ m) (hm2 : m ≤ 11) :
    Date Y m d = Date Y ((m + 1 : Nat) : Int) (d - daysIn m Y) := by
  have h1 : ((m : Int) - 1) / 12 = 0 := by omega
  have h2 : ((m : Int) - 1) % 12 = (m : Int) - 1 := by omega
  have h3 : ((m : Int) - 1).toNat = m - 1 := by omega
  have h4 : (((m + 1 : Nat) : Int) - 1) / 12 = 0 := by omega
  have h5 : (((m + 1 : Nat) : Int) - 1) % 12 = (m : Int) := by omega
  simp only [Date, h1, h2, h3, h4, h5, add_zero, Int.toNat_ofNat, daysIn_eq]
  congr 1
  cases isLeap Y <;> interval_cases m <;> simp [daysBefore] <;> omega

/-- Month `m - 6` of year `Y` is month `m + 6` of the year before when `m` is
June or earlier. -/
theorem Date_month_back (Y : Int) (m : Nat) (d : Int) (hm1 : 1 ≤ m) (hm2 : m ≤ 12) :
    Date Y ((m : Int) + 6 * -1) d
      = Date (if m ≤ 6 then Y - 1 else Y) ((if m ≤ 6 then m + 6 else m - 6 : Nat) : Int) d := by
  by_cases h : m ≤ 6
  · have h1 : ((m : Int) + 6 * -1 - 1) / 12 = -1 := by omega
    have h2 : ((m : Int) + 6 * -1 - 1) % 12 = (m : Int) + 5 := by omega
    have h4 : (((m + 6 : Nat) : Int) - 1) / 12 = 0 := by omega
    have h5 : (((m + 6 : Nat) : Int) - 1) % 12 = (m : Int) + 5 := by omega
    simp only [h, if_true, Date, h1, h2, h4, h5, add_zero]
    rfl
  · have h1 : ((m : Int) + 6 * -1 - 1) / 12 = 0 := by omega
    have h2 : ((m : Int) + 6 * -1 - 1) % 12 = (m : Int) - 7 := by omega
    have h4 : (((m - 6 : Nat) : Int) - 1) / 12 = 0 := by omega
    have h5 : (((m - 6 : Nat) : Int) - 1) % 12 = (m : Int) - 7 := by omega
    simp only [h, if_false, Date, h1, h2, h4, h5, add_zero]

theorem daysIn_le (m : Nat) (Y : Int) (hm1 : 1 ≤ m) (hm2 : m ≤ 12) :
    28 ≤ daysIn m Y ∧ daysIn m Y ≤ 31 := by
  rw [daysIn_eq]
  cases isLeap Y <;> interval_cases m <;> simp [daysBefore]

/-- The function `AddDate(0, -6, 0)` on a date at midnight UTC. -/
theorem AddDate_Date (Y : Int) (m : Nat) (d : Int) (hm1 : 1 ≤ m) (hm2 : m ≤ 12)
    (hd1 : 1 ≤ d) (hd2 : d ≤ daysIn m Y) :
    (Date Y m d).AddDate 0 (6 * -1) 0 = Date Y ((m : Int) + 6 * -1) d := by
  have hc := civilDate_Date Y m d hm1 hm2 hd1 hd2
  simp only [Time.AddDate, hc, add_zero]
  simp only [Date, secondsPerDay, add_zero, sub_zero, Int.mul_emod_left]

end GoTime

/-! ## Store and Fetch validation -/

namespace transaction

open business GoTime

theorem checkForErrors_nil : checkForErrors [] = none := rfl

theorem checkForErrors_cons (f : FieldError) (fs : List FieldError) :
    checkForErrors (f :: fs) = some (GoError.business ⟨f :: fs, "VALIDATION_ERROR"⟩) := by
  simp [checkForErrors, message]

theorem checkForErrors_eq_none (fs : List FieldError) :
    checkForErrors fs = none ↔ fs = [] := by
  cases fs with
  | nil => simp [checkForErrors]
  | cons f fs => simp [checkForErrors]

theorem checkForErrors_some (fs : List FieldError) :
    checkForErrors fs = none ∨
      ∃ fields, fields ≠ [] ∧
        checkForErrors fs = some (GoError.business ⟨fields, "VALIDATION_ERROR"⟩) := by
  cases fs with
  | nil => exact Or.inl rfl
  | cons f fs => exact Or.inr ⟨f :: fs, by simp, checkForErrors_cons f fs⟩

/-- The mandatory-field checks: one `REQUIRED` violation for each absent
field, in the order of the fields. -/
theorem mandatory_eq (d t : Option String) (a : Option Int) :
    mandatory ⟨d, t, a⟩ = checkForErrors
      ((if d = none then [⟨"description", "REQUIRED"⟩] else [])
        ++ (if t = none then [⟨"transactionDate", "REQUIRED"⟩] else [])
        ++ (if a = none then [⟨"amountInCents", "REQUIRED"⟩] else [])) := by
  cases d <;> cases t <;> cases a <;>
    simp [mandatory, appendIfErr, validation.IsRequiredString, validation.IsRequiredInt,
      NewFieldError, descriptionFieldName, transactionDateFieldName, amountInCentsFieldName,
      validation.Required]

/-- The correctness checks of a request with every field present: all the
violations, in the order of the fields. -/
theorem correctness_eq (now : Time) (d t : String) (a : Int) :
    correctness now ⟨some d, some t, some a⟩ = checkForErrors
      ((if validation.len d < 1 then [⟨"description", "MIN_LENGTH"⟩] else [])
        ++ (if validation.len d > 50 then [⟨"description", "MAX_LENGTH"⟩] else [])
        ++ (match Parse t with
            | none => ⟨"transactionDate", "DATE_BAD_FORMAT"⟩ ::
                (if Time.zero.After now = true then [⟨"transactionDate", "DATE_IN_FUTURE"⟩]
                  else [])
            | some p =>
                if p.After now = true then [⟨"transactionDate", "DATE_IN_FUTURE"⟩] else [])
        ++ (if a = 0 then [⟨"amountInCents", "ZERO_VALUE"⟩] else [])) := by
  simp only [correctness, validation.IsMinLength, validation.IsMaxLength, validation.IsDate,
    validation.parseDate, validation.IsDateNowOrEarlier, validation.IsNotZero, NewFieldError,
    descriptionFieldName, transactionDateFieldName, amountInCentsFieldName,
    descriptionMinLength, descriptionMaxLength, validation.MinLength, validation.MaxLength,
    validation.DateBadFormat, validation.DateInFuture, validation.ZeroValue]
  cases hp : Parse t <;> simp only [] <;>
    by_cases h1 : validation.len d < 1 <;> by_cases h2 : validation.len d > 50 <;>
    by_cases h3 : a = 0 <;>
    simp [appendIfErr, h1, h2, h3] <;> split <;> simp_all

theorem validate_absent (now : Time) (d t : Option String) (a : Option Int)
    (h : d = none ∨ t = none ∨ a = none) :
    storeValidator.validate now ⟨d, t, a⟩ = some (GoError.business
      ⟨(if d = none then [⟨"description", "REQUIRED"⟩] else [])
        ++ (if t = none then [⟨"transactionDate", "REQUIRED"⟩] else [])
        ++ (if a = none then [⟨"amountInCents", "REQUIRED"⟩] else []), "VALIDATION_ERROR"⟩) := by
  simp only [storeValidator.validate, mandatory_eq]
  cases d <;> cases t <;> cases a <;> simp_all [checkForErrors, message]

theorem validate_present (now : Time) (d t : String) (a : Int) :
    storeValidator.validate now ⟨some d, some t, some a⟩
      = correctness now ⟨some d, some t, some a⟩ := by
  simp only [storeValidator.validate, mandatory_eq]
  simp only [reduceCtorEq, if_false, List.append_nil, checkForErrors_nil]
  cases correctness now ⟨some d, some t, some a⟩ <;> rfl

/-- Claim C4, as amended: Store validation stops between its two phases and
never within one. When a field is absent, `validate` returns the `REQUIRED`
violations of all the absent fields and nothing else (the correctness checks
are not run); when every field is present it returns all the violations of
the correctness checks of all the fields together. -/
theorem storeValidator_validate_phases (now : Time) (d t : Option String) (a : Option Int) :
    storeValidator.validate now ⟨d, t, a⟩ =
      match d, t, a with
      | some dv, some tv, some av => checkForErrors
          ((if validation.len dv < 1 then [⟨"description", "MIN_LENGTH"⟩] else [])
            ++ (if validation.len dv > 50 then [⟨"description", "MAX_LENGTH"⟩] else [])
            ++ (match Parse tv with
                | none => ⟨"transactionDate", "DATE_BAD_FORMAT"⟩ ::
                    (if Time.zero.After now = true then [⟨"transactionDate", "DATE_IN_FUTURE"⟩]
                      else [])
                | some p =>
                    if p.After now = true then [⟨"transactionDate", "DATE_IN_FUTURE"⟩] else [])
            ++ (if av = 0 then [⟨"amountInCents", "ZERO_VALUE"⟩] else []))
      | _, _, _ => some (GoError.business
          ⟨(if d = none then [⟨"description", "REQUIRED"⟩] else [])
            ++ (if t = none then [⟨"transactionDate", "REQUIRED"⟩] else [])
            ++ (if a = none then [⟨"amountInCents", "REQUIRED"⟩] else []),
            "VALIDATION_ERROR"⟩) := by
  cases d with
  | none => exact validate_absent now _ _ _ (Or.inl rfl)
  | some dv =>
    cases t with
    | none => exact validate_absent now _ _ _ (Or.inr (Or.inl rfl))
    | some tv =>
      cases a with
      | none => exact validate_absent now _ _ _ (Or.inr (Or.inr rfl))
      | some av => rw [validate_present, correctness_eq]

/-- Claim C4 as stated fails: with the description absent and the amount 0
(and a good date), `validate` reports `(description, REQUIRED)` alone; the
violation `(amountInCents, ZERO_VALUE)` is not among the returned fields. -/
theorem storeValidator_validate_short_circuits :
    storeValidator.validate (Date 2023 10 1) ⟨none, some "2023-01-25", some 0⟩
      = some (GoError.business ⟨[⟨"description", "REQUIRED"⟩], "VALIDATION_ERROR"⟩)
    ∧ (⟨"amountInCents", "ZERO_VALUE"⟩ : FieldError) ∉ [(⟨"description", "REQUIRED"⟩ : FieldError)] := by
  decide

/-- The requests that Store validation accepts. -/
theorem validate_eq_none_iff (now : Time) (req : StoreRequest) :
    storeValidator.validate now req = none ↔
      ∃ d t a p, req = ⟨some d, some t, some a⟩ ∧ 1 ≤ validation.len d ∧ validation.len d ≤ 50
        ∧ Parse t = some p ∧ p.After now = false ∧ a ≠ 0 := by
  obtain ⟨d, t, a⟩ := req
  constructor
  · intro h
    cases d with
    | none => rw [validate_absent now _ _ _ (Or.inl rfl)] at h; exact absurd h (by simp)
    | some dv =>
      cases t with
      | none =>
        rw [validate_absent now _ _ _ (Or.inr (Or.inl rfl))] at h; exact absurd h (by simp)
      | some tv =>
        cases a with
        | none =>
          rw [validate_absent now _ _ _ (Or.inr (Or.inr rfl))] at h; exact absurd h (by simp)
        | some av =>
          rw [validate_present, correctness_eq, checkForErrors_eq_none] at h
          simp only [List.append_eq_nil] at h
          obtain ⟨⟨⟨h1, h2⟩, h3⟩, h4⟩ := h
          cases hp : Parse tv with
          | none => rw [hp] at h3; simp at h3
          | some p =>
            rw [hp] at h3
            refine ⟨dv, tv, av, p, rfl, ?_, ?_, hp, ?_, ?_⟩
            · by_contra hc
              have hlt : validation.len dv < 1 := by omega
              simp [hlt] at h1
            · by_contra hc
              have hlt : validation.len dv > 50 := by omega
              simp [hlt] at h2
            · by_contra hc; simp [hc] at h3
            · intro hc; simp [hc] at h4
  · rintro ⟨dv, tv, av, p, hreq, h1, h2, hp, h3, h4⟩
    cases hreq
    rw [validate_present, correctness_eq, checkForErrors_eq_none, hp]
    have e1 : ¬ validation.len dv < 1 := by omega
    have e2 : ¬ validation.len dv > 50 := by omega
    simp [e1, e2, h3, h4]

/-- Every error of Store validation is a `VALIDATION_ERROR` business error
with at least one field violation. -/
theorem validate_error_shape (now : Time) (req : StoreRequest) :
    storeValidator.validate now req = none ∨
      ∃ fields, fields ≠ [] ∧
        storeValidator.validate now req
          = some (GoError.business ⟨fields, "VALIDATION_ERROR"⟩) := by
  obtain ⟨d, t, a⟩ := req
  by_cases h : d = none ∨ t = none ∨ a = none
  · right
    refine ⟨_, ?_, validate_absent now d t a h⟩
    rcases h with h | h | h <;> simp [h]
  · obtain ⟨dv, rfl⟩ : ∃ dv, d = some dv := by
      cases d with
      | none => exact absurd (Or.inl rfl) h
      | some dv => exact ⟨dv, rfl⟩
    obtain ⟨tv, rfl⟩ : ∃ tv, t = some tv := by
      cases t with
      | none => exact absurd (Or.inr (Or.inl rfl)) h
      | some tv => exact ⟨tv, rfl⟩
    obtain ⟨av, rfl⟩ : ∃ av, a = some av := by
      cases a with
      | none => exact absurd (Or.inr (Or.inr rfl)) h
      | some av => exact ⟨av, rfl⟩
    rw [validate_present, correctness_eq]
    exact checkForErrors_some _

/-- Claim C5: `validate` returns no error exactly when the description is
present with a length between 1 and 50, the date is present, parses as
YYYY-MM-DD and its midnight-UTC instant is not after the current instant, and
the amount is present and not zero; every other request gets a business error
with the message VALIDATION_ERROR and a non-empty list of field violations. -/
theorem storeValidator_validate_accepts_iff (now : Time) (req : StoreRequest) :
    (storeValidator.validate now req = none ↔
      ∃ d t a p, req = ⟨some d, some t, some a⟩ ∧ 1 ≤ validation.len d ∧ validation.len d ≤ 50
        ∧ Parse t = some p ∧ p.After now = false ∧ a ≠ 0)
    ∧ (storeValidator.validate now req = none ∨
      ∃ fields, fields ≠ [] ∧
        storeValidator.validate now req
          = some (GoError.business ⟨fields, "VALIDATION_ERROR"⟩)) :=
  ⟨validate_eq_none_iff now req, validate_error_shape now req⟩

/-- Claim C6: when at least one field of the request is absent, `validate`
returns a VALIDATION_ERROR whose fields are a `REQUIRED` violation for each
absent field and for no present one, in the order description,
transactionDate, amountInCents. -/
theorem storeValidator_validate_required (now : Time) (d t : Option String)
    (a : Option Int) (h : d = none ∨ t = none ∨ a = none) :
    storeValidator.validate now ⟨d, t, a⟩ = some (GoError.business
      ⟨(if d = none then [⟨"description", "REQUIRED"⟩] else [])
        ++ (if t = none then [⟨"transactionDate", "REQUIRED"⟩] else [])
        ++ (if a = none then [⟨"amountInCents", "REQUIRED"⟩] else []), "VALIDATION_ERROR"⟩) :=
  validate_absent now d t a h

/-- Claim C6 at the empty request: the fields are exactly the three
`REQUIRED` violations. -/
theorem storeValidator_validate_required_witness :
    ((none : Option String) = none ∨ (none : Option String) = none
        ∨ (none : Option Int) = none)
    ∧ storeValidator.validate (Date 2023 10 1) ⟨none, none, none⟩ = some (GoError.business
      ⟨[⟨"description", "REQUIRED"⟩, ⟨"transactionDate", "REQUIRED"⟩,
        ⟨"amountInCents", "REQUIRED"⟩], "VALIDATION_ERROR"⟩) :=
  ⟨Or.inl rfl, storeValidator_validate_required (Date 2023 10 1) none none none (Or.inl rfl)⟩

/-- Claim C7: `fetchValidator.validate` fails exactly when the country is
shorter than 2, and then with the VALIDATION_ERROR that carries the one
violation `(country, MIN_LENGTH)`; the empty string too reports `MIN_LENGTH`,
never `REQUIRED`. -/
theorem fetchValidator_validate_minLength (country : String) :
    fetchValidator.validate country =
      if validation.len country < 2 then
        some (GoError.business ⟨[⟨"country", "MIN_LENGTH"⟩], "VALIDATION_ERROR"⟩)
      else none := by
  by_cases h : validation.len country < 2 <;>
    simp [fetchValidator.validate, appendIfErr, validation.IsRequiredString,
      validation.IsMinLength, NewFieldError, checkForErrors, countryFieldName,
      countryMinLength, validation.MinLength, message, h]

end transaction

/-! ## The service: Store and Fetch -/

namespace transaction

open business GoTime

/-- Claim C8: a request that fails Store validation makes `Store` return the
VALIDATION_ERROR business error with its field violations and the empty
`StoreResponse`; no call is made to `Repository.Save` (nor to any
collaborator) and the transaction store is left as it was. -/
theorem Store_validation_failure {σ : Type} (s : RepositoryService σ) (now : Time)
    (txn : StoreRequest) (w : σ) (err : GoError)
    (h : storeValidator.validate now txn = some err) :
    s.Store now txn w = ⟨StoreResponse.zero, some err, w, [], false⟩
    ∧ ∃ fields, fields ≠ [] ∧ err = GoError.business ⟨fields, "VALIDATION_ERROR"⟩ := by
  refine ⟨by simp [RepositoryService.Store, h], ?_⟩
  rcases validate_error_shape now txn with h0 | ⟨fields, hne, hf⟩
  · rw [h0] at h; exact absurd h (by simp)
  · rw [hf] at h
    exact ⟨fields, hne, (Option.some.inj h).symm⟩

/-- Claim C8 at the empty request, on the service of the integration tests. -/
theorem Store_validation_failure_witness :
    storeValidator.validate (Date 2023 10 1) ⟨none, none, none⟩
      = some (GoError.business
        ⟨[⟨"description", "REQUIRED"⟩, ⟨"transactionDate", "REQUIRED"⟩,
          ⟨"amountInCents", "REQUIRED"⟩], "VALIDATION_ERROR"⟩)
    ∧ ((fixture.service forex.ConversionResult.zero none).Store (Date 2023 10 1)
          ⟨none, none, none⟩ (NewInMemoryRepository 0)
        = ⟨StoreResponse.zero, some (GoError.business
            ⟨[⟨"description", "REQUIRED"⟩, ⟨"transactionDate", "REQUIRED"⟩,
              ⟨"amountInCents", "REQUIRED"⟩], "VALIDATION_ERROR"⟩),
            NewInMemoryRepository 0, [], false⟩
      ∧ ∃ fields, fields ≠ [] ∧ GoError.business
          ⟨[⟨"description", "REQUIRED"⟩, ⟨"transactionDate", "REQUIRED"⟩,
            ⟨"amountInCents", "REQUIRED"⟩], "VALIDATION_ERROR"⟩
          = GoError.business ⟨fields, "VALIDATION_ERROR"⟩) :=
  ⟨by decide, Store_validation_failure _ _ _ _ _ (by decide)⟩

theorem fetchValidator_validate_ok (country : String) (h : 2 ≤ validation.len country) :
    fetchValidator.validate country = none := by
  have e : ¬ validation.len country < 2 := by omega
  simp [fetchValidator.validate, appendIfErr, validation.IsRequiredString,
    validation.IsMinLength, checkForErrors, countryMinLength, e]

/-- Claim C9: for a country of length at least 2 and an id under which the
in-memory repository holds nothing, `FindByID` returns the zero-value entity
and `Fetch` returns the business error TRANSACTION_NOT_FOUND, without fields,
and the empty `FetchResponse`; its only call is the lookup, the exchange-rate
service is not called. -/
theorem Fetch_not_found {γ : Type} (gen : IDGenerator γ)
    (forEx : ForExService (InMemoryRepository γ)) (r : InMemoryRepository γ)
    (id country : String) (hc : 2 ≤ validation.len country) (hid : r.data id = none) :
    InMemoryRepository.FindByID id r = Entity.zero
    ∧ RepositoryService.Fetch ⟨InMemoryRepository.repository gen, forEx⟩ id country r
      = ⟨FetchResponse.zero, some (GoError.business ⟨[], "TRANSACTION_NOT_FOUND"⟩), r,
          [Call.FindByID id], false⟩ := by
  have hz : InMemoryRepository.FindByID id r = Entity.zero := by
    simp [InMemoryRepository.FindByID, hid]
  refine ⟨hz, ?_⟩
  simp [RepositoryService.Fetch, fetchValidator_validate_ok country hc,
    InMemoryRepository.repository, hz, transactionNotFound]

/-- Claim C9 on the fresh repository of the integration tests. -/
theorem Fetch_not_found_witness :
    2 ≤ validation.len "United Kingdom"
    ∧ (NewInMemoryRepository 0 : InMemoryRepository Nat).data "sequentialID-1" = none
    ∧ InMemoryRepository.FindByID "sequentialID-1" (NewInMemoryRepository 0 : InMemoryRepository Nat)
        = Entity.zero
    ∧ (fixture.service forex.ConversionResult.zero none).Fetch "sequentialID-1"
        "United Kingdom" (NewInMemoryRepository 0)
      = ⟨FetchResponse.zero, some (GoError.business ⟨[], "TRANSACTION_NOT_FOUND"⟩),
          NewInMemoryRepository 0, [Call.FindByID "sequentialID-1"], false⟩ :=
  ⟨by decide, rfl,
    Fetch_not_found id.SequentialGenerator (fixture.cannedForEx forex.ConversionResult.zero none)
      (NewInMemoryRepository 0) "sequentialID-1" "United Kingdom" (by decide) rfl⟩

/-- The cutoff of a date at midnight UTC: the calendar date six months
earlier, normalised into the following month when the day does not exist
there. -/
theorem monthsOlderThan_six (Y : Int) (m : Nat) (d : Int) (hm1 : 1 ≤ m) (hm2 : m ≤ 12)
    (hd1 : 1 ≤ d) (hd2 : d ≤ daysIn m Y) :
    monthsOlderThan (Date Y m d) 6
      = Date (if m ≤ 6 then Y - 1 else Y) ((if m ≤ 6 then m + 6 else m - 6 : Nat) : Int) d
    ∧ (monthsOlderThan (Date Y m d) 6).civilDate
      = if d ≤ daysIn (if m ≤ 6 then m + 6 else m - 6) (if m ≤ 6 then Y - 1 else Y) then
          (if m ≤ 6 then Y - 1 else Y, if m ≤ 6 then m + 6 else m - 6, d)
        else
          (if m ≤ 6 then Y - 1 else Y, (if m ≤ 6 then m + 6 else m - 6) + 1,
            d - daysIn (if m ≤ 6 then m + 6 else m - 6) (if m ≤ 6 then Y - 1 else Y)) := by
  have e : monthsOlderThan (Date Y m d) 6
      = Date (if m ≤ 6 then Y - 1 else Y) ((if m ≤ 6 then m + 6 else m - 6 : Nat) : Int) d := by
    rw [monthsOlderThan, AddDate_Date Y m d hm1 hm2 hd1 hd2, Date_month_back Y m d hm1 hm2]
  refine ⟨e, ?_⟩
  rw [e]
  generalize hY : (if m ≤ 6 then Y - 1 else Y) = Y1
  generalize hM : (if m ≤ 6 then m + 6 else m - 6) = m1
  have hm1' : 1 ≤ m1 := by rw [← hM]; split <;> omega
  have hm2' : m1 ≤ 12 := by rw [← hM]; split <;> omega
  have hd31 := (daysIn_le m Y hm1 hm2).2
  have hb := daysIn_le m1 Y1 hm1' hm2'
  by_cases hd : d ≤ daysIn m1 Y1
  · rw [if_pos hd]
    exact civilDate_Date Y1 m1 d hm1' hm2' hd1 hd
  · rw [if_neg hd]
    have hm11 : m1 ≤ 11 := by
      by_contra hc
      have h12 : m1 = 12 := by omega
      rw [h12] at hd
      have : daysIn 12 Y1 = 31 := by rw [daysIn_eq]; simp [daysBefore]
      omega
    rw [Date_day_overflow Y1 m1 d hm1' hm11]
    have hb2 := daysIn_le (m1 + 1) Y1 (by omega) (by omega)
    exact civilDate_Date Y1 (m1 + 1) _ (by omega) (by omega) (by omega) (by omega)

/-- Claim C10, as amended: for a found transaction whose stored date is the
calendar date `(Y, m, d)` at midnight UTC, `Fetch` calls the exchange-rate
service with the cutoff `monthsOlderThan(date, 6)`, a time at midnight UTC.
When day `d` exists in the month six months earlier, the cutoff is that same
day of the month moved back six (the year decremented when the month is June
or earlier); when it does not, the cutoff is normalised into the following
month, the day reduced by the length of the short month. -/
theorem Fetch_cutoff {σ : Type} (s : RepositoryService σ) (id country : String) (w w1 : σ)
    (e : Entity) (Y : Int) (m : Nat) (d : Int) (hc : 2 ≤ validation.len country)
    (hf : s.txnRepository.FindByID id w = (e, w1)) (he : e ≠ Entity.zero)
    (hdate : e.TransactionDate = Date Y m d) (hm1 : 1 ≤ m) (hm2 : m ≤ 12)
    (hd1 : 1 ≤ d) (hd2 : d ≤ daysIn m Y) :
    (s.Fetch id country w).calls
      = [Call.FindByID id,
          Call.Convert country (monthsOlderThan (Date Y m d) 6) e.AmountInCents]
    ∧ (monthsOlderThan (Date Y m d) 6).sec % secondsPerDay = 0
    ∧ (monthsOlderThan (Date Y m d) 6).nsec = 0
    ∧ (monthsOlderThan (Date Y m d) 6).offset = 0
    ∧ (monthsOlderThan (Date Y m d) 6).civilDate
      = if d ≤ daysIn (if m ≤ 6 then m + 6 else m - 6) (if m ≤ 6 then Y - 1 else Y) then
          (if m ≤ 6 then Y - 1 else Y, if m ≤ 6 then m + 6 else m - 6, d)
        else
          (if m ≤ 6 then Y - 1 else Y, (if m ≤ 6 then m + 6 else m - 6) + 1,
            d - daysIn (if m ≤ 6 then m + 6 else m - 6) (if m ≤ 6 then Y - 1 else Y)) := by
  obtain ⟨e1, e2⟩ := monthsOlderThan_six Y m d hm1 hm2 hd1 hd2
  refine ⟨?_, ?_, ?_, ?_, e2⟩
  · simp only [RepositoryService.Fetch, fetchValidator_validate_ok country hc, hf, if_neg he,
      hdate]
    split <;> rfl
  · rw [e1]; simp [Date, secondsPerDay]
  · rw [e1]; rfl
  · rw [e1]; rfl

/-- Claim C10 on the date of the service test: 2022-05-12 gives 2021-11-12. -/
theorem Fetch_cutoff_witness :
    2 ≤ validation.len "*country*"
    ∧ (⟨"*txn-id*", "*description*", Date 2022 5 12, 543⟩ : Entity) ≠ Entity.zero
    ∧ (1 : Int) ≤ 12 ∧ (12 : Int) ≤ daysIn 5 2022
    ∧ (RepositoryService.Fetch
          (⟨⟨fun txn w => ((txn, none), w),
              fun _ w => (⟨"*txn-id*", "*description*", Date 2022 5 12, 543⟩, w)⟩,
            fixture.cannedForEx ⟨1234, forex.GoFloat64.zero⟩ none⟩ : RepositoryService Unit)
          "*txn-id*" "*country*" ()).calls
        = [Call.FindByID "*txn-id*",
            Call.Convert "*country*" (monthsOlderThan (Date 2022 5 (12 : Int)) 6) 543]
    ∧ (monthsOlderThan (Date 2022 5 (12 : Int)) 6).civilDate = (2021, 11, 12) :=
  ⟨by decide, by decide, by decide, by decide,
    (Fetch_cutoff (⟨⟨fun txn w => ((txn, none), w),
              fun _ w => (⟨"*txn-id*", "*description*", Date 2022 5 12, 543⟩, w)⟩,
            fixture.cannedForEx ⟨1234, forex.GoFloat64.zero⟩ none⟩ : RepositoryService Unit)
      "*txn-id*" "*country*" () () ⟨"*txn-id*", "*description*", Date 2022 5 12, 543⟩
      2022 5 12 (by decide) rfl (by decide) rfl (by decide) (by decide) (by decide)
      (by decide)).1,
    by decide⟩

/-- Claim C10 as stated fails on a day that does not exist six months
earlier: the transaction stored with the date 2023-08-31 is fetched with the
cutoff 2023-03-03 (the third of March, not a day 31 of February). -/
theorem cutoff_day_not_kept :
    Parse "2023-08-31" = some (Date 2023 8 31)
    ∧ ((fixture.service ⟨35, forex.GoFloat64.zero⟩ none).Fetch "sequentialID-1" "United Kingdom"
        ((fixture.service ⟨35, forex.GoFloat64.zero⟩ none).Store (Date 2023 10 1)
          ⟨some "A holiday somewhere nice", some "2023-08-31", some 100⟩
          (NewInMemoryRepository 0)).state).calls
      = [Call.FindByID "sequentialID-1",
          Call.Convert "United Kingdom" (monthsOlderThan (Date 2023 8 31) 6) 100]
    ∧ (monthsOlderThan (Date 2023 8 31) 6).civilDate = (2023, 3, 3)
    ∧ (monthsOlderThan (Date 2023 8 31) 6).civilDate ≠ (2023, 2, 31)
    ∧ (monthsOlderThan (Date 2023 8 31) 6).Format = "2023-03-03" := by
  decide

/-- A valid request maps to an entity, without a panic and without an error. -/
theorem mapToEntity_valid (d t : String) (a : Int) (p : Time) (hp : Parse t = some p) :
    mapToEntity ⟨some d, some t, some a⟩ = some (⟨"", d, p, a⟩, none) := by
  simp [mapToEntity, mapDate, hp]

/-- What `Store` does with a valid request on the in-memory repository whose
generator answers `i`. -/
theorem Store_valid {γ : Type} (gen : IDGenerator γ)
    (forEx : ForExService (InMemoryRepository γ)) (now : Time) (d t : String) (a : Int)
    (p : Time) (r : InMemoryRepository γ) (i : String) (g1 : γ)
    (hv : storeValidator.validate now ⟨some d, some t, some a⟩ = none)
    (hp : Parse t = some p) (hg : gen.NewID r.idGenerator = ((i, none), g1)) :
    RepositoryService.Store ⟨InMemoryRepository.repository gen, forEx⟩ now
        ⟨some d, some t, some a⟩ r
      = ⟨⟨i⟩, none, ⟨fun k => if k = i then some ⟨i, d, p, a⟩ else r.data k, g1⟩,
          [Call.Save ⟨"", d, p, a⟩], false⟩ := by
  simp [RepositoryService.Store, hv, mapToEntity_valid d t a p hp,
    InMemoryRepository.repository, InMemoryRepository.Save, hg]

/-- Claim C1: Store then Fetch. A request that passes Store validation, on a
service backed by the in-memory repository whose id generator succeeds with
the id `i`, is answered by `StoreResponse{ID: i}` without error; a following
`Fetch(i, country)`, for a country of length at least 2, when the one call of
the exchange-rate service that this Fetch makes (for the country, the cutoff
six months before the stored date and the stored amount, in the state that
Store left) returns a result without error, succeeds with a response whose id
is `i`, whose description is the request's, whose date formats (YYYY-MM-DD) to
the request's date text, and whose `usdAmountInCents` is the request's amount.
Nothing is assumed of the exchange-rate service on any other call. -/
theorem Store_Fetch_roundtrip {γ : Type} (gen : IDGenerator γ)
    (forEx : ForExService (InMemoryRepository γ)) (now : Time) (req : StoreRequest)
    (r : InMemoryRepository γ) (i : String) (g1 : γ) (country : String)
    (result : forex.ConversionResult) (w2 : InMemoryRepository γ)
    (hv : storeValidator.validate now req = none)
    (hg : gen.NewID r.idGenerator = ((i, none), g1))
    (hc : 2 ≤ validation.len country)
    (hfx : forEx.Convert country
        (monthsOlderThan (InMemoryRepository.FindByID i
          (RepositoryService.Store ⟨InMemoryRepository.repository gen, forEx⟩ now req r).state
          ).TransactionDate 6)
        (InMemoryRepository.FindByID i
          (RepositoryService.Store ⟨InMemoryRepository.repository gen, forEx⟩ now req r).state
          ).AmountInCents
        (RepositoryService.Store ⟨InMemoryRepository.repository gen, forEx⟩ now req r).state
      = some ((result, none), w2)) :
    (RepositoryService.Store ⟨InMemoryRepository.repository gen, forEx⟩ now req r).response
      = ⟨i⟩
    ∧ (RepositoryService.Store ⟨InMemoryRepository.repository gen, forEx⟩ now req r).err = none
    ∧ (RepositoryService.Fetch ⟨InMemoryRepository.repository gen, forEx⟩ i country
        (RepositoryService.Store ⟨InMemoryRepository.repository gen, forEx⟩ now req r).state).err
      = none
    ∧ (RepositoryService.Fetch ⟨InMemoryRepository.repository gen, forEx⟩ i country
        (RepositoryService.Store ⟨InMemoryRepository.repository gen, forEx⟩ now req r).state
        ).response.Transaction.ID = i
    ∧ some (RepositoryService.Fetch ⟨InMemoryRepository.repository gen, forEx⟩ i country
        (RepositoryService.Store ⟨InMemoryRepository.repository gen, forEx⟩ now req r).state
        ).response.Transaction.Description = req.Description
    ∧ FormattedDate (RepositoryService.Fetch ⟨InMemoryRepository.repository gen, forEx⟩ i
        country
        (RepositoryService.Store ⟨InMemoryRepository.repository gen, forEx⟩ now req r).state
        ).response.Transaction = req.TransactionDate
    ∧ some (RepositoryService.Fetch ⟨InMemoryRepository.repository gen, forEx⟩ i country
        (RepositoryService.Store ⟨InMemoryRepository.repository gen, forEx⟩ now req r).state
        ).response.Transaction.Amount.USDAmountInCents = req.AmountInCents
    ∧ (RepositoryService.Fetch ⟨InMemoryRepository.repository gen, forEx⟩ i country
        (RepositoryService.Store ⟨InMemoryRepository.repository gen, forEx⟩ now req r).state
        ).response.Transaction.Amount.ConvertedAmountInCents = result.Amount := by
  obtain ⟨d, t, a, p, rfl, hd1, _, hp, _, _⟩ := (validate_eq_none_iff now req).mp hv
  rw [Store_valid gen forEx now d t a p r i g1 hv hp hg] at hfx ⊢
  have hne : (⟨i, d, p, a⟩ : Entity) ≠ Entity.zero := by
    intro h
    have hd : d = "" := congrArg Entity.Description h
    rw [hd] at hd1
    exact absurd hd1 (by decide)
  have hfind : InMemoryRepository.FindByID i
      (⟨fun k => if k = i then some ⟨i, d, p, a⟩ else r.data k, g1⟩ : InMemoryRepository γ)
      = ⟨i, d, p, a⟩ := by
    simp [InMemoryRepository.FindByID]
  have hfmt := Format_Parse t p hp
  simp only [hfind] at hfx
  simp only [RepositoryService.Fetch, fetchValidator_validate_ok country hc,
    InMemoryRepository.repository, hfind, if_neg hne]
  rw [hfx]
  simp [FormattedDate, hfmt]

/-- Claim C1 on the scenario of the integration test: the holiday of
2023-05-01 for 100 cents is stored under `sequentialID-1` and fetched back,
with an exchange-rate service that answers for the United Kingdom only and
fails with an error for every other country. -/
theorem Store_Fetch_roundtrip_witness :
    storeValidator.validate (Date 2023 10 1)
        ⟨some "A holiday somewhere nice", some "2023-05-01", some 100⟩ = none
    ∧ 2 ≤ validation.len "United Kingdom"
    ∧ (RepositoryService.Store
        ⟨InMemoryRepository.repository id.SequentialGenerator,
          ⟨fun c _ _ w => if c = "United Kingdom"
            then some ((⟨35, forex.GoFloat64.zero⟩, none), w)
            else some ((forex.ConversionResult.zero, some (GoError.other "problem")), w)⟩⟩
        (Date 2023 10 1) ⟨some "A holiday somewhere nice", some "2023-05-01", some 100⟩
        (NewInMemoryRepository 0)).response = ⟨"sequentialID-1"⟩
    ∧ FormattedDate (RepositoryService.Fetch
        ⟨InMemoryRepository.repository id.SequentialGenerator,
          ⟨fun c _ _ w => if c = "United Kingdom"
            then some ((⟨35, forex.GoFloat64.zero⟩, none), w)
            else some ((forex.ConversionResult.zero, some (GoError.other "problem")), w)⟩⟩
        "sequentialID-1" "United Kingdom"
        (RepositoryService.Store
          ⟨InMemoryRepository.repository id.SequentialGenerator,
            ⟨fun c _ _ w => if c = "United Kingdom"
              then some ((⟨35, forex.GoFloat64.zero⟩, none), w)
              else some ((forex.ConversionResult.zero, some (GoError.other "problem")), w)⟩⟩
          (Date 2023 10 1) ⟨some "A holiday somewhere nice", some "2023-05-01", some 100⟩
          (NewInMemoryRepository 0)).state).response.Transaction = some "2023-05-01" :=
  have h := Store_Fetch_roundtrip id.SequentialGenerator
    ⟨fun c _ _ w => if c = "United Kingdom"
      then some ((⟨35, forex.GoFloat64.zero⟩, none), w)
      else some ((forex.ConversionResult.zero, some (GoError.other "problem")), w)⟩
    (Date 2023 10 1)
    ⟨some "A holiday somewhere nice", some "2023-05-01", some 100⟩ (NewInMemoryRepository 0)
    "sequentialID-1" 1 "United Kingdom" ⟨35, forex.GoFloat64.zero⟩ _
    (by decide) (by decide) (by decide) rfl
  ⟨by decide, by decide, h.1, h.2.2.2.2.2.1⟩

end transaction

/-! ## Floats of precision 53: rounding, and adding a half -/

namespace big

theorem bitLenFuel_spec (fuel n : Nat) (h : n ≤ fuel) :
    n < 2 ^ bitLenFuel fuel n ∧ (n ≠ 0 → 2 ^ (bitLenFuel fuel n - 1) ≤ n) := by
  induction fuel generalizing n with
  | zero =>
    have : n = 0 := by omega
    subst this
    simp [bitLenFuel]
  | succ f ih =>
    by_cases hn : n = 0
    · subst hn
      simp [bitLenFuel]
    · have hle : n / 2 ≤ f := by omega
      obtain ⟨h1, h2⟩ := ih (n / 2) hle
      simp only [bitLenFuel, if_neg hn, Nat.add_sub_cancel]
      constructor
      · rw [pow_succ]
        omega
      · intro _
        by_cases h0 : n / 2 = 0
        · have : bitLenFuel f (n / 2) = 0 := by
            rw [h0]; cases f <;> simp [bitLenFuel]
          rw [this]
          simp
          omega
        · have h3 := h2 h0
          have hpos : 0 < bitLenFuel f (n / 2) := by
            by_contra hc
            have : bitLenFuel f (n / 2) = 0 := by omega
            rw [this] at h1
            simp at h1
            exact h0 h1
          have e : bitLenFuel f (n / 2) = (bitLenFuel f (n / 2) - 1) + 1 := by omega
          rw [e, pow_succ]
          omega

/-- The bit length of `n` is the `k` with `2^(k-1) ≤ n < 2^k`. -/
theorem bitLen_eq (n k : Nat) (h1 : 2 ^ k ≤ n) (h2 : n < 2 ^ (k + 1)) : bitLen n = k + 1 := by
  have hn : n ≠ 0 := by
    have : 0 < 2 ^ k := Nat.two_pow_pos k
    omega
  obtain ⟨a, b⟩ := bitLenFuel_spec n n (le_refl n)
  have b := b hn
  rw [← bitLen] at a b
  have c1 : k < bitLen n := by
    by_contra hc
    have : 2 ^ bitLen n ≤ 2 ^ k := Nat.pow_le_pow_right (by norm_num) (by omega)
    omega
  have c2 : bitLen n - 1 < k + 1 := by
    by_contra hc
    have : 2 ^ (k + 1) ≤ 2 ^ (bitLen n - 1) := Nat.pow_le_pow_right (by norm_num) (by omega)
    omega
  omega

theorem round_small (m : Nat) (e : Int) (h : m < 2 ^ 53) : round m e = (m, e) := by
  rw [round, if_pos h]

theorem round_54 (m : Nat) (e : Int) (h1 : 2 ^ 53 ≤ m) (h2 : m < 2 ^ 54) :
    round m e = (if m % 2 = 1 ∧ m / 2 % 2 = 1 then m / 2 + 1 else m / 2, e + 1) := by
  have hb : bitLen m = 54 := bitLen_eq m 53 h1 h2
  have h3 : ¬ m < 2 ^ 53 := by omega
  simp only [round, if_neg h3, hb]
  norm_num
  have hr : m % 2 < 2 := Nat.mod_lt _ (by norm_num)
  by_cases hc : m % 2 = 1 ∧ m / 2 % 2 = 1
  · rw [if_pos hc, if_pos (Or.inr hc)]
  · rw [if_neg hc, if_neg]
    rintro (h | h)
    · omega
    · exact hc h

theorem round_pow54 (e : Int) : round (2 ^ 54) e = (2 ^ 52, e + 2) := by
  have hb : bitLen (2 ^ 54) = 55 := bitLen_eq _ 54 (le_refl _) (by norm_num)
  have h3 : ¬ 2 ^ 54 < 2 ^ 53 := by norm_num
  simp only [round, if_neg h3, hb]
  norm_num

theorem Add_same_sign (neg : Bool) (m1 m2 : Nat) (e1 e2 : Int) (h1 : m1 ≠ 0) (h2 : m2 ≠ 0) :
    Float.Add ⟨neg, m1, e1⟩ ⟨neg, m2, e2⟩
      = ⟨neg, (round (m1 * 2 ^ (e1 - min e1 e2).toNat + m2 * 2 ^ (e2 - min e1 e2).toNat)
            (min e1 e2)).1,
          (round (m1 * 2 ^ (e1 - min e1 e2).toNat + m2 * 2 ^ (e2 - min e1 e2).toNat)
            (min e1 e2)).2⟩ := by
  have hn : ∀ a b : Nat, (-(a : ℤ) + -(b : ℤ)).natAbs = a + b := by intro a b; omega
  have hp : ∀ a b : Nat, ((a : ℤ) + (b : ℤ)).natAbs = a + b := by intro a b; omega
  cases neg <;>
    simp only [Float.Add, h1, h2, false_and, and_false, if_false, hn, hp, if_true,
      Bool.false_eq_true]

/-- Rounding the 54-bit sum `m + H` to 53 bits does not change its integer
part in units of `2 * H`. -/
theorem round_54_div (m j : Nat) (hj1 : 1 ≤ j) (hHm : 2 ^ j ≤ m) (hm : m ≤ 2 ^ 53)
    (h1 : 2 ^ 53 ≤ m + 2 ^ j) (h2 : m + 2 ^ j < 2 ^ 54) :
    (if (m + 2 ^ j) % 2 = 1 ∧ (m + 2 ^ j) / 2 % 2 = 1 then (m + 2 ^ j) / 2 + 1
      else (m + 2 ^ j) / 2) / 2 ^ j = (m + 2 ^ j) / (2 * 2 ^ j) := by
  have hHpos : 0 < 2 ^ j := Nat.two_pow_pos j
  have hdd : (m + 2 ^ j) / 2 / 2 ^ j = (m + 2 ^ j) / (2 * 2 ^ j) := Nat.div_div_eq_div_mul _ _ _
  by_cases hc : (m + 2 ^ j) % 2 = 1 ∧ (m + 2 ^ j) / 2 % 2 = 1
  · rw [if_pos hc, ← hdd, Nat.succ_div]
    have hnd : ¬ 2 ^ j ∣ (m + 2 ^ j) / 2 + 1 := by
      rintro ⟨k, hk⟩
      have hj52 : j ≤ 52 := by
        by_contra hj
        have : 2 ^ 53 ≤ 2 ^ j := Nat.pow_le_pow_right (by norm_num) (by omega)
        omega
      have hK : 2 * 2 ^ j * 2 ^ (52 - j) = 2 ^ 53 := by
        rw [mul_assoc, ← pow_add, ← pow_succ']
        congr 1
        omega
      have hH2 : 2 ≤ 2 ^ j := by
        calc 2 = 2 ^ 1 := by norm_num
          _ ≤ 2 ^ j := Nat.pow_le_pow_right (by norm_num) hj1
      rcases Nat.lt_or_ge (2 ^ (52 - j)) k with hlt | hge
      · have h3 : 2 ^ j * (2 ^ (52 - j) + 1) ≤ 2 ^ j * k := Nat.mul_le_mul_left _ hlt
        have h4 : 2 ^ j * (2 ^ (52 - j) + 1) = 2 ^ j * 2 ^ (52 - j) + 2 ^ j := by ring
        have h5 : 2 * 2 ^ j * 2 ^ (52 - j) = 2 * (2 ^ j * 2 ^ (52 - j)) := by ring
        omega
      · have h3 : 2 ^ j * k ≤ 2 ^ j * 2 ^ (52 - j) := Nat.mul_le_mul_left _ hge
        have h5 : 2 * 2 ^ j * 2 ^ (52 - j) = 2 * (2 ^ j * 2 ^ (52 - j)) := by ring
        omega
    rw [if_neg hnd]
    rfl
  · rw [if_neg hc, hdd]

theorem truncate_mk (neg : Bool) (m : Nat) (e : Int) :
    (⟨neg, m, e⟩ : Float).Int
      = (if neg = true then -1 else 1)
        * ((if 0 ≤ e then m * 2 ^ e.toNat else m / 2 ^ (-e).toNat : Nat) : ℤ) := by
  by_cases h : 0 ≤ e <;> cases neg <;> simp [Float.Int, h]

/-- Adding a half of the same sign and truncating, for a value of exponent
at least -1 (a multiple of one half) below `2^52`. -/
theorem addHalf_Int_ge (neg : Bool) (m : Nat) (e : Int) (hm0 : m ≠ 0) (he : -1 ≤ e)
    (hlt : m * 2 ^ (e + 1).toNat < 2 ^ 53) :
    (Float.Add ⟨neg, m, e⟩ ⟨neg, 1, -1⟩).Int
      = (if neg = true then -1 else 1) * (((m * 2 ^ (e + 1).toNat + 1) / 2 : Nat) : ℤ) := by
  have hmin : min e (-1) = -1 := min_eq_right he
  have e1 : (e - -1).toNat = (e + 1).toNat := by congr 1
  have e2 : ((-1 : ℤ) - -1).toNat = 0 := by norm_num
  rw [Add_same_sign neg m 1 e (-1) hm0 (by norm_num), hmin, e1, e2, pow_zero, mul_one]
  rcases Nat.lt_or_ge (m * 2 ^ (e + 1).toNat + 1) (2 ^ 53) with h | h
  · rw [round_small _ _ h]
    dsimp only
    rw [truncate_mk]
    norm_num
  · have heq : m * 2 ^ (e + 1).toNat + 1 = 2 ^ 53 := by omega
    rw [heq, round_54 _ _ (le_refl _) (by norm_num)]
    dsimp only
    rw [truncate_mk]
    norm_num

/-- Adding a half of the same sign and truncating, for a value of exponent
below -1 that is at least one half and has a mantissa of at most `2^53`. -/
theorem addHalf_Int_lt (neg : Bool) (m : Nat) (e : Int) (he : e < -1)
    (hHm : 2 ^ (-1 - e).toNat ≤ m) (hm : m ≤ 2 ^ 53) :
    (Float.Add ⟨neg, m, e⟩ ⟨neg, 1, -1⟩).Int
      = (if neg = true then -1 else 1)
        * (((m + 2 ^ (-1 - e).toNat) / (2 * 2 ^ (-1 - e).toNat) : Nat) : ℤ) := by
  have hHpos : 0 < 2 ^ (-1 - e).toNat := Nat.two_pow_pos _
  have hm0 : m ≠ 0 := by omega
  have hmin : min e (-1) = e := min_eq_left (by omega)
  have e1 : (e - e).toNat = 0 := by simp
  have hj1 : 1 ≤ (-1 - e).toNat := by omega
  have hexp : (-e).toNat = (-1 - e).toNat + 1 := by omega
  have hpow : 2 ^ (-e).toNat = 2 * 2 ^ (-1 - e).toNat := by rw [hexp, pow_succ']
  rw [Add_same_sign neg m 1 e (-1) hm0 (by norm_num), hmin, e1, pow_zero, mul_one, one_mul]
  rcases Nat.lt_or_ge (m + 2 ^ (-1 - e).toNat) (2 ^ 53) with h | h
  · have hneg : ¬ (0 ≤ e) := by omega
    rw [round_small _ _ h]
    dsimp only
    rw [truncate_mk, if_neg hneg, hpow]
  · rcases Nat.lt_or_ge (m + 2 ^ (-1 - e).toNat) (2 ^ 54) with h2 | h2
    · have hneg : ¬ (0 ≤ e + 1) := by omega
      rw [round_54 _ _ h h2]
      dsimp only
      rw [truncate_mk, if_neg hneg]
      have hexp2 : (-(e + 1)).toNat = (-1 - e).toNat := by congr 1; ring
      rw [hexp2, round_54_div m _ hj1 hHm hm h h2]
    · have hmeq : m = 2 ^ 53 := by omega
      have hHeq : 2 ^ (-1 - e).toNat = 2 ^ 53 := by omega
      have hsum : m + 2 ^ (-1 - e).toNat = 2 ^ 54 := by omega
      have hj : (-1 - e).toNat = 53 := Nat.pow_right_injective (le_refl 2) hHeq
      have he54 : e = -54 := by omega
      rw [hsum, round_pow54]
      dsimp only
      rw [truncate_mk, hHeq, he54]
      have h52 : (52 : ℤ).toNat = 52 := rfl
      norm_num [h52]

theorem bitLen_gt (m : Nat) (h : 2 ^ 53 ≤ m) :
    54 ≤ bitLen m ∧ m < 2 ^ 53 * 2 ^ (bitLen m - 53) ∧ 2 ^ 52 * 2 ^ (bitLen m - 53) ≤ m := by
  obtain ⟨a, b⟩ := bitLenFuel_spec m m (le_refl m)
  have b := b (by omega)
  rw [← bitLen] at a b
  have c : 54 ≤ bitLen m := by
    by_contra hc
    have : 2 ^ bitLen m ≤ 2 ^ 53 := Nat.pow_le_pow_right (by norm_num) (by omega)
    omega
  refine ⟨c, ?_, ?_⟩
  · rw [← pow_add]
    have : 53 + (bitLen m - 53) = bitLen m := by omega
    rw [this]; exact a
  · rw [← pow_add]
    have : 52 + (bitLen m - 53) = bitLen m - 1 := by omega
    rw [this]; exact b

/-- A rounded mantissa has at most 53 bits (`2^53` itself stands for a carry
out of the 53 bits). -/
theorem round_le (m : Nat) (e : Int) : (round m e).1 ≤ 2 ^ 53 := by
  rcases Nat.lt_or_ge m (2 ^ 53) with h | h
  · rw [round_small m e h]; exact Nat.le_of_lt h
  · obtain ⟨_, h2, _⟩ := bitLen_gt m h
    have hq : m / 2 ^ (bitLen m - 53) < 2 ^ 53 := by
      rw [Nat.div_lt_iff_lt_mul (Nat.two_pow_pos _)]
      exact h2
    have h3 : ¬ m < 2 ^ 53 := by omega
    simp only [round, if_neg h3]
    split <;> omega

/-- Rounding to 53 bits moves a mantissa by at most `2^-53` of itself. -/
theorem round_error (m : Nat) (e : Int) :
    (round m e).2 = e + ((round m e).2 - e).toNat ∧
    2 ^ 53 * |((round m e).1 : ℤ) * 2 ^ ((round m e).2 - e).toNat - (m : ℤ)| ≤ (m : ℤ) := by
  rcases Nat.lt_or_ge m (2 ^ 53) with h | h
  · rw [round_small m e h]
    simp
  · obtain ⟨hb, h2, h3⟩ := bitLen_gt m h
    have hn : ¬ m < 2 ^ 53 := by omega
    have hs : bitLen m - 53 = (bitLen m - 53 - 1) + 1 := by omega
    have hP : 2 ^ (bitLen m - 53) = 2 * 2 ^ (bitLen m - 53 - 1) := by
      conv_lhs => rw [hs, pow_succ']
    have hdm := Nat.div_add_mod m (2 ^ (bitLen m - 53))
    have hr := Nat.mod_lt m (Nat.two_pow_pos (bitLen m - 53))
    simp only [round, if_neg hn]
    have ex : e + ((bitLen m - 53 : Nat) : ℤ) - e = ((bitLen m - 53 : Nat) : ℤ) := by ring
    refine ⟨by rw [ex, Int.toNat_ofNat], ?_⟩
    rw [ex, Int.toNat_ofNat]
    generalize hq : m / 2 ^ (bitLen m - 53) = q at *
    generalize hrr : m % 2 ^ (bitLen m - 53) = r at *
    generalize hPP : 2 ^ (bitLen m - 53 - 1) = P at *
    have hPz : ((2 : ℤ) ^ (bitLen m - 53)) = 2 * (P : ℤ) := by exact_mod_cast hP
    rw [hPz]
    rw [hP] at hdm hr h2 h3
    have hdm' : (2 : ℤ) * P * q + r = m := by exact_mod_cast hdm
    have h3' : (2 : ℤ) ^ 52 * (2 * P) ≤ m := by exact_mod_cast h3
    have hr' : (r : ℤ) < 2 * P := by exact_mod_cast hr
    have hr0 : (0 : ℤ) ≤ r := Int.natCast_nonneg r
    split
    · rename_i hc
      have hrP : (P : ℤ) ≤ r := by
        rcases hc with hc | hc
        · exact_mod_cast Nat.le_of_lt hc
        · exact_mod_cast Nat.le_of_eq hc.1.symm
      have e1 : (((q + 1 : Nat) : ℤ)) * (2 * (P : ℤ)) - (m : ℤ) = 2 * P - r := by
        push_cast; rw [← hdm']; ring
      rw [e1, abs_of_nonneg (by omega)]
      norm_num at h3' ⊢
      omega
    · rename_i hc
      have hrP : (r : ℤ) ≤ P := by
        by_contra hlt
        apply hc
        left
        have : (P : ℤ) < r := by omega
        exact_mod_cast this
      have e1 : ((q : ℤ)) * (2 * (P : ℤ)) - (m : ℤ) = -r := by
        rw [← hdm']; ring
      rw [e1, abs_neg, abs_of_nonneg hr0]
      norm_num at h3' ⊢
      omega

/-- Adding a half of the same sign and truncating gives 0 for a value below
one half, the largest such value of 53 bits, `(2^53 - 1) * 2^-54`, apart. -/
theorem addHalf_Int_small (neg : Bool) (m : Nat) (e : Int) (hm0 : m ≠ 0) (he : e < -1)
    (hmH : m < 2 ^ (-1 - e).toNat) (hm : m ≤ 2 ^ 53) (hne : ¬ (m = 2 ^ 53 - 1 ∧ e = -54)) :
    (Float.Add ⟨neg, m, e⟩ ⟨neg, 1, -1⟩).Int = 0 := by
  have hmin : min e (-1) = e := min_eq_left (by omega)
  have e1 : (e - e).toNat = 0 := by simp
  have hexp : (-e).toNat = (-1 - e).toNat + 1 := by omega
  have hpow : 2 ^ (-e).toNat = 2 * 2 ^ (-1 - e).toNat := by rw [hexp, pow_succ']
  have hej : e = -1 - ((-1 - e).toNat : ℤ) := by omega
  rw [Add_same_sign neg m 1 e (-1) hm0 (by norm_num), hmin, e1, pow_zero, mul_one, one_mul]
  generalize hj : (-1 - e).toNat = j at *
  rcases Nat.lt_or_ge (m + 2 ^ j) (2 ^ 53) with h | h
  · have hneg : ¬ (0 ≤ e) := by omega
    rw [round_small _ _ h]
    dsimp only
    rw [truncate_mk, if_neg hneg, hpow, Nat.div_eq_of_lt (by omega)]
    simp
  · have hj53 : 53 ≤ j := by
      by_contra hc
      have : 2 ^ (j + 1) ≤ 2 ^ 53 := Nat.pow_le_pow_right (by norm_num) (by omega)
      rw [pow_succ] at this
      omega
    have hb : bitLen (m + 2 ^ j) = j + 1 :=
      bitLen_eq _ j (by omega) (by rw [pow_succ]; omega)
    have hn : ¬ m + 2 ^ j < 2 ^ 53 := by omega
    have hsh : j + 1 - 53 = (j - 53) + 1 := by omega
    have hH : 2 ^ j = 2 ^ 53 * 2 ^ (j - 53) := by
      rw [← pow_add]; congr 1; omega
    have hPpos : 0 < 2 ^ (j - 53) := Nat.two_pow_pos _
    have hp1 : 2 ^ (j - 53 + 1) = 2 ^ (j - 53) * 2 := pow_succ _ _
    rw [round, if_neg hn]
    simp only [hb, hsh, Nat.add_sub_cancel, hp1]
    have hdm := Nat.div_add_mod (m + 2 ^ j) (2 ^ (j - 53) * 2)
    have hq0 : (m + 2 ^ j) / (2 ^ (j - 53) * 2) < 2 ^ 53 := by
      rw [Nat.div_lt_iff_lt_mul (by omega)]
      rw [hH]; rw [hH] at hmH
      have : 2 ^ 53 * (2 ^ (j - 53) * 2) = 2 * (2 ^ 53 * 2 ^ (j - 53)) := by ring
      omega
    have hq : (if (m + 2 ^ j) % (2 ^ (j - 53) * 2) > 2 ^ (j - 53) ∨
        (m + 2 ^ j) % (2 ^ (j - 53) * 2) = 2 ^ (j - 53) ∧
          (m + 2 ^ j) / (2 ^ (j - 53) * 2) % 2 = 1
        then (m + 2 ^ j) / (2 ^ (j - 53) * 2) + 1 else (m + 2 ^ j) / (2 ^ (j - 53) * 2))
        < 2 ^ 53 := by
      split
      · rename_i hc
        by_contra hge
        have hq1 : (m + 2 ^ j) / (2 ^ (j - 53) * 2) = 2 ^ 53 - 1 := by omega
        rw [hq1] at hdm
        rw [hH] at hdm hmH
        have hr : 2 ^ (j - 53) ≤ (m + 2 ^ 53 * 2 ^ (j - 53)) % (2 ^ (j - 53) * 2) := by
          rw [hH] at hc
          rcases hc with hc | hc
          · exact Nat.le_of_lt hc
          · exact Nat.le_of_eq hc.1.symm
        by_cases ht : j - 53 = 0
        · rw [ht] at hdm hr hmH
          apply hne
          constructor
          · omega
          · omega
        · have hP2 : 2 ≤ 2 ^ (j - 53) := by
            calc 2 = 2 ^ 1 := by norm_num
              _ ≤ 2 ^ (j - 53) := Nat.pow_le_pow_right (by norm_num) (by omega)
          generalize 2 ^ (j - 53) = P at *
          omega
      · exact hq0
    have hexp2 : e + ((j - 53 + 1 : Nat) : ℤ) = -53 := by
      rw [hej]; push_cast; omega
    rw [hexp2, truncate_mk, if_neg (show ¬ (0 : ℤ) ≤ -53 by norm_num)]
    have h53 : (-(-53 : ℤ)).toNat = 53 := rfl
    rw [h53, Nat.div_eq_of_lt hq]
    simp

theorem zpow_two_of_ge (e : ℤ) (he : -1 ≤ e) :
    (2 : ℚ) ^ e = ((2 ^ (e + 1).toNat : ℕ) : ℚ) / ((2 : ℕ) : ℚ) := by
  have h : e = ((e + 1).toNat : ℤ) - 1 := by omega
  conv_lhs => rw [h]
  rw [zpow_sub₀ (by norm_num), zpow_natCast, zpow_one]
  push_cast
  rfl

theorem zpow_two_of_lt (e : ℤ) (he : e < -1) :
    (2 : ℚ) ^ e = 1 / ((2 * 2 ^ (-1 - e).toNat : ℕ) : ℚ) := by
  have h : e = -(((-1 - e).toNat + 1 : ℕ) : ℤ) := by omega
  conv_lhs => rw [h]
  rw [zpow_neg, zpow_natCast, pow_succ]
  push_cast
  rw [one_div, mul_comm]

/-- The magnitude of a `big.Float`. -/
theorem abs_toRat (x : Float) : |x.toRat| = (x.mant : ℚ) * (2 : ℚ) ^ x.exp := by
  obtain ⟨neg, m, e⟩ := x
  have h2 : (0 : ℚ) < (2 : ℚ) ^ e := zpow_pos (by norm_num) _
  have hm : (0 : ℚ) ≤ (m : ℚ) := Nat.cast_nonneg _
  have hv : |(m : ℚ) * (2 : ℚ) ^ e| = (m : ℚ) * (2 : ℚ) ^ e :=
    abs_of_nonneg (mul_nonneg hm (le_of_lt h2))
  cases neg
  · simpa [Float.toRat] using hv
  · simpa [Float.toRat] using hv

end big

namespace forex

/-- Rounding half away from zero acts on the magnitude. -/
theorem roundHalfAwayFromZero_toRat (neg : Bool) (m : Nat) (e : ℤ) (hm0 : m ≠ 0) :
    roundHalfAwayFromZero (big.Float.toRat ⟨neg, m, e⟩)
      = (if neg = true then -1 else 1) * ⌊(m : ℚ) * (2 : ℚ) ^ e + 1 / 2⌋ := by
  have h2 : (0 : ℚ) < (2 : ℚ) ^ e := zpow_pos (by norm_num) _
  have hm : (0 : ℚ) < (m : ℚ) := by exact_mod_cast Nat.pos_of_ne_zero hm0
  have hv : (0 : ℚ) < (m : ℚ) * (2 : ℚ) ^ e := mul_pos hm h2
  cases neg
  · simp only [big.Float.toRat, Bool.false_eq_true, if_false, one_mul, roundHalfAwayFromZero]
    rw [if_pos (le_of_lt hv)]
  · simp only [big.Float.toRat, if_true, neg_one_mul, neg_mul, roundHalfAwayFromZero]
    rw [if_neg (by linarith), neg_neg]
    simp

theorem floor_half_ge (m : Nat) (e : ℤ) (he : -1 ≤ e) :
    ⌊(m : ℚ) * (2 : ℚ) ^ e + 1 / 2⌋ = (((m * 2 ^ (e + 1).toNat + 1) / 2 : ℕ) : ℤ) := by
  have h : (m : ℚ) * (2 : ℚ) ^ e + 1 / 2
      = ((m * 2 ^ (e + 1).toNat + 1 : ℕ) : ℚ) / ((2 : ℕ) : ℚ) := by
    rw [big.zpow_two_of_ge e he]
    push_cast
    ring
  rw [h, Rat.floor_natCast_div_natCast]
  norm_cast

theorem floor_half_lt (m : Nat) (e : ℤ) (he : e < -1) :
    ⌊(m : ℚ) * (2 : ℚ) ^ e + 1 / 2⌋
      = (((m + 2 ^ (-1 - e).toNat) / (2 * 2 ^ (-1 - e).toNat) : ℕ) : ℤ) := by
  have hH : (0 : ℚ) < ((2 ^ (-1 - e).toNat : ℕ) : ℚ) := by
    exact_mod_cast Nat.two_pow_pos _
  have h : (m : ℚ) * (2 : ℚ) ^ e + 1 / 2
      = ((m + 2 ^ (-1 - e).toNat : ℕ) : ℚ) / ((2 * 2 ^ (-1 - e).toNat : ℕ) : ℚ) := by
    rw [big.zpow_two_of_lt e he]
    push_cast
    push_cast at hH
    field_simp
    ring
  rw [h, Rat.floor_natCast_div_natCast]
  norm_cast

theorem roundToNearestBigInt_mk (neg : Bool) (m : Nat) (e : ℤ) (hm0 : m ≠ 0) :
    roundToNearestBigInt ⟨neg, m, e⟩ = (big.Float.Add ⟨neg, m, e⟩ ⟨neg, 1, -1⟩).Int := by
  cases neg <;> simp [roundToNearestBigInt, big.Float.Sign, hm0, big.NewFloat]

theorem roundToNearestBigInt_zero (neg : Bool) (e : ℤ) :
    roundToNearestBigInt ⟨neg, 0, e⟩ = 0 := by
  have h : big.round 1 (-1) = (1, -1) := big.round_small 1 (-1) (by norm_num)
  simp [roundToNearestBigInt, big.Float.Sign, big.NewFloat, big.Float.Add, h, big.Float.Int]

/-- The function `roundToNearestBigInt` rounds to the nearest integer, a half
away from zero, every value of at most 53 bits that is below `2^52` in
magnitude and is not `(2^53 - 1) * 2^-54`, the value next below one half. -/
theorem roundToNearestBigInt_eq (x : big.Float) (hm : x.mant ≤ 2 ^ 53)
    (h1 : |x.toRat| < 2 ^ 52) (h2 : |x.toRat| ≠ 1 / 2 - 1 / 2 ^ 54) :
    roundToNearestBigInt x = roundHalfAwayFromZero x.toRat := by
  obtain ⟨neg, m, e⟩ := x
  simp only at hm
  by_cases hm0 : m = 0
  · subst hm0
    rw [roundToNearestBigInt_zero]
    have hz : big.Float.toRat ⟨neg, 0, e⟩ = 0 := by simp [big.Float.toRat]
    rw [hz, roundHalfAwayFromZero, if_pos (le_refl _)]
    symm
    rw [Int.floor_eq_iff]
    constructor <;> norm_num
  · rw [big.abs_toRat] at h1 h2
    simp only at h1 h2
    rw [roundToNearestBigInt_mk neg m e hm0, roundHalfAwayFromZero_toRat neg m e hm0]
    by_cases he : -1 ≤ e
    · have hlt : m * 2 ^ (e + 1).toNat < 2 ^ 53 := by
        rw [big.zpow_two_of_ge e he] at h1
        have h3 : ((m * 2 ^ (e + 1).toNat : ℕ) : ℚ) < ((2 ^ 53 : ℕ) : ℚ) := by
          push_cast
          push_cast at h1
          linarith
        exact_mod_cast h3
      rw [floor_half_ge m e he, big.addHalf_Int_ge neg m e hm0 he hlt]
    · have he' : e < -1 := by omega
      rw [floor_half_lt m e he']
      by_cases hH : 2 ^ (-1 - e).toNat ≤ m
      · rw [big.addHalf_Int_lt neg m e he' hH hm]
      · have hmH : m < 2 ^ (-1 - e).toNat := by omega
        have hne : ¬ (m = 2 ^ 53 - 1 ∧ e = -54) := by
          rintro ⟨hm53, he54⟩
          apply h2
          rw [hm53, he54]
          norm_num
        rw [big.addHalf_Int_small neg m e hm0 he' hmH hm hne, Nat.div_eq_of_lt (by omega)]
        simp

/-- The result of `roundToNearestBigInt` is small when the value is. -/
theorem roundHalfAwayFromZero_bound (x : ℚ) (h1 : |x| < 2 ^ 52) :
    -2 ^ 52 ≤ roundHalfAwayFromZero x ∧ roundHalfAwayFromZero x ≤ 2 ^ 52 := by
  rw [abs_lt] at h1
  simp only [roundHalfAwayFromZero]
  split
  · rename_i h0
    have ha : (0 : ℤ) ≤ ⌊x + 1 / 2⌋ := Int.floor_nonneg.mpr (by linarith)
    have hb : ⌊x + 1 / 2⌋ < 2 ^ 52 + 1 := by
      rw [Int.floor_lt]
      push_cast
      linarith [h1.2]
    constructor <;> omega
  · rename_i h0
    have ha : (0 : ℤ) ≤ ⌊-x + 1 / 2⌋ := Int.floor_nonneg.mpr (by linarith)
    have hb : ⌊-x + 1 / 2⌋ < 2 ^ 52 + 1 := by
      rw [Int.floor_lt]
      push_cast
      linarith [h1.1]
    constructor <;> omega

theorem Int64_small (x : ℤ) (h1 : -2 ^ 52 ≤ x) (h2 : x ≤ 2 ^ 52) : big.Int64 x = x := by
  simp only [big.Int64]
  omega

theorem Mul_mant_le (x y : big.Float) : (x.Mul y).mant ≤ 2 ^ 53 := by
  simp only [big.Float.Mul]
  split
  · simp
  · exact big.round_le _ _

/-- The conversion `float64(amount)` is exact up to `2^53` in magnitude. -/
theorem ofInt_toRat (amount : ℤ) (h : |amount| ≤ 2 ^ 53) :
    (big.NewFloat (Float64.ofInt amount)).toRat = (amount : ℚ) := by
  have hn : amount.natAbs ≤ 2 ^ 53 := by
    have := Int.natCast_natAbs amount
    omega
  have hcast : ((amount.natAbs : ℕ) : ℚ) = |(amount : ℚ)| := by
    rw [Nat.cast_natAbs, Int.cast_abs]
  rcases Nat.lt_or_ge amount.natAbs (2 ^ 53) with hlt | hge
  · simp only [Float64.ofInt, big.round_small _ _ hlt, big.NewFloat, big.Float.toRat, zpow_zero,
      mul_one, hcast]
    by_cases h0 : amount < 0
    · have : (amount : ℚ) < 0 := by exact_mod_cast h0
      simp [h0, abs_of_neg this]
    · have : (0 : ℚ) ≤ (amount : ℚ) := by exact_mod_cast (not_lt.mp h0)
      simp [h0, abs_of_nonneg this]
  · have heq : amount.natAbs = 2 ^ 53 := by omega
    have hr : big.round (2 ^ 53) 0 = (2 ^ 52, 1) := by
      rw [big.round_54 _ _ (le_refl _) (by norm_num)]
      norm_num
    have habs : |(amount : ℚ)| = 2 ^ 53 := by
      rw [← hcast, heq]; norm_num
    simp only [Float64.ofInt, heq, hr, big.NewFloat, big.Float.toRat]
    by_cases h0 : amount < 0
    · have h0' : (amount : ℚ) < 0 := by exact_mod_cast h0
      rw [abs_of_neg h0'] at habs
      simp only [h0, decide_True, if_true]
      norm_num
      linarith
    · have h0' : (0 : ℚ) ≤ (amount : ℚ) := by exact_mod_cast (not_lt.mp h0)
      rw [abs_of_nonneg h0'] at habs
      simp only [h0, decide_False, Bool.false_eq_true, if_false]
      norm_num
      linarith

theorem NewFloat_toRat (x : Float64) : (big.NewFloat x).toRat = x.toRat := rfl

/-- The method `Mul` returns the exact product with a relative error of at
most `2^-53`. -/
theorem Mul_error (x y : big.Float) :
    |(x.Mul y).toRat - x.toRat * y.toRat| ≤ |x.toRat * y.toRat| / 2 ^ 53 := by
  obtain ⟨nx, mx, ex⟩ := x
  obtain ⟨ny, my, ey⟩ := y
  by_cases hz : mx = 0 ∨ my = 0
  · have h0 : big.Float.toRat ⟨nx, mx, ex⟩ * big.Float.toRat ⟨ny, my, ey⟩ = 0 := by
      rcases hz with hz | hz <;> simp [big.Float.toRat, hz]
    have h1 : (big.Float.Mul ⟨nx, mx, ex⟩ ⟨ny, my, ey⟩).toRat = 0 := by
      simp [big.Float.Mul, hz, big.Float.toRat]
    rw [h0, h1]
    simp
  · obtain ⟨he, hd⟩ := big.round_error (mx * my) (ex + ey)
    have hMul : big.Float.Mul ⟨nx, mx, ex⟩ ⟨ny, my, ey⟩
        = ⟨nx != ny, (big.round (mx * my) (ex + ey)).1, (big.round (mx * my) (ex + ey)).2⟩ := by
      simp only [big.Float.Mul, if_neg hz]
    rw [hMul]
    generalize (big.round (mx * my) (ex + ey)).1 = q at *
    generalize (big.round (mx * my) (ex + ey)).2 = e1 at *
    generalize hs : (e1 - (ex + ey)).toNat = s at *
    have h2 : (0 : ℚ) < (2 : ℚ) ^ (ex + ey) := zpow_pos (by norm_num) _
    have hpow : (2 : ℚ) ^ e1 = (2 : ℚ) ^ s * (2 : ℚ) ^ (ex + ey) := by
      rw [he, zpow_add₀ (by norm_num), zpow_natCast, mul_comm]
    have hsplit : (2 : ℚ) ^ (ex + ey) = (2 : ℚ) ^ ex * (2 : ℚ) ^ ey := zpow_add₀ (by norm_num) _ _
    have hdq : (2 : ℚ) ^ 53 * |(q : ℚ) * (2 : ℚ) ^ s - (mx : ℚ) * (my : ℚ)|
        ≤ (mx : ℚ) * (my : ℚ) := by
      have := (Int.cast_le (R := ℚ)).mpr hd
      push_cast at this
      exact this
    have hsign : (if (nx != ny) = true then (-1 : ℚ) else 1)
        = (if nx = true then (-1 : ℚ) else 1) * (if ny = true then (-1 : ℚ) else 1) := by
      cases nx <;> cases ny <;> simp
    have hdiff : big.Float.toRat ⟨nx != ny, q, e1⟩
        - big.Float.toRat ⟨nx, mx, ex⟩ * big.Float.toRat ⟨ny, my, ey⟩
        = (if (nx != ny) = true then (-1 : ℚ) else 1)
          * (((q : ℚ) * (2 : ℚ) ^ s - (mx : ℚ) * (my : ℚ)) * (2 : ℚ) ^ (ex + ey)) := by
      simp only [big.Float.toRat]
      rw [hpow, hsign, hsplit]
      ring
    have hprod : big.Float.toRat ⟨nx, mx, ex⟩ * big.Float.toRat ⟨ny, my, ey⟩
        = (if (nx != ny) = true then (-1 : ℚ) else 1)
          * (((mx : ℚ) * (my : ℚ)) * (2 : ℚ) ^ (ex + ey)) := by
      simp only [big.Float.toRat]
      rw [hsign, hsplit]
      ring
    have hone : |(if (nx != ny) = true then (-1 : ℚ) else 1)| = 1 := by
      split <;> simp
    have hmm : (0 : ℚ) ≤ (mx : ℚ) * (my : ℚ) := by positivity
    rw [hdiff, hprod]
    simp only [abs_mul, hone, one_mul, abs_of_pos h2, abs_of_nonneg hmm]
    rw [le_div_iff₀ (by norm_num)]
    calc |(q : ℚ) * (2 : ℚ) ^ s - (mx : ℚ) * (my : ℚ)| * (2 : ℚ) ^ (ex + ey) * 2 ^ 53
        = ((2 : ℚ) ^ 53 * |(q : ℚ) * (2 : ℚ) ^ s - (mx : ℚ) * (my : ℚ)|)
          * (2 : ℚ) ^ (ex + ey) := by ring
      _ ≤ (mx : ℚ) * (my : ℚ) * (2 : ℚ) ^ (ex + ey) :=
          mul_le_mul_of_nonneg_right hdq (le_of_lt h2)

/-- Claim C2, as amended: `Convert(amount, rate)` is the product rounded to
the nearest integer, a value exactly at .5 away from zero, of the product `p`
that `big.Float.Mul` returns, which is the exact product `amount * rate`
rounded to 53 significant bits (to nearest, a tie to the even mantissa), a
relative error of at most `2^-53`, and not of the exact product itself. This
holds for `|amount| ≤ 2^53` whenever `|p| < 2^52` and `|p|` is not
`1/2 - 2^-54`, the 53-bit value next below one half. -/
theorem Convert_rounds_product (amount : ℤ) (rate : Float64)
    (ha : |amount| ≤ 2 ^ 53)
    (h1 : |((big.NewFloat (Float64.ofInt amount)).Mul (big.NewFloat rate)).toRat| < 2 ^ 52)
    (h2 : |((big.NewFloat (Float64.ofInt amount)).Mul (big.NewFloat rate)).toRat|
      ≠ 1 / 2 - 1 / 2 ^ 54) :
    Converter.Convert amount rate
      = roundHalfAwayFromZero
          ((big.NewFloat (Float64.ofInt amount)).Mul (big.NewFloat rate)).toRat
    ∧ |((big.NewFloat (Float64.ofInt amount)).Mul (big.NewFloat rate)).toRat
        - (amount : ℚ) * rate.toRat| ≤ |(amount : ℚ) * rate.toRat| / 2 ^ 53 := by
  constructor
  · have hr := roundToNearestBigInt_eq _ (Mul_mant_le _ _) h1 h2
    have hb := roundHalfAwayFromZero_bound _ h1
    simp only [Converter.Convert]
    rw [hr, Int64_small _ hb.1 hb.2]
  · have h := Mul_error (big.NewFloat (Float64.ofInt amount)) (big.NewFloat rate)
    rw [ofInt_toRat amount ha, NewFloat_toRat] at h
    exact h

/-- Claim C2, as amended, on a row of the test table: 25 at the rate 0.74
gives the rounded product 18.5 and the result 19. -/
theorem Convert_rounds_product_witness :
    ((big.NewFloat (Float64.ofInt 25)).Mul (big.NewFloat (Float64.ofConst false 74 100))).toRat
      = 37 / 2
    ∧ Converter.Convert 25 (Float64.ofConst false 74 100) = roundHalfAwayFromZero (37 / 2) := by
  have hp : (big.NewFloat (Float64.ofInt 25)).Mul (big.NewFloat (Float64.ofConst false 74 100))
      = ⟨false, 5207287069147136, -48⟩ := by decide
  have hv : ((big.NewFloat (Float64.ofInt 25)).Mul
      (big.NewFloat (Float64.ofConst false 74 100))).toRat = 37 / 2 := by
    rw [hp]
    simp only [big.Float.toRat]
    norm_num
  refine ⟨hv, ?_⟩
  have h := (Convert_rounds_product 25 (Float64.ofConst false 74 100) (by norm_num)
    (by rw [hv]; norm_num [abs_of_pos]) (by rw [hv]; norm_num [abs_of_pos])).1
  rw [hv] at h
  exact h

end forex

/-! ## The converter -/

namespace forex

set_option maxRecDepth 8000 in
/-- Claim C3: `Convert` returns the expected value on every row of the
authors' test table, the rates being the `float64` values of the constants
written there. -/
theorem Convert_test_table :
    Converter.Convert 25 (Float64.ofConst false 745 1000) = 19
    ∧ Converter.Convert 25 (Float64.ofConst false 725 1000) = 18
    ∧ Converter.Convert 25 (Float64.ofConst false 75 100) = 19
    ∧ Converter.Convert 25 (Float64.ofConst false 74 100) = 19
    ∧ Converter.Convert 25 (Float64.ofConst false 73 100) = 18
    ∧ Converter.Convert 25
        (Float64.ofConst false 77777777777777777777777 100000000000000000000000) = 19
    ∧ Converter.Convert 1000000000 (Float64.ofConst false 1000000 1) = 1000000000000000
    ∧ Converter.Convert (-1000000000) (Float64.ofConst false 1000000 1) = -1000000000000000
    ∧ Converter.Convert 0 (Float64.ofConst false 0 1) = 0
    ∧ Converter.Convert 1 (Float64.ofConst false 0 1) = 0
    ∧ Converter.Convert 0 (Float64.ofConst false 1 1) = 0
    ∧ Converter.Convert (-1) (Float64.ofConst false 1 1) = -1 := by
  decide

/-- Claim C2 as stated fails on a row of the authors' test table: the
`float64` nearest to 0.74 is `6665327448508334 * 2^-53`, a little less than
0.74, so the exact product with 25 lies below 18.5 and rounds to 18, while
`Convert` returns 19, because the product is first rounded to 53 bits, which
gives 18.5 exactly. -/
theorem Convert_not_exact_product :
    Float64.ofConst false 74 100 = ⟨false, 6665327448508334, -53⟩
    ∧ Converter.Convert 25 (Float64.ofConst false 74 100) = 19
    ∧ roundHalfAwayFromZero ((25 : ℚ) * (Float64.ofConst false 74 100).toRat) = 18 := by
  have h : Float64.ofConst false 74 100 = ⟨false, 6665327448508334, -53⟩ := by decide
  refine ⟨h, by decide, ?_⟩
  rw [h]
  have hx : (25 : ℚ) * (⟨false, 6665327448508334, -53⟩ : Float64).toRat
      = 83316593106354175 / 4503599627370496 := by
    simp only [Float64.toRat]
    norm_num
  rw [hx, roundHalfAwayFromZero, if_pos (by norm_num)]
  rw [Int.floor_eq_iff]
  constructor <;> norm_num

end forex

/-! ## The exchange-rate service -/

namespace forex

open GoTime

/-- Claim C11: when the exchange-rate repository answers a call with the
empty record (Go's `record == (Record{})`) and no error, this call of
`forex.RepositoryService.Convert` returns the business error
UNABLE_TO_CONVERT_TO_TARGET_CURRENCY (without fields) and the zero-value
`ConversionResult`, for every amount, country and cutoff; and `Fetch`, for a
valid country and a found transaction, when the repository answers the call
that this Fetch causes with the empty record and no error, returns that same
error and the empty `FetchResponse`. Nothing is assumed of the repository on
any other call. -/
theorem Convert_no_record :
    (∀ (σ : Type) (s : RepositoryService σ) (country : String) (cutoff : Time) (amount : Int)
        (w w1 : σ) (record : Record),
        s.repository.FindByCountry country cutoff w = ((record, none), w1) →
        record.isZero = true →
        s.Convert country cutoff amount w
          = some ((ConversionResult.zero,
              some (GoError.business ⟨[], "UNABLE_TO_CONVERT_TO_TARGET_CURRENCY"⟩)), w1))
    ∧ (∀ (σ : Type) (s : RepositoryService σ) (txnRepository : transaction.Repository σ)
        (id country : String) (w w1 w2 : σ) (e : transaction.Entity) (record : Record),
        2 ≤ validation.len country →
        txnRepository.FindByID id w = (e, w1) →
        e ≠ transaction.Entity.zero →
        s.repository.FindByCountry country (transaction.monthsOlderThan e.TransactionDate 6) w1
          = ((record, none), w2) →
        record.isZero = true →
        transaction.RepositoryService.Fetch ⟨txnRepository, s.forExService⟩ id country w
          = ⟨transaction.FetchResponse.zero,
              some (GoError.business ⟨[], "UNABLE_TO_CONVERT_TO_TARGET_CURRENCY"⟩), w2,
              [transaction.Call.FindByID id,
                transaction.Call.Convert country
                  (transaction.monthsOlderThan e.TransactionDate 6) e.AmountInCents],
              false⟩) := by
  refine ⟨?_, ?_⟩
  · intro σ s country cutoff amount w w1 record hf hz
    simp [RepositoryService.Convert, hf, hz, unableToConvertToTargetCurrency]
  · intro σ s txnRepository id country w w1 w2 e record hc hf he hr hz
    have hconv : s.Convert country (transaction.monthsOlderThan e.TransactionDate 6)
        e.AmountInCents w1
        = some ((ConversionResult.zero,
            some (GoError.business ⟨[], "UNABLE_TO_CONVERT_TO_TARGET_CURRENCY"⟩)), w2) := by
      simp [RepositoryService.Convert, hr, hz, unableToConvertToTargetCurrency]
    simp only [transaction.RepositoryService.Fetch,
      transaction.fetchValidator_validate_ok country hc, hf, if_neg he,
      RepositoryService.forExService, hconv]

/-- Claim C11 on the foreign exchange error scenario of the integration tests,
with a repository that finds no record for the United Kingdom at the cutoffs
asked for here and holds a record for every other call. -/
theorem Convert_no_record_witness :
    2 ≤ validation.len "United Kingdom"
    ∧ RepositoryService.Convert
          (⟨⟨fun c t w => if c = "United Kingdom" ∧ t.sec ≤ (Date 2021 7 2).sec
              then ((Record.zero, none), w)
              else ((⟨Date 2023 4 4, GoFloat64.finite (Float64.ofConst false 345 1000), none⟩,
                none), w)⟩⟩ : RepositoryService Unit)
          "United Kingdom" (Date 2021 7 2) 100 ()
        = some ((ConversionResult.zero,
            some (GoError.business ⟨[], "UNABLE_TO_CONVERT_TO_TARGET_CURRENCY"⟩)), ())
    ∧ transaction.RepositoryService.Fetch
          (⟨⟨fun txn w => ((txn, none), w),
              fun _ w => (⟨"sequentialID-1", "A holiday with no exchange rate",
                Date 2022 1 2, 100⟩, w)⟩,
            RepositoryService.forExService
              ⟨⟨fun c t w => if c = "United Kingdom" ∧ t.sec ≤ (Date 2021 7 2).sec
                then ((Record.zero, none), w)
                else ((⟨Date 2023 4 4, GoFloat64.finite (Float64.ofConst false 345 1000),
                  none⟩, none), w)⟩⟩⟩ :
            transaction.RepositoryService Unit) "sequentialID-1" "United Kingdom" ()
        = ⟨transaction.FetchResponse.zero,
            some (GoError.business ⟨[], "UNABLE_TO_CONVERT_TO_TARGET_CURRENCY"⟩), (),
            [transaction.Call.FindByID "sequentialID-1",
              transaction.Call.Convert "United Kingdom"
                (transaction.monthsOlderThan (Date 2022 1 2) 6) 100], false⟩
    ∧ RepositoryService.Convert
          (⟨⟨fun c t w => if c = "United Kingdom" ∧ t.sec ≤ (Date 2021 7 2).sec
              then ((Record.zero, none), w)
              else ((⟨Date 2023 4 4, GoFloat64.finite (Float64.ofConst false 345 1000), none⟩,
                none), w)⟩⟩ : RepositoryService Unit)
          "Australia" (Date 2021 7 2) 100 ()
        = some ((⟨35, GoFloat64.finite (Float64.ofConst false 345 1000)⟩, none), ()) :=
  ⟨by decide,
    Convert_no_record.1 Unit
      ⟨⟨fun c t w => if c = "United Kingdom" ∧ t.sec ≤ (Date 2021 7 2).sec
        then ((Record.zero, none), w)
        else ((⟨Date 2023 4 4, GoFloat64.finite (Float64.ofConst false 345 1000), none⟩,
          none), w)⟩⟩
      "United Kingdom" (Date 2021 7 2) 100 () () Record.zero (by decide) (by decide),
    Convert_no_record.2 Unit
      ⟨⟨fun c t w => if c = "United Kingdom" ∧ t.sec ≤ (Date 2021 7 2).sec
        then ((Record.zero, none), w)
        else ((⟨Date 2023 4 4, GoFloat64.finite (Float64.ofConst false 345 1000), none⟩,
          none), w)⟩⟩
      ⟨fun txn w => ((txn, none), w),
        fun _ w => (⟨"sequentialID-1", "A holiday with no exchange rate", Date 2022 1 2, 100⟩,
          w)⟩
      "sequentialID-1" "United Kingdom" () () ()
      ⟨"sequentialID-1", "A holiday with no exchange rate", Date 2022 1 2, 100⟩ Record.zero
      (by decide) rfl (by decide) (by decide) (by decide),
    by decide⟩

/-- Claim C12, amended: for a non-empty record with a finite rate, returned
without error by the repository for this call, the service returns, with no
error, the result whose amount is what `Converter.Convert` gives for the
amount and the record's rate and whose rate is the record's. For a non-empty
record whose rate is a NaN or an infinity the service does not return: the
converter panics. -/
theorem Convert_record :
    (∀ (σ : Type) (s : RepositoryService σ) (country : String) (cutoff : Time) (amount : Int)
        (w w1 : σ) (record : Record) (x : Float64),
        s.repository.FindByCountry country cutoff w = ((record, none), w1) →
        record.isZero = false →
        record.ExchangeRate = GoFloat64.finite x →
        s.Convert country cutoff amount w
          = some ((⟨Converter.Convert amount x, GoFloat64.finite x⟩, none), w1))
    ∧ (∀ (σ : Type) (s : RepositoryService σ) (country : String) (cutoff : Time)
        (amount : Int) (w w1 : σ) (record : Record),
        s.repository.FindByCountry country cutoff w = ((record, none), w1) →
        (record.ExchangeRate = GoFloat64.nan ∨ ∃ neg, record.ExchangeRate = GoFloat64.inf neg) →
        record.isZero = false ∧ s.Convert country cutoff amount w = none) := by
  refine ⟨?_, ?_⟩
  · intro σ s country cutoff amount w w1 record x hf hne hx
    simp only [RepositoryService.Convert, hf, hne, Bool.false_eq_true, if_false, hx]
    rfl
  · intro σ s country cutoff amount w w1 record hf hx
    have hne : record.isZero = false := by
      have hnan : GoFloat64.eq GoFloat64.nan GoFloat64.zero = false := rfl
      have hinf : ∀ neg, GoFloat64.eq (GoFloat64.inf neg) GoFloat64.zero = false :=
        fun _ => rfl
      rcases hx with hx | ⟨neg, hx⟩
      · simp [Record.isZero, hx, hnan]
      · simp [Record.isZero, hx, hinf]
    refine ⟨hne, ?_⟩
    simp only [RepositoryService.Convert, hf, hne, Bool.false_eq_true, if_false]
    rcases hx with hx | ⟨neg, hx⟩ <;> rw [hx] <;> rfl

/-- Claim C12 on the record of the service test, 12345 at the rate 0.745 gives
9197, and on the rate of the integration test, 100 at 0.345 gives 35. -/
theorem Convert_record_witness :
    (⟨Date 2023 4 4, GoFloat64.finite (Float64.ofConst false 745 1000), none⟩ : Record).isZero = false
    ∧ RepositoryService.Convert
        (⟨fixture.cannedRepository
          ⟨Date 2023 4 4, GoFloat64.finite (Float64.ofConst false 745 1000), none⟩ none⟩ :
          RepositoryService Unit) "*country*" (Date 2023 2 10) 12345 ()
      = some ((⟨9197, GoFloat64.finite (Float64.ofConst false 745 1000)⟩, none), ())
    ∧ Converter.Convert 100 (Float64.ofConst false 345 1000) = 35
    ∧ RepositoryService.Convert
        (⟨fixture.cannedRepository ⟨Date 2023 4 4, GoFloat64.inf false, none⟩ none⟩ :
          RepositoryService Unit) "*country*" (Date 2023 2 10) 12345 ()
      = none := by
  have h := Convert_record.1 Unit
    (⟨fixture.cannedRepository
      ⟨Date 2023 4 4, GoFloat64.finite (Float64.ofConst false 745 1000), none⟩ none⟩ :
      RepositoryService Unit) "*country*" (Date 2023 2 10) 12345 () ()
    ⟨Date 2023 4 4, GoFloat64.finite (Float64.ofConst false 745 1000), none⟩
    (Float64.ofConst false 745 1000) rfl (by decide) rfl
  have h2 := (Convert_record.2 Unit
    (⟨fixture.cannedRepository ⟨Date 2023 4 4, GoFloat64.inf false, none⟩ none⟩ :
      RepositoryService Unit) "*country*" (Date 2023 2 10) 12345 () ()
    ⟨Date 2023 4 4, GoFloat64.inf false, none⟩ rfl (Or.inr ⟨false, rfl⟩)).2
  have hv : Converter.Convert 12345 (Float64.ofConst false 745 1000) = 9197 := by decide
  simp only [hv] at h
  exact ⟨by decide, h, by decide, h2⟩

/-- Counterexample to claim C12 as stated: a record dated 2023-04-04 whose
rate is a NaN, which `strconv.ParseFloat` reads from the text `NaN` without
an error, is not the empty record and is returned without error, yet the
service returns neither an amount nor an error for 12345 cents: the
converter, taken statement by statement, panics in `big.NewFloat`. -/
theorem nan_rate_record_not_converted :
    (⟨Date 2023 4 4, GoFloat64.nan, none⟩ : Record).isZero = false
    ∧ (fixture.cannedRepository ⟨Date 2023 4 4, GoFloat64.nan, none⟩ none :
        Repository Unit).FindByCountry "*country*" (Date 2023 2 10) ()
      = ((⟨Date 2023 4 4, GoFloat64.nan, none⟩, none), ())
    ∧ RepositoryService.Convert
        (⟨fixture.cannedRepository ⟨Date 2023 4 4, GoFloat64.nan, none⟩ none⟩ :
          RepositoryService Unit) "*country*" (Date 2023 2 10) 12345 ()
      = none
    ∧ Converter.ConvertSteps 12345 GoFloat64.nan = none
    ∧ big.NewFloatOrPanic GoFloat64.nan = none := by
  decide

end forex

/-! ## Fetch: the assembled response -/

namespace transaction

open business GoTime

/-- Claim C13: for a found (non-zero) entity and a `ConversionResult` that the
exchange-rate service returns without error, `Fetch` calls the service with
the requested country and the entity's amount (and the cutoff), and returns,
without error, the response with the entity's id, description and date, the
entity's amount as `usdAmountInCents`, the result's amount as
`convertedAmountInCents` and the result's rate as `exchangeRate`. -/
theorem Fetch_assembles {σ : Type} (s : RepositoryService σ) (id country : String)
    (w w1 w2 : σ) (e : Entity) (r : forex.ConversionResult)
    (hc : 2 ≤ validation.len country) (hf : s.txnRepository.FindByID id w = (e, w1))
    (he : e ≠ Entity.zero)
    (hcv : s.forExService.Convert country (monthsOlderThan e.TransactionDate 6)
      e.AmountInCents w1 = some ((r, none), w2)) :
    s.Fetch id country w
      = ⟨⟨⟨e.ID, e.Description, some e.TransactionDate,
            ⟨e.AmountInCents, r.Amount, r.ExchangeRate⟩⟩⟩, none, w2,
          [Call.FindByID id,
            Call.Convert country (monthsOlderThan e.TransactionDate 6) e.AmountInCents],
          false⟩ := by
  simp only [RepositoryService.Fetch, fetchValidator_validate_ok country hc, hf, if_neg he, hcv]

/-- Claim C13 on the success case of the service test. -/
theorem Fetch_assembles_witness :
    2 ≤ validation.len "*country*"
    ∧ (⟨"*txn-id*", "*description*", Date 2022 5 12, 543⟩ : Entity) ≠ Entity.zero
    ∧ RepositoryService.Fetch
        (⟨⟨fun txn w => ((txn, none), w),
            fun _ w => (⟨"*txn-id*", "*description*", Date 2022 5 12, 543⟩, w)⟩,
          fixture.cannedForEx
            ⟨1234, forex.GoFloat64.finite (forex.Float64.ofConst false 456 1000)⟩ none⟩ :
          RepositoryService Unit) "*txn-id*" "*country*" ()
      = ⟨⟨⟨"*txn-id*", "*description*", some (Date 2022 5 12),
            ⟨543, 1234, forex.GoFloat64.finite (forex.Float64.ofConst false 456 1000)⟩⟩⟩,
          none, (),
          [Call.FindByID "*txn-id*",
            Call.Convert "*country*" (monthsOlderThan (Date 2022 5 12) 6) 543], false⟩ :=
  ⟨by decide, by decide,
    Fetch_assembles
      (⟨⟨fun txn w => ((txn, none), w),
          fun _ w => (⟨"*txn-id*", "*description*", Date 2022 5 12, 543⟩, w)⟩,
        fixture.cannedForEx
          ⟨1234, forex.GoFloat64.finite (forex.Float64.ofConst false 456 1000)⟩ none⟩ :
        RepositoryService Unit) "*txn-id*" "*country*" () () ()
      ⟨"*txn-id*", "*description*", Date 2022 5 12, 543⟩
      ⟨1234, forex.GoFloat64.finite (forex.Float64.ofConst false 456 1000)⟩
      (by decide) rfl (by decide) rfl⟩

end transaction

/-! ## The transaction store -/

namespace transaction

open business GoTime

theorem Save_ok {γ : Type} (gen : IDGenerator γ) (e : Entity) (r : InMemoryRepository γ)
    (i : String) (g1 : γ) (hg : gen.NewID r.idGenerator = ((i, none), g1)) :
    InMemoryRepository.Save gen e r
      = ((⟨i, e.Description, e.TransactionDate, e.AmountInCents⟩, none),
          ⟨fun k => if k = i then some ⟨i, e.Description, e.TransactionDate, e.AmountInCents⟩
            else r.data k, g1⟩) := by
  simp [InMemoryRepository.Save, hg]

theorem Save_err {γ : Type} (gen : IDGenerator γ) (e : Entity) (r : InMemoryRepository γ)
    (err : GoError) (hg : (gen.NewID r.idGenerator).1.2 = some err) :
    InMemoryRepository.Save gen e r = ((Entity.zero, some err), ⟨r.data, (gen.NewID r.idGenerator).2⟩) := by
  rcases hn : gen.NewID r.idGenerator with ⟨⟨id, err1⟩, g1⟩
  rw [hn] at hg
  simp only at hg
  subst hg
  simp [InMemoryRepository.Save, hn]

/-- Claim C14: when the generator returns the id `i`, `Save(e)` returns `e`
with its ID set to `i` and every other field unchanged, without error, and a
`FindByID(i)` that follows at once returns exactly that entity. -/
theorem Save_then_FindByID {γ : Type} (gen : IDGenerator γ) (e : Entity)
    (r : InMemoryRepository γ) (i : String) (g1 : γ)
    (hg : gen.NewID r.idGenerator = ((i, none), g1)) :
    (InMemoryRepository.Save gen e r).1
      = (⟨i, e.Description, e.TransactionDate, e.AmountInCents⟩, none)
    ∧ InMemoryRepository.FindByID i (InMemoryRepository.Save gen e r).2
      = ⟨i, e.Description, e.TransactionDate, e.AmountInCents⟩ := by
  rw [Save_ok gen e r i g1 hg]
  simp [InMemoryRepository.FindByID]

/-- Claim C14 on the second case of the repository test (the first id of a
fresh sequential generator). -/
theorem Save_then_FindByID_witness :
    id.SequentialGenerator.NewID (NewInMemoryRepository 0 : InMemoryRepository Nat).idGenerator
      = (("sequentialID-1", none), 1)
    ∧ (InMemoryRepository.Save id.SequentialGenerator ⟨"", "*description*", Date 2023 1 23, 5432⟩
        (NewInMemoryRepository 0)).1
      = (⟨"sequentialID-1", "*description*", Date 2023 1 23, 5432⟩, none)
    ∧ InMemoryRepository.FindByID "sequentialID-1"
        (InMemoryRepository.Save id.SequentialGenerator
          ⟨"", "*description*", Date 2023 1 23, 5432⟩ (NewInMemoryRepository 0)).2
      = ⟨"sequentialID-1", "*description*", Date 2023 1 23, 5432⟩ :=
  ⟨by decide,
    Save_then_FindByID id.SequentialGenerator ⟨"", "*description*", Date 2023 1 23, 5432⟩
      (NewInMemoryRepository 0) "sequentialID-1" 1 (by decide)⟩

/-- Claim C15: when the generator fails, `Save` returns that same error and
the zero-value entity, and the stored map is unchanged: every `FindByID`
returns what it returned before. -/
theorem Save_generator_failure {γ : Type} (gen : IDGenerator γ) (e : Entity)
    (r : InMemoryRepository γ) (err : GoError)
    (hg : (gen.NewID r.idGenerator).1.2 = some err) :
    (InMemoryRepository.Save gen e r).1 = (Entity.zero, some err)
    ∧ (InMemoryRepository.Save gen e r).2.data = r.data
    ∧ ∀ id, InMemoryRepository.FindByID id (InMemoryRepository.Save gen e r).2
        = InMemoryRepository.FindByID id r := by
  rw [Save_err gen e r err hg]
  exact ⟨rfl, rfl, fun _ => rfl⟩

/-- Claim C15 on the failure case of the repository test. -/
theorem Save_generator_failure_witness :
    (fixture.alwaysErrorIDGenerator.NewID
        (NewInMemoryRepository () : InMemoryRepository Unit).idGenerator).1.2
      = some (GoError.other "problem")
    ∧ (InMemoryRepository.Save fixture.alwaysErrorIDGenerator
        ⟨"", "*description*", Date 2023 1 23, 5432⟩ (NewInMemoryRepository ())).1
      = (Entity.zero, some (GoError.other "problem"))
    ∧ (InMemoryRepository.Save fixture.alwaysErrorIDGenerator
        ⟨"", "*description*", Date 2023 1 23, 5432⟩ (NewInMemoryRepository ())).2.data
      = (NewInMemoryRepository () : InMemoryRepository Unit).data
    ∧ ∀ id, InMemoryRepository.FindByID id
          (InMemoryRepository.Save fixture.alwaysErrorIDGenerator
            ⟨"", "*description*", Date 2023 1 23, 5432⟩ (NewInMemoryRepository ())).2
        = InMemoryRepository.FindByID id (NewInMemoryRepository () : InMemoryRepository Unit) :=
  ⟨rfl,
    Save_generator_failure fixture.alwaysErrorIDGenerator
      ⟨"", "*description*", Date 2023 1 23, 5432⟩ (NewInMemoryRepository ())
      (GoError.other "problem") rfl⟩

/-- A `Save` leaves every entry but that of the generated id as it was. -/
theorem Save_other_entries {γ : Type} (gen : IDGenerator γ) (e : Entity)
    (r : InMemoryRepository γ) (k : String)
    (hk : ∀ i, (gen.NewID r.idGenerator).1 = (i, none) → k ≠ i) :
    InMemoryRepository.FindByID k (InMemoryRepository.Save gen e r).2
      = InMemoryRepository.FindByID k r := by
  rcases hn : gen.NewID r.idGenerator with ⟨⟨i, err⟩, g1⟩
  cases err with
  | none =>
    have hki : k ≠ i := hk i (by rw [hn])
    rw [Save_ok gen e r i g1 hn]
    simp [InMemoryRepository.FindByID, hki]
  | some err =>
    rw [Save_err gen e r err (by rw [hn])]
    rfl

theorem run_keeps {γ : Type} (gen : IDGenerator γ) (calls : List RepositoryCall)
    (r : InMemoryRepository γ) (k : String)
    (hk : k ∉ InMemoryRepository.generated gen calls r) :
    InMemoryRepository.FindByID k (InMemoryRepository.run gen calls r)
      = InMemoryRepository.FindByID k r := by
  induction calls generalizing r with
  | nil => rfl
  | cons c calls ih =>
    cases c with
    | FindByID id =>
      simp only [InMemoryRepository.generated] at hk
      simp only [InMemoryRepository.run]
      exact ih r hk
    | Save txn =>
      simp only [InMemoryRepository.run]
      simp only [InMemoryRepository.generated] at hk
      rcases hn : gen.NewID r.idGenerator with ⟨⟨i, err⟩, g1⟩
      rw [hn] at hk
      cases err with
      | none =>
        simp only [List.mem_cons, not_or] at hk
        rw [ih _ hk.2]
        exact Save_other_entries gen txn r k (fun j hj => by
          rw [hn] at hj
          simp only [Prod.mk.injEq, and_true] at hj
          rw [← hj]; exact hk.1)
      | some err =>
        simp only at hk
        rw [ih _ hk]
        exact Save_other_entries gen txn r k (fun j hj => by
          rw [hn] at hj
          simp at hj)

/-- Claim C16: an entry of the store never changes. After every sequence of
`Save` and `FindByID` calls during which the generator does not return the id
`k`, `FindByID(k)` returns the entity it returned before the sequence; and a
single `Save` changes at most the entry of the id the generator gave it. -/
theorem stored_entity_never_changes {γ : Type} (gen : IDGenerator γ)
    (calls : List RepositoryCall) (r : InMemoryRepository γ) (k : String)
    (hk : k ∉ InMemoryRepository.generated gen calls r) :
    InMemoryRepository.FindByID k (InMemoryRepository.run gen calls r)
      = InMemoryRepository.FindByID k r
    ∧ ∀ (e : Entity) (r1 : InMemoryRepository γ) (j : String),
        (∀ i, (gen.NewID r1.idGenerator).1 = (i, none) → j ≠ i) →
        InMemoryRepository.FindByID j (InMemoryRepository.Save gen e r1).2
          = InMemoryRepository.FindByID j r1 :=
  ⟨run_keeps gen calls r k hk, fun e r1 j hj => Save_other_entries gen e r1 j hj⟩

/-- Claim C16 on a store that holds one transaction: two more saves and a
lookup later, the first transaction is found as it was saved. -/
theorem stored_entity_never_changes_witness :
    "sequentialID-1" ∉ InMemoryRepository.generated id.SequentialGenerator
        [RepositoryCall.Save ⟨"", "second", Date 2023 1 24, 1⟩,
          RepositoryCall.FindByID "sequentialID-1",
          RepositoryCall.Save ⟨"", "third", Date 2023 1 25, -7⟩]
        (InMemoryRepository.Save id.SequentialGenerator
          ⟨"", "*description*", Date 2023 1 23, 5432⟩ (NewInMemoryRepository 0)).2
    ∧ InMemoryRepository.FindByID "sequentialID-1"
        (InMemoryRepository.run id.SequentialGenerator
          [RepositoryCall.Save ⟨"", "second", Date 2023 1 24, 1⟩,
            RepositoryCall.FindByID "sequentialID-1",
            RepositoryCall.Save ⟨"", "third", Date 2023 1 25, -7⟩]
          (InMemoryRepository.Save id.SequentialGenerator
            ⟨"", "*description*", Date 2023 1 23, 5432⟩ (NewInMemoryRepository 0)).2)
      = ⟨"sequentialID-1", "*description*", Date 2023 1 23, 5432⟩ :=
  ⟨by decide,
    ((stored_entity_never_changes id.SequentialGenerator
      [RepositoryCall.Save ⟨"", "second", Date 2023 1 24, 1⟩,
        RepositoryCall.FindByID "sequentialID-1",
        RepositoryCall.Save ⟨"", "third", Date 2023 1 25, -7⟩]
      (InMemoryRepository.Save id.SequentialGenerator
        ⟨"", "*description*", Date 2023 1 23, 5432⟩ (NewInMemoryRepository 0)).2
      "sequentialID-1" (by decide)).1).trans (by decide)⟩

end transaction

/-! ## Sequential ids -/

namespace id

theorem digitChar_toNat (k : Nat) (hk : k < 10) : (Nat.digitChar k).toNat = 48 + k := by
  interval_cases k <;> rfl

/-- The digits written by `Nat.toDigitsCore` read back as the number. -/
theorem toDigitsCore_decode (fuel n : Nat) (ds : List Char) (h : n < fuel) :
    ∃ pre, Nat.toDigitsCore 10 fuel n ds = pre ++ ds
      ∧ pre.foldl (fun acc c => acc * 10 + (c.toNat - 48)) 0 = n := by
  induction fuel generalizing n ds with
  | zero => omega
  | succ f ih =>
    have hd : (Nat.digitChar (n % 10)).toNat - 48 = n % 10 := by
      rw [digitChar_toNat _ (Nat.mod_lt _ (by norm_num))]; omega
    simp only [Nat.toDigitsCore]
    by_cases h0 : n / 10 = 0
    · rw [if_pos h0]
      refine ⟨[Nat.digitChar (n % 10)], rfl, ?_⟩
      simp only [List.foldl, hd]
      omega
    · rw [if_neg h0]
      obtain ⟨pre, hpre, hval⟩ := ih (n / 10) (Nat.digitChar (n % 10) :: ds) (by omega)
      refine ⟨pre ++ [Nat.digitChar (n % 10)], by rw [hpre]; simp, ?_⟩
      rw [List.foldl_append, hval]
      simp only [List.foldl, hd]
      omega

/-- The decimal text of a number determines the number. -/
theorem Nat_repr_injective (a b : Nat) (h : Nat.repr a = Nat.repr b) : a = b := by
  obtain ⟨pa, ha, va⟩ := toDigitsCore_decode (a + 1) a [] (by omega)
  obtain ⟨pb, hb, vb⟩ := toDigitsCore_decode (b + 1) b [] (by omega)
  simp only [Nat.repr, Nat.toDigits] at h
  rw [ha, hb] at h
  simp only [List.append_nil] at h
  have hp : pa = pb := by
    have := congrArg String.data h
    simpa [List.asString] using this
  rw [← va, ← vb, hp]

theorem sequentialID_injective (a b : Nat)
    (h : "sequentialID-" ++ Nat.repr a = "sequentialID-" ++ Nat.repr b) : a = b := by
  apply Nat_repr_injective
  have h1 := congrArg String.data h
  simp only [String.data_append] at h1
  have h2 := List.append_cancel_left h1
  exact String.ext h2

theorem sequentialID_ne_empty (a : Nat) : "sequentialID-" ++ Nat.repr a ≠ "" := by
  intro h
  have h1 := congrArg String.length h
  simp only [String.length_append] at h1
  have h2 : "sequentialID-".length = 13 := by decide
  have h3 : "".length = 0 := rfl
  omega

end id

namespace transaction

open business GoTime

theorem seq_NewID (r : InMemoryRepository Nat) :
    id.SequentialGenerator.NewID r.idGenerator
      = (("sequentialID-" ++ Nat.repr (r.idGenerator + 1), none), r.idGenerator + 1) := rfl

/-- Saving more entities leaves alone every id that the sequential generator
will not give out any more. -/
theorem saveAll_seq_keeps (es : List Entity) (r : InMemoryRepository Nat) (j : String)
    (hj : ∀ m, r.idGenerator < m → j ≠ "sequentialID-" ++ Nat.repr m) :
    InMemoryRepository.FindByID j (InMemoryRepository.saveAll id.SequentialGenerator es r).2
      = InMemoryRepository.FindByID j r := by
  induction es generalizing r with
  | nil => rfl
  | cons e es ih =>
    simp only [InMemoryRepository.saveAll]
    rw [Save_ok id.SequentialGenerator e r _ _ (seq_NewID r)]
    rw [ih _ (fun m hm => hj m (by simp only at hm; omega))]
    have hne := hj (r.idGenerator + 1) (by omega)
    simp [InMemoryRepository.FindByID, hne]

/-- The entities saved one after another with the sequential generator: the
entity at position `k` (from 0) gets the id of number `previousID + k + 1`
and is found under it at the end. -/
theorem saveAll_seq (es : List Entity) (r : InMemoryRepository Nat) (k : Nat) (e : Entity)
    (hk : es[k]? = some e) :
    (InMemoryRepository.saveAll id.SequentialGenerator es r).1[k]?
      = some (⟨"sequentialID-" ++ Nat.repr (r.idGenerator + k + 1), e.Description,
          e.TransactionDate, e.AmountInCents⟩, none)
    ∧ InMemoryRepository.FindByID ("sequentialID-" ++ Nat.repr (r.idGenerator + k + 1))
        (InMemoryRepository.saveAll id.SequentialGenerator es r).2
      = ⟨"sequentialID-" ++ Nat.repr (r.idGenerator + k + 1), e.Description,
          e.TransactionDate, e.AmountInCents⟩ := by
  induction es generalizing r k with
  | nil => simp at hk
  | cons e0 es ih =>
    simp only [InMemoryRepository.saveAll]
    rw [Save_ok id.SequentialGenerator e0 r _ _ (seq_NewID r)]
    cases k with
    | zero =>
      simp only [List.getElem?_cons_zero, Option.some.injEq] at hk
      subst hk
      refine ⟨by simp, ?_⟩
      rw [saveAll_seq_keeps es _ _ (fun m hm => by
        intro h
        have := id.sequentialID_injective _ _ h
        simp only at hm
        omega)]
      simp [InMemoryRepository.FindByID]
    | succ k =>
      simp only [List.getElem?_cons_succ] at hk
      have h := ih (⟨fun j => if j = "sequentialID-" ++ Nat.repr (r.idGenerator + 1) then
          some ⟨"sequentialID-" ++ Nat.repr (r.idGenerator + 1), e0.Description,
            e0.TransactionDate, e0.AmountInCents⟩
          else r.data j, r.idGenerator + 1⟩ : InMemoryRepository Nat) k hk
      simp only at h
      have e1 : r.idGenerator + 1 + k + 1 = r.idGenerator + (k + 1) + 1 := by omega
      rw [e1] at h
      exact ⟨by simpa using h.1, h.2⟩

/-- Claim C17: the entities saved one after another into a fresh repository
with the `SequentialGenerator`. The `k`-th `Save` (here the entity at position
`k`, from 0, so the save of number `k + 1`) returns the entity with the id
`sequentialID-(k+1)`, which is not empty; the ids of different saves are
different; and afterwards `FindByID` of that id returns the entity saved
under it. -/
theorem saveAll_sequential (es : List Entity) (k : Nat) (e : Entity) (hk : es[k]? = some e) :
    (InMemoryRepository.saveAll id.SequentialGenerator es (NewInMemoryRepository 0)).1[k]?
      = some (⟨"sequentialID-" ++ Nat.repr (k + 1), e.Description, e.TransactionDate,
          e.AmountInCents⟩, none)
    ∧ "sequentialID-" ++ Nat.repr (k + 1) ≠ ""
    ∧ (∀ j, j ≠ k → "sequentialID-" ++ Nat.repr (j + 1) ≠ "sequentialID-" ++ Nat.repr (k + 1))
    ∧ InMemoryRepository.FindByID ("sequentialID-" ++ Nat.repr (k + 1))
        (InMemoryRepository.saveAll id.SequentialGenerator es (NewInMemoryRepository 0)).2
      = ⟨"sequentialID-" ++ Nat.repr (k + 1), e.Description, e.TransactionDate,
          e.AmountInCents⟩ := by
  have h := saveAll_seq es (NewInMemoryRepository 0) k e hk
  have e0 : (NewInMemoryRepository 0 : InMemoryRepository Nat).idGenerator + k + 1 = k + 1 := by
    simp [NewInMemoryRepository]
  rw [e0] at h
  refine ⟨h.1, id.sequentialID_ne_empty _, ?_, h.2⟩
  intro j hj h2
  have := id.sequentialID_injective _ _ h2
  omega

/-- Claim C17 on the two entities of the repository test: the second save
returns `sequentialID-2`. -/
theorem saveAll_sequential_witness :
    ([Entity.zero, ⟨"", "*description*", Date 2023 1 23, 5432⟩] : List Entity)[1]?
      = some ⟨"", "*description*", Date 2023 1 23, 5432⟩
    ∧ (InMemoryRepository.saveAll id.SequentialGenerator
        [Entity.zero, ⟨"", "*description*", Date 2023 1 23, 5432⟩]
        (NewInMemoryRepository 0)).1[1]?
      = some (⟨"sequentialID-2", "*description*", Date 2023 1 23, 5432⟩, none)
    ∧ InMemoryRepository.FindByID "sequentialID-2"
        (InMemoryRepository.saveAll id.SequentialGenerator
          [Entity.zero, ⟨"", "*description*", Date 2023 1 23, 5432⟩]
          (NewInMemoryRepository 0)).2
      = ⟨"sequentialID-2", "*description*", Date 2023 1 23, 5432⟩ :=
  have h := saveAll_sequential [Entity.zero, ⟨"", "*description*", Date 2023 1 23, 5432⟩] 1
    ⟨"", "*description*", Date 2023 1 23, 5432⟩ rfl
  ⟨rfl, h.1, h.2.2.2⟩

end transaction

/-! ## What Store passes to the transaction store -/

namespace transaction

open business GoTime

/-- Claim C18: every entity that `Store` passes to `Repository.Save`
satisfies the rules of Store validation: its description has a length between
1 and 50, its amount is not zero, its date is the date parsed from the
request and is not after the clock of the validation; so it is not the
zero-value entity, and neither is the entity persisted from it, whatever id
it is given. -/
theorem Store_saves_valid {σ : Type} (s : RepositoryService σ) (now : Time)
    (txn : StoreRequest) (w : σ) (e : Entity)
    (h : Call.Save e ∈ (s.Store now txn w).calls) :
    1 ≤ validation.len e.Description ∧ validation.len e.Description ≤ 50
    ∧ txn.Description = some e.Description
    ∧ e.AmountInCents ≠ 0 ∧ txn.AmountInCents = some e.AmountInCents
    ∧ (∃ t, txn.TransactionDate = some t ∧ Parse t = some e.TransactionDate)
    ∧ e.TransactionDate.After now = false
    ∧ e ≠ Entity.zero
    ∧ ∀ i, (⟨i, e.Description, e.TransactionDate, e.AmountInCents⟩ : Entity) ≠ Entity.zero := by
  cases hv : storeValidator.validate now txn with
  | some err =>
    simp [RepositoryService.Store, hv] at h
  | none =>
    obtain ⟨d, t, a, p, rfl, hd1, hd2, hp, hnow, ha⟩ := (validate_eq_none_iff now txn).mp hv
    have hcalls : (s.Store now ⟨some d, some t, some a⟩ w).calls = [Call.Save ⟨"", d, p, a⟩] := by
      simp only [RepositoryService.Store, hv, mapToEntity_valid d t a p hp]
      split <;> rfl
    rw [hcalls] at h
    simp only [List.mem_singleton, Call.Save.injEq] at h
    subst h
    have hne : d ≠ "" := by
      intro hd
      rw [hd] at hd1
      exact absurd hd1 (by decide)
    refine ⟨hd1, hd2, rfl, ha, rfl, ⟨t, rfl, hp⟩, hnow, ?_, ?_⟩
    · intro hz
      exact hne (congrArg Entity.Description hz)
    · intro i hz
      exact hne (congrArg Entity.Description hz)

/-- Claim C18 on the request of the integration test. -/
theorem Store_saves_valid_witness :
    Call.Save ⟨"", "A holiday somewhere nice", Date 2023 5 1, 100⟩
        ∈ ((fixture.service forex.ConversionResult.zero none).Store (Date 2023 10 1)
          ⟨some "A holiday somewhere nice", some "2023-05-01", some 100⟩
          (NewInMemoryRepository 0)).calls
    ∧ 1 ≤ validation.len "A holiday somewhere nice"
    ∧ validation.len "A holiday somewhere nice" ≤ 50
    ∧ (⟨"", "A holiday somewhere nice", Date 2023 5 1, 100⟩ : Entity) ≠ Entity.zero :=
  have h := Store_saves_valid (fixture.service forex.ConversionResult.zero none) (Date 2023 10 1)
    ⟨some "A holiday somewhere nice", some "2023-05-01", some 100⟩ (NewInMemoryRepository 0)
    ⟨"", "A holiday somewhere nice", Date 2023 5 1, 100⟩ (by decide)
  ⟨by decide, h.1, h.2.1, h.2.2.2.2.2.2.2.1⟩

end transaction

/-! ## The rate 1 -/

namespace forex

theorem roundHalfAwayFromZero_intCast (a : ℤ) : roundHalfAwayFromZero (a : ℚ) = a := by
  simp only [roundHalfAwayFromZero]
  split
  · rw [Int.floor_eq_iff]
    constructor <;> linarith
  · have h : ⌊-(a : ℚ) + 1 / 2⌋ = -a := by
      rw [Int.floor_eq_iff]
      push_cast
      constructor <;> linarith
    rw [h, neg_neg]

/-- Below `2^52` in magnitude the rate 1 gives the amount back. -/
theorem Convert_one_small (a : ℤ) (h : |a| < 2 ^ 52) :
    Converter.Convert a ⟨false, 1, 0⟩ = a := by
  have hn : a.natAbs < 2 ^ 53 := by
    have := Int.natCast_natAbs a
    omega
  have hx : (big.NewFloat (Float64.ofInt a)).Mul (big.NewFloat ⟨false, 1, 0⟩)
      = big.NewFloat (Float64.ofInt a) := by
    simp only [Float64.ofInt, big.round_small _ _ hn, big.NewFloat, big.Float.Mul, mul_one,
      add_zero, Bool.bne_false]
    by_cases h0 : a.natAbs = 0
    · simp [h0]
    · have h1 : ¬ (a.natAbs = 0 ∨ 1 = 0) := by simp [h0]
      rw [if_neg h1]
  have ha53 : |a| ≤ 2 ^ 53 := by omega
  have hr : ((big.NewFloat (Float64.ofInt a)).Mul (big.NewFloat ⟨false, 1, 0⟩)).toRat
      = (a : ℚ) := by
    rw [hx, ofInt_toRat a ha53]
  have hq : |(a : ℚ)| < 2 ^ 52 := by
    have : ((|a| : ℤ) : ℚ) < ((2 ^ 52 : ℤ) : ℚ) := Int.cast_lt.mpr h
    push_cast at this
    exact this
  have hq2 : |(a : ℚ)| ≠ 1 / 2 - 1 / 2 ^ 54 := by
    intro hc
    have hc' : ((|a| : ℤ) : ℚ) = 1 / 2 - 1 / 2 ^ 54 := by
      push_cast
      exact hc
    rcases Int.lt_or_le (|a|) 1 with h1 | h1
    · have h0 : |a| = 0 := by
        have := abs_nonneg a
        omega
      rw [h0] at hc'
      norm_num at hc'
    · have : (1 : ℚ) ≤ ((|a| : ℤ) : ℚ) := by exact_mod_cast h1
      rw [hc'] at this
      norm_num at this
  have hround := roundToNearestBigInt_eq _ (Mul_mant_le _ _) (by rw [hr]; exact hq)
    (by rw [hr]; exact hq2)
  have hb := roundHalfAwayFromZero_bound _ hq
  simp only [Converter.Convert]
  rw [hround, hr, Int64_small _ hb.1 hb.2, roundHalfAwayFromZero_intCast]

set_option maxRecDepth 8000 in
/-- Claim C19 fails on the code: the rate 1 is no identity above `2^52`. The
amount `2^52 + 1` comes back as `2^52 + 2` (the sum with the half is rounded
to 53 bits, to the even mantissa), `2^53 + 1` comes back as `2^53` (the
conversion `float64(amount)` already rounds), and the largest `int64` comes
back as the smallest (its `float64` is `2^63`, which `Int64` wraps). -/
theorem Convert_rate_one_not_identity :
    Float64.ofConst false 1 1 = ⟨false, 2 ^ 52, -52⟩
    ∧ Converter.Convert 4503599627370497 (Float64.ofConst false 1 1) = 4503599627370498
    ∧ Converter.Convert 9007199254740993 (Float64.ofConst false 1 1) = 9007199254740992
    ∧ Converter.Convert 9223372036854775807 (Float64.ofConst false 1 1)
      = -9223372036854775808
    ∧ Converter.Convert (-4503599627370497) (Float64.ofConst false 1 1)
      = -4503599627370498 := by
  decide

end forex

/-! ## The length of a description -/

namespace validation

theorem utf8Size_ascii (c : Char) (h : c.toNat < 128) : c.utf8Size = 1 := by
  have h1 : c.val ≤ 127 := by
    rw [UInt32.le_def]
    simp only [Char.toNat] at h
    show c.val.toNat ≤ 127
    omega
  simp [Char.utf8Size, h1]

theorem utf8ByteSize_go_ge (cs : List Char) : cs.length ≤ String.utf8ByteSize.go cs := by
  induction cs with
  | nil => simp [String.utf8ByteSize.go]
  | cons c cs ih =>
    have := Char.utf8Size_pos c
    simp only [String.utf8ByteSize.go, List.length_cons]
    omega

theorem utf8ByteSize_go_ascii (cs : List Char) (h : ∀ c ∈ cs, c.toNat < 128) :
    String.utf8ByteSize.go cs = cs.length := by
  induction cs with
  | nil => simp [String.utf8ByteSize.go]
  | cons c cs ih =>
    have h1 := utf8Size_ascii c (h c (List.mem_cons_self _ _))
    have h2 := ih (fun d hd => h d (List.mem_cons_of_mem _ hd))
    simp only [String.utf8ByteSize.go, List.length_cons, h1, h2]

theorem length_le_utf8ByteSize (s : String) : s.length ≤ s.utf8ByteSize := by
  cases s with
  | mk cs => exact utf8ByteSize_go_ge cs

theorem utf8ByteSize_ascii (s : String) (h : ∀ c ∈ s.data, c.toNat < 128) :
    s.utf8ByteSize = s.length := by
  cases s with
  | mk cs => exact utf8ByteSize_go_ascii cs h

end validation

namespace transaction

open business GoTime

/-- Claim C20, as amended: the length of a description is counted in bytes
of its UTF-8 encoding (`String.utf8ByteSize`, the sum of the sizes of its
characters). For a request that is otherwise valid, the description is
accepted exactly when it has 1 to 50 bytes, which is 1 to 50 characters when
the text is ASCII; a description of more than 50 bytes, whatever the number
of its characters, is rejected with `(description, MAX_LENGTH)` alone, and so
is every description of more than 50 characters, since it has at least as
many bytes; a description of no byte is the empty one and is rejected with
`(description, MIN_LENGTH)` alone. -/
theorem description_length_in_bytes (now : Time) (d t : String) (a : Int) (p : Time)
    (hp : Parse t = some p) (hnow : p.After now = false) (ha : a ≠ 0) :
    (storeValidator.validate now ⟨some d, some t, some a⟩ = none
      ↔ 1 ≤ d.utf8ByteSize ∧ d.utf8ByteSize ≤ 50)
    ∧ (50 < d.utf8ByteSize →
      storeValidator.validate now ⟨some d, some t, some a⟩
        = some (GoError.business ⟨[⟨"description", "MAX_LENGTH"⟩], "VALIDATION_ERROR"⟩))
    ∧ (d.utf8ByteSize < 1 →
      d = "" ∧ storeValidator.validate now ⟨some d, some t, some a⟩
        = some (GoError.business ⟨[⟨"description", "MIN_LENGTH"⟩], "VALIDATION_ERROR"⟩))
    ∧ d.utf8ByteSize = (d.data.map Char.utf8Size).sum
    ∧ ((∀ c ∈ d.data, c.toNat < 128) → d.utf8ByteSize = d.length)
    ∧ d.length ≤ d.utf8ByteSize
    ∧ (50 < d.length →
      storeValidator.validate now ⟨some d, some t, some a⟩
        = some (GoError.business ⟨[⟨"description", "MAX_LENGTH"⟩], "VALIDATION_ERROR"⟩))
    ∧ storeValidator.validate now ⟨some "", some t, some a⟩
        = some (GoError.business ⟨[⟨"description", "MIN_LENGTH"⟩], "VALIDATION_ERROR"⟩) := by
  have hmax : 50 < d.utf8ByteSize →
      storeValidator.validate now ⟨some d, some t, some a⟩
        = some (GoError.business ⟨[⟨"description", "MAX_LENGTH"⟩], "VALIDATION_ERROR"⟩) := by
    intro h50
    have e1 : ¬ validation.len d < 1 := by simp only [validation.len]; omega
    have e2 : validation.len d > 50 := by simp only [validation.len]; omega
    rw [validate_present, correctness_eq, hp]
    simp [e1, e2, hnow, ha, checkForErrors, message]
  have hmin : storeValidator.validate now ⟨some "", some t, some a⟩
        = some (GoError.business ⟨[⟨"description", "MIN_LENGTH"⟩], "VALIDATION_ERROR"⟩) := by
    have e1 : validation.len "" < 1 := by decide
    have e2 : ¬ validation.len "" > 50 := by decide
    rw [validate_present, correctness_eq, hp]
    simp [e1, e2, hnow, ha, checkForErrors, message]
  have hsum : ∀ cs : List Char, String.utf8ByteSize.go cs = (cs.map Char.utf8Size).sum := by
    intro cs
    induction cs with
    | nil => rfl
    | cons c cs ih =>
      simp only [String.utf8ByteSize.go, ih, List.map_cons, List.sum_cons]
      omega
  refine ⟨?_, hmax, ?_, ?_, ?_, ?_, ?_, hmin⟩
  · constructor
    · intro hv
      obtain ⟨d1, t1, a1, p1, heq, h1, h2, _, _, _⟩ := (validate_eq_none_iff now _).mp hv
      have hd : d1 = d := by
        have := congrArg StoreRequest.Description heq
        simp only [Option.some.injEq] at this
        exact this.symm
      subst hd
      exact ⟨h1, h2⟩
    · rintro ⟨h1, h2⟩
      exact (validate_eq_none_iff now _).mpr ⟨d, t, a, p, rfl, h1, h2, hp, hnow, ha⟩
  · intro h0
    have hlen := validation.length_le_utf8ByteSize d
    have hd : d = "" := by
      have h00 : d.length = 0 := by omega
      cases d with
      | mk cs =>
        have hcs : cs = [] := List.length_eq_zero.mp h00
        rw [hcs]
    subst hd
    exact ⟨rfl, hmin⟩
  · cases d with
    | mk cs => exact hsum cs
  · intro hascii
    exact validation.utf8ByteSize_ascii d hascii
  · exact validation.length_le_utf8ByteSize d
  · intro h50
    have hlen := validation.length_le_utf8ByteSize d
    exact hmax (by omega)

/-- Claim C20, as amended, on the descriptions of the validation test, 50
ASCII characters are accepted and 51 are rejected, and on text that is not
ASCII: 16 euro signs (48 bytes) are accepted, 17 (51 bytes) are rejected. -/
theorem description_length_in_bytes_witness :
    Parse "2023-01-25" = some (Date 2023 1 25)
    ∧ storeValidator.validate (Date 2023 10 1)
        ⟨some "12345678901234567890123456789012345678901234567890", some "2023-01-25", some 1⟩
      = none
    ∧ storeValidator.validate (Date 2023 10 1)
        ⟨some "123456789012345678901234567890123456789012345678901", some "2023-01-25",
          some 1⟩
      = some (GoError.business ⟨[⟨"description", "MAX_LENGTH"⟩], "VALIDATION_ERROR"⟩)
    ∧ storeValidator.validate (Date 2023 10 1)
        ⟨some "€€€€€€€€€€€€€€€€", some "2023-01-25", some 1⟩ = none
    ∧ "€€€€€€€€€€€€€€€€€".length = 17
    ∧ storeValidator.validate (Date 2023 10 1)
        ⟨some "€€€€€€€€€€€€€€€€€", some "2023-01-25", some 1⟩
      = some (GoError.business ⟨[⟨"description", "MAX_LENGTH"⟩], "VALIDATION_ERROR"⟩) :=
  ⟨by decide,
    (description_length_in_bytes (Date 2023 10 1)
      "12345678901234567890123456789012345678901234567890" "2023-01-25" 1 (Date 2023 1 25)
      (by decide) (by decide) (by decide)).1.mpr (by decide),
    (description_length_in_bytes (Date 2023 10 1)
      "123456789012345678901234567890123456789012345678901" "2023-01-25" 1 (Date 2023 1 25)
      (by decide) (by decide) (by decide)).2.1 (by decide),
    (description_length_in_bytes (Date 2023 10 1)
      "€€€€€€€€€€€€€€€€" "2023-01-25" 1 (Date 2023 1 25)
      (by decide) (by decide) (by decide)).1.mpr (by decide),
    by decide,
    (description_length_in_bytes (Date 2023 10 1)
      "€€€€€€€€€€€€€€€€€" "2023-01-25" 1 (Date 2023 1 25)
      (by decide) (by decide) (by decide)).2.1 (by decide)⟩

/-- Claim C20 as stated fails on text that is not ASCII: a description of 26
characters `é`, each of two bytes, is 52 bytes long and is rejected with
`(description, MAX_LENGTH)`, in a request that is otherwise valid. -/
theorem description_of_26_characters_rejected :
    "éééééééééééééééééééééééééé".length = 26
    ∧ validation.len "éééééééééééééééééééééééééé" = 52
    ∧ storeValidator.validate (Date 2023 10 1)
        ⟨some "*description", some "2023-01-25", some 1⟩ = none
    ∧ storeValidator.validate (Date 2023 10 1)
        ⟨some "éééééééééééééééééééééééééé", some "2023-01-25", some 1⟩
      = some (GoError.business ⟨[⟨"description", "MAX_LENGTH"⟩], "VALIDATION_ERROR"⟩) := by
  decide

end transaction

/-! ## Fetch: the country is validated first -/

namespace transaction

open business GoTime

/-- What `fetchValidator.validate` returns for a country shorter than 2. -/
theorem fetchValidator_validate_short (country : String) (h : validation.len country < 2) :
    fetchValidator.validate country
      = some (GoError.business ⟨[⟨"country", "MIN_LENGTH"⟩], "VALIDATION_ERROR"⟩) := by
  simp [fetchValidator.validate, appendIfErr, validation.IsRequiredString,
    validation.IsMinLength, NewFieldError, checkForErrors, countryFieldName,
    countryMinLength, validation.MinLength, message, h]

/-- Claim C30: for every transaction id, every state of the collaborators
(the transaction stored or not) and every country of length less than 2,
`Fetch` returns the VALIDATION_ERROR with the one violation
`(country, MIN_LENGTH)` and the empty `FetchResponse`, makes no call to the
transaction store or to the exchange-rate service, and leaves their state as
it was. -/
theorem Fetch_country_validation_first {σ : Type} (s : RepositoryService σ)
    (id country : String) (w : σ) (h : validation.len country < 2) :
    s.Fetch id country w
      = ⟨FetchResponse.zero,
          some (GoError.business ⟨[⟨"country", "MIN_LENGTH"⟩], "VALIDATION_ERROR"⟩),
          w, [], false⟩ := by
  simp [RepositoryService.Fetch, fetchValidator_validate_short country h]

/-- Claim C30 on the service of the integration tests, for the country `U`
and the id of a transaction that is stored. -/
theorem Fetch_country_validation_first_witness :
    validation.len "U" < 2
    ∧ (fixture.service forex.ConversionResult.zero none).Fetch "sequentialID-1" "U"
          ((fixture.service forex.ConversionResult.zero none).Store (Date 2023 10 1)
            ⟨some "A holiday", some "2023-01-02", some 100⟩ (NewInMemoryRepository 0)).state
        = ⟨FetchResponse.zero,
            some (GoError.business ⟨[⟨"country", "MIN_LENGTH"⟩], "VALIDATION_ERROR"⟩),
            ((fixture.service forex.ConversionResult.zero none).Store (Date 2023 10 1)
              ⟨some "A holiday", some "2023-01-02", some 100⟩ (NewInMemoryRepository 0)).state,
            [], false⟩ :=
  ⟨by decide, Fetch_country_validation_first _ _ _ _ (by decide)⟩

end transaction

/-! ## Failures of the collaborators -/

namespace transaction

open business GoTime

/-- Claim C26: a failure of a collaborator is returned as it is, with a
zero-value result. `Store` returns the error of `Repository.Save` with the
empty `StoreResponse`; `Fetch` returns the error of the exchange-rate service
with the empty `FetchResponse`; `forex.RepositoryService.Convert` returns the
error of its repository with the zero-value `ConversionResult`. -/
theorem collaborator_failure_verbatim :
    (∀ (σ : Type) (s : RepositoryService σ) (now : Time) (txn : StoreRequest) (w w1 : σ)
        (entity returned : Entity) (err : GoError),
        storeValidator.validate now txn = none →
        mapToEntity txn = some (entity, none) →
        s.txnRepository.Save entity w = ((returned, some err), w1) →
        s.Store now txn w = ⟨StoreResponse.zero, some err, w1, [Call.Save entity], false⟩)
    ∧ (∀ (σ : Type) (s : RepositoryService σ) (id country : String) (w w1 w2 : σ)
        (entity : Entity) (result : forex.ConversionResult) (err : GoError),
        2 ≤ validation.len country →
        s.txnRepository.FindByID id w = (entity, w1) →
        entity ≠ Entity.zero →
        s.forExService.Convert country (monthsOlderThan entity.TransactionDate 6)
            entity.AmountInCents w1 = some ((result, some err), w2) →
        s.Fetch id country w
          = ⟨FetchResponse.zero, some err, w2,
              [Call.FindByID id,
                Call.Convert country (monthsOlderThan entity.TransactionDate 6)
                  entity.AmountInCents], false⟩)
    ∧ (∀ (σ : Type) (s : forex.RepositoryService σ) (country : String) (cutoff : Time)
        (amount : Int) (w w1 : σ) (record : forex.Record) (err : GoError),
        s.repository.FindByCountry country cutoff w = ((record, some err), w1) →
        s.Convert country cutoff amount w = some ((forex.ConversionResult.zero, some err), w1)) := by
  refine ⟨?_, ?_, ?_⟩
  · intro σ s now txn w w1 entity returned err hv hm hs
    simp [RepositoryService.Store, hv, hm, hs]
  · intro σ s id country w w1 w2 entity result err hc hf hne hx
    simp only [RepositoryService.Fetch, fetchValidator_validate_ok country hc, hf, if_neg hne, hx]
  · intro σ s country cutoff amount w w1 record err hf
    simp [forex.RepositoryService.Convert, hf]

/-- Claim C26 on the test doubles: a store whose id generator fails with
`problem`, an exchange-rate service that fails with `forex error`, and an
exchange-rate repository that fails with `repository error`. -/
theorem collaborator_failure_verbatim_witness :
    RepositoryService.Store
        (⟨InMemoryRepository.repository fixture.alwaysErrorIDGenerator,
          fixture.cannedForEx forex.ConversionResult.zero none⟩ :
          RepositoryService (InMemoryRepository Unit))
        (Date 2023 10 1) ⟨some "A holiday", some "2023-01-02", some 100⟩
        (NewInMemoryRepository ())
      = ⟨StoreResponse.zero, some (GoError.other "problem"), NewInMemoryRepository (),
          [Call.Save ⟨"", "A holiday", Date 2023 1 2, 100⟩], false⟩
    ∧ RepositoryService.Fetch
        (⟨⟨fun txn w => ((txn, none), w),
            fun _ w => (⟨"sequentialID-1", "A holiday", Date 2023 1 2, 100⟩, w)⟩,
          fixture.cannedForEx ⟨5, forex.GoFloat64.zero⟩ (some (GoError.other "forex error"))⟩ :
          RepositoryService Unit) "sequentialID-1" "United Kingdom" ()
      = ⟨FetchResponse.zero, some (GoError.other "forex error"), (),
          [Call.FindByID "sequentialID-1",
            Call.Convert "United Kingdom" (monthsOlderThan (Date 2023 1 2) 6) 100], false⟩
    ∧ forex.RepositoryService.Convert
        (⟨fixture.cannedRepository ⟨Date 2023 1 2, forex.GoFloat64.zero, none⟩
          (some (GoError.other "repository error"))⟩ : forex.RepositoryService Unit)
        "United Kingdom" (Date 2022 7 2) 100 ()
      = some ((forex.ConversionResult.zero, some (GoError.other "repository error")), ()) :=
  ⟨collaborator_failure_verbatim.1 _ _ (Date 2023 10 1)
      ⟨some "A holiday", some "2023-01-02", some 100⟩ (NewInMemoryRepository ())
      (NewInMemoryRepository ()) ⟨"", "A holiday", Date 2023 1 2, 100⟩ Entity.zero
      (GoError.other "problem") (by decide) (by decide) rfl,
    collaborator_failure_verbatim.2.1 Unit _ "sequentialID-1" "United Kingdom" () () ()
      ⟨"sequentialID-1", "A holiday", Date 2023 1 2, 100⟩ ⟨5, forex.GoFloat64.zero⟩
      (GoError.other "forex error") (by decide) rfl (by decide) rfl,
    collaborator_failure_verbatim.2.2 Unit _ "United Kingdom" (Date 2022 7 2) 100 () ()
      ⟨Date 2023 1 2, forex.GoFloat64.zero, none⟩ (GoError.other "repository error") rfl⟩

end transaction

/-! ## The sentinel for "no record found" -/

namespace forex

open GoTime

/-- A finite `float64` is `==` to the zero value exactly when its mantissa is
0 (the number is `+0` or `-0`). -/
theorem sameValue_zero (x : Float64) :
    Float64.sameValue x Float64.zero = true ↔ x.mant = 0 := by
  have hpow : ∀ k : Nat, 2 ^ k ≠ 0 := fun k => Nat.pos_iff_ne_zero.mp (Nat.two_pow_pos k)
  simp only [Float64.sameValue, Float64.zero, Bool.or_eq_true, Bool.and_eq_true,
    decide_eq_true_eq, Nat.zero_mul, Nat.mul_eq_zero]
  constructor
  · rintro (⟨h, _⟩ | ⟨_, h | h⟩)
    · exact h
    · exact h
    · exact absurd h (hpow _)
  · intro h
    exact Or.inl ⟨h, trivial⟩

/-- The comparison `record == (Record{})` holds exactly for a record whose
date is the zero time, with the `nil` location pointer, and whose rate is a
zero. -/
theorem isZero_iff (record : Record) :
    record.isZero = true
      ↔ record.RecordDate = Time.zero ∧ record.Loc = none
        ∧ ∃ x, record.ExchangeRate = GoFloat64.finite x ∧ x.mant = 0 := by
  obtain ⟨date, rate, loc⟩ := record
  cases rate with
  | finite x =>
    simp only [Record.isZero, Bool.and_eq_true, decide_eq_true_eq, GoFloat64.zero,
      GoFloat64.eq, sameValue_zero, GoFloat64.finite.injEq, exists_eq_left', and_assoc]
  | inf neg => simp [Record.isZero, GoFloat64.zero, GoFloat64.eq]
  | nan => simp [Record.isZero, GoFloat64.zero, GoFloat64.eq]

/-- Claim C22, amended: the sentinel for "no record found" is the empty record
as a whole. For a record returned without error, `Convert` returns
UNABLE_TO_CONVERT_TO_TARGET_CURRENCY exactly when the record is `==` to
`Record{}`: its date is the zero time (the zero instant with the `nil`
location pointer) and its rate is a zero. Every other record is treated as
found, its rate handed to the converter, and so is every record whose date
is not the zero instant. -/
theorem Convert_sentinel_is_empty_record {σ : Type} (s : RepositoryService σ)
    (country : String) (cutoff : Time) (amount : Int) (w w1 : σ) (record : Record)
    (hf : s.repository.FindByCountry country cutoff w = ((record, none), w1)) :
    ((record.RecordDate = Time.zero ∧ record.Loc = none
        ∧ ∃ x, record.ExchangeRate = GoFloat64.finite x ∧ x.mant = 0) →
      s.Convert country cutoff amount w
        = some ((ConversionResult.zero,
            some (GoError.business ⟨[], "UNABLE_TO_CONVERT_TO_TARGET_CURRENCY"⟩)), w1))
    ∧ (¬ (record.RecordDate = Time.zero ∧ record.Loc = none
        ∧ ∃ x, record.ExchangeRate = GoFloat64.finite x ∧ x.mant = 0) →
      s.Convert country cutoff amount w
        = match record.ExchangeRate with
          | GoFloat64.finite x =>
            some ((⟨Converter.Convert amount x, GoFloat64.finite x⟩, none), w1)
          | _ => none)
    ∧ (record.RecordDate ≠ Time.zero →
      s.Convert country cutoff amount w
        = match record.ExchangeRate with
          | GoFloat64.finite x =>
            some ((⟨Converter.Convert amount x, GoFloat64.finite x⟩, none), w1)
          | _ => none) := by
  have found : record.isZero = false →
      s.Convert country cutoff amount w
        = match record.ExchangeRate with
          | GoFloat64.finite x =>
            some ((⟨Converter.Convert amount x, GoFloat64.finite x⟩, none), w1)
          | _ => none := by
    intro hne
    simp only [RepositoryService.Convert, hf, hne, Bool.false_eq_true, if_false]
    cases record.ExchangeRate <;> simp [Converter.ConvertOrPanic]
  refine ⟨?_, ?_, ?_⟩
  · intro h
    have hz : record.isZero = true := (isZero_iff record).mpr h
    simp [RepositoryService.Convert, hf, hz, unableToConvertToTargetCurrency]
  · intro h
    apply found
    cases hz : record.isZero with
    | false => rfl
    | true => exact absurd ((isZero_iff record).mp hz) h
  · intro h
    apply found
    cases hz : record.isZero with
    | false => rfl
    | true => exact absurd ((isZero_iff record).mp hz).1 h

/-- Claim C22 on a repository that answers with the record of the zero date
and the rate 0.345. -/
theorem Convert_sentinel_is_empty_record_witness :
    RepositoryService.Convert
        (⟨fixture.cannedRepository
          ⟨Time.zero, GoFloat64.finite (Float64.ofConst false 345 1000), none⟩
          none⟩ : RepositoryService Unit) "United Kingdom" (Date 2022 7 2) 1000 ()
      = some ((⟨Converter.Convert 1000 (Float64.ofConst false 345 1000),
          GoFloat64.finite (Float64.ofConst false 345 1000)⟩, none), ()) :=
  (Convert_sentinel_is_empty_record
    (⟨fixture.cannedRepository
      ⟨Time.zero, GoFloat64.finite (Float64.ofConst false 345 1000), none⟩
      none⟩ : RepositoryService Unit) "United Kingdom" (Date 2022 7 2) 1000 () ()
    ⟨Time.zero, GoFloat64.finite (Float64.ofConst false 345 1000), none⟩ rfl).2.1
    (fun h => by
      obtain ⟨_, _, x, hx, hm⟩ := h
      cases hx
      exact absurd hm (by decide))

set_option maxRecDepth 8000 in
/-- Claim C22 as stated fails: a record with the zero record date and the
rate 0.345, returned without error, is not taken as "no record found"; 1000
cents are converted to 345. Nor is a record of the rate 0 whose date is the
zero instant in a location other than UTC (a non-`nil` location pointer, here
of the name `Local`): it is converted, to 0. -/
theorem zero_date_record_is_converted :
    (⟨Time.zero, GoFloat64.finite (Float64.ofConst false 345 1000), none⟩ : Record).RecordDate
      = Time.zero
    ∧ RepositoryService.Convert
        (⟨fixture.cannedRepository
          ⟨Time.zero, GoFloat64.finite (Float64.ofConst false 345 1000), none⟩
          none⟩ : RepositoryService Unit) "United Kingdom" (Date 2022 7 2) 1000 ()
      = some ((⟨345, GoFloat64.finite (Float64.ofConst false 345 1000)⟩, none), ())
    ∧ RepositoryService.Convert
        (⟨fixture.cannedRepository ⟨Time.zero, GoFloat64.zero, some "Local"⟩
          none⟩ : RepositoryService Unit) "United Kingdom" (Date 2022 7 2) 1000 ()
      = some ((⟨0, GoFloat64.zero⟩, none), ()) := by
  decide

end forex

/-! ## The date of today and the zone of the clock -/

namespace transaction

open business GoTime

set_option maxRecDepth 8000 in
/-- Claim C21 fails on the code when the clock is not in UTC. At 05:00 of
2023-05-02 in a zone ten hours east of UTC (19:00 of 2023-05-01 in UTC) the
local date is 2023-05-02, and a request of that date is rejected with
`(transactionDate, DATE_IN_FUTURE)`. At 20:00 of 2023-05-01 in a zone ten
hours west of UTC (06:00 of 2023-05-02 in UTC) the next local day is
2023-05-02, and a request of that date is accepted. With the clock in UTC at
the same two instants the date of the day is accepted and the next rejected. -/
theorem local_date_of_today_rejected :
    (⟨(Date 2023 5 1).sec + 68400, 0, 36000⟩ : Time).Format = "2023-05-02"
    ∧ storeValidator.validate ⟨(Date 2023 5 1).sec + 68400, 0, 36000⟩
        ⟨some "A holiday", some "2023-05-02", some 100⟩
      = some (GoError.business ⟨[⟨"transactionDate", "DATE_IN_FUTURE"⟩], "VALIDATION_ERROR"⟩)
    ∧ (⟨(Date 2023 5 2).sec + 21600, 0, -36000⟩ : Time).Format = "2023-05-01"
    ∧ ((⟨(Date 2023 5 2).sec + 21600, 0, -36000⟩ : Time).AddDate 0 0 1).Format = "2023-05-02"
    ∧ storeValidator.validate ⟨(Date 2023 5 2).sec + 21600, 0, -36000⟩
        ⟨some "A holiday", some "2023-05-02", some 100⟩ = none
    ∧ (⟨(Date 2023 5 1).sec + 68400, 0, 0⟩ : Time).Format = "2023-05-01"
    ∧ storeValidator.validate ⟨(Date 2023 5 1).sec + 68400, 0, 0⟩
        ⟨some "A holiday", some "2023-05-01", some 100⟩ = none
    ∧ ((⟨(Date 2023 5 1).sec + 68400, 0, 0⟩ : Time).AddDate 0 0 1).Format = "2023-05-02"
    ∧ storeValidator.validate ⟨(Date 2023 5 1).sec + 68400, 0, 0⟩
        ⟨some "A holiday", some "2023-05-02", some 100⟩
      = some (GoError.business ⟨[⟨"transactionDate", "DATE_IN_FUTURE"⟩], "VALIDATION_ERROR"⟩) := by
  decide

end transaction

/-! ## The repository of the Treasury API -/

namespace GoTime

/-- The text of a date at midnight UTC of a year from 0 to 9999: four digits
of the year, two of the month and two of the day, with `-` between. -/
theorem Format_Date (Y : Int) (m : Nat) (d : Int) (hm1 : 1 ≤ m) (hm2 : m ≤ 12)
    (hd1 : 1 ≤ d) (hd2 : d ≤ daysIn m Y) (hy0 : 0 ≤ Y) (hy : Y ≤ 9999) :
    (Date Y m d).Format
      = String.mk [digitChar (Y.toNat / 1000), digitChar (Y.toNat / 100),
          digitChar (Y.toNat / 10), digitChar Y.toNat, '-', digitChar (m / 10), digitChar m,
          '-', digitChar (d.toNat / 10), digitChar d.toNat] := by
  have hcd := civilDate_Date Y m d hm1 hm2 hd1 hd2
  have hd31 := (daysIn_le m Y hm1 hm2).2
  simp only [Time.Format, hcd]
  obtain ⟨y, rfl⟩ := Int.eq_ofNat_of_zero_le hy0
  obtain ⟨k, rfl⟩ := Int.eq_ofNat_of_zero_le (le_trans (by norm_num) hd1 : (0 : Int) ≤ d)
  have y4 : appendInt (y : Int) 4 = padDigits 4 y := by
    have hlt : y < 10 ^ 4 := by norm_num; omega
    have hnn : ¬ ((y : Int) < 0) := by omega
    simp only [appendInt, Int.natAbs_ofNat, if_pos hlt, if_neg hnn]
  have m2 : appendInt (m : Int) 2 = padDigits 2 m := by
    have hlt : m < 10 ^ 2 := by norm_num; omega
    have hnn : ¬ ((m : Int) < 0) := by omega
    simp only [appendInt, Int.natAbs_ofNat, if_pos hlt, if_neg hnn]
  have d2 : appendInt (k : Int) 2 = padDigits 2 k := by
    have hlt : k < 10 ^ 2 := by norm_num; omega
    have hnn : ¬ ((k : Int) < 0) := by omega
    simp only [appendInt, Int.natAbs_ofNat, if_pos hlt, if_neg hnn]
  rw [y4, m2, d2, padDigits_four, padDigits_two, padDigits_two]
  simp [Nat.div_div_eq_div_mul]

end GoTime

namespace forex

open GoTime

/-- The code of a character is below `0x110000`. -/
theorem toNat_lt (c : Char) : c.toNat < 1114112 := by
  have h := c.valid
  simp only [UInt32.isValidChar, Nat.isValidChar] at h
  simp only [Char.toNat]
  omega

theorem utf8Bytes_lt (c : Char) : ∀ b ∈ utf8Bytes c, b < 256 := by
  have h := toNat_lt c
  intro b hb
  simp only [utf8Bytes] at hb
  split_ifs at hb <;> simp at hb <;> omega

theorem utf8Bytes_length (c : Char) : (utf8Bytes c).length = c.utf8Size := by
  have key : ∀ (n : Nat) (h : n < UInt32.size), (c.val ≤ UInt32.ofNatCore n h) ↔ c.toNat ≤ n := by
    intro n h
    rw [UInt32.le_def]
    rfl
  simp only [utf8Bytes, Char.utf8Size, key]
  split_ifs <;> first | rfl | omega

set_option maxRecDepth 100000 in
theorem escapeByte_shape : ∀ b < 256,
    (b = 32 ∧ ((escapeByte b).map utf8Bytes).flatten = [43])
    ∨ (((escapeByte b).map utf8Bytes).flatten
          = [37, (upperhex (b / 16)).toNat, (upperhex (b % 16)).toNat]
        ∧ ishex (upperhex (b / 16)).toNat = true ∧ ishex (upperhex (b % 16)).toNat = true
        ∧ unhex (upperhex (b / 16)).toNat * 16 + unhex (upperhex (b % 16)).toNat = b)
    ∨ (b ≠ 37 ∧ b ≠ 43 ∧ ((escapeByte b).map utf8Bytes).flatten = [b]) := by
  decide

theorem unescapeBytes_escaped (b : Nat) (hb : b < 256) (rest : List Nat) :
    unescapeBytes (((escapeByte b).map utf8Bytes).flatten ++ rest)
      = (unescapeBytes rest).map (fun t => b :: t) := by
  rcases escapeByte_shape b hb with ⟨h1, h2⟩ | ⟨h2, h3, h4, h5⟩ | ⟨h1, h2, h3⟩
  · subst h1
    rw [h2]
    rcases rest with _ | ⟨a, _ | ⟨c, r2⟩⟩ <;> simp [unescapeBytes]
  · rw [h2]
    simp [unescapeBytes, h3, h4, h5]
  · rw [h3]
    rcases rest with _ | ⟨a, _ | ⟨c, r2⟩⟩ <;> simp [unescapeBytes, h1, h2]

theorem unescapeBytes_escape (bs : List Nat) (h : ∀ b ∈ bs, b < 256) :
    unescapeBytes (((bs.map escapeByte).flatten.map utf8Bytes).flatten) = some bs := by
  induction bs with
  | nil => rfl
  | cons b bs ih =>
    have h1 := ih (fun x hx => h x (List.mem_cons_of_mem _ hx))
    simp only [List.map_cons, List.flatten_cons, List.map_append, List.flatten_append]
    rw [unescapeBytes_escaped b (h b (List.mem_cons_self _ _)), h1]
    rfl

theorem mem_flatten_utf8Bytes (cs : List Char) :
    ∀ b ∈ (cs.map utf8Bytes).flatten, b < 256 := by
  intro b hb
  simp only [List.mem_flatten, List.mem_map] at hb
  obtain ⟨l, ⟨c, _, rfl⟩, hbl⟩ := hb
  exact utf8Bytes_lt c b hbl

theorem QueryUnescape_QueryEscape (s : String) :
    QueryUnescape (QueryEscape s) = some (s.data.map utf8Bytes).flatten := by
  simp only [QueryUnescape, QueryEscape]
  exact unescapeBytes_escape _ (mem_flatten_utf8Bytes s.data)


/-- Letters and digits in terms of the code of the character. -/
theorem isAlphanum_iff (c : Char) :
    c.isAlphanum = true
      ↔ ((65 ≤ c.toNat ∧ c.toNat ≤ 90) ∨ (97 ≤ c.toNat ∧ c.toNat ≤ 122))
        ∨ (48 ≤ c.toNat ∧ c.toNat ≤ 57) := by
  simp only [Char.isAlphanum, Char.isAlpha, Char.isUpper, Char.isLower, Char.isDigit,
    Bool.or_eq_true, Bool.and_eq_true, decide_eq_true_eq, ge_iff_le, UInt32.le_def,
    BitVec.le_def]
  rfl

/-- The characters that `QueryEscape` keeps as they are. -/
theorem unreserved_toNat (c : Char)
    (h : c.isAlphanum = true ∨ c = '-' ∨ c = '_' ∨ c = '.' ∨ c = '~') :
    shouldEscape c.toNat = false ∧ c.toNat < 128 := by
  rcases h with h | h | h | h | h
  · rw [isAlphanum_iff] at h
    simp only [shouldEscape]
    constructor
    · rw [if_pos (by omega)]
    · omega
  all_goals subst h; decide

theorem eq_of_toNat_eq (c : Char) (n : Nat) (h : c.toNat = n) : c = Char.ofNat n := by
  rw [← h, Char.ofNat_toNat]

/-- Every byte of a character that is no letter, no digit and none of the
four marks is escaped, and it is a space only in the space itself. -/
theorem not_unreserved_toNat (c : Char)
    (h : ¬ (c.isAlphanum = true ∨ c = '-' ∨ c = '_' ∨ c = '.' ∨ c = '~')) :
    ∀ b ∈ utf8Bytes c, shouldEscape b = true ∧ (b = 32 → c = ' ') := by
  rw [isAlphanum_iff] at h
  have h45 : c.toNat ≠ 45 := fun e => h (Or.inr (Or.inl (eq_of_toNat_eq c 45 e)))
  have h95 : c.toNat ≠ 95 := fun e => h (Or.inr (Or.inr (Or.inl (eq_of_toNat_eq c 95 e))))
  have h46 : c.toNat ≠ 46 :=
    fun e => h (Or.inr (Or.inr (Or.inr (Or.inl (eq_of_toNat_eq c 46 e)))))
  have h126 : c.toNat ≠ 126 :=
    fun e => h (Or.inr (Or.inr (Or.inr (Or.inr (eq_of_toNat_eq c 126 e)))))
  have hr : ¬ (((65 ≤ c.toNat ∧ c.toNat ≤ 90) ∨ (97 ≤ c.toNat ∧ c.toNat ≤ 122))
        ∨ (48 ≤ c.toNat ∧ c.toNat ≤ 57)) := fun e => h (Or.inl e)
  intro b hb
  have h32 : b = 32 → c.toNat = 32 := by
    intro e
    simp only [utf8Bytes] at hb
    split_ifs at hb <;> simp at hb <;> omega
  refine ⟨?_, fun e => eq_of_toNat_eq c 32 (h32 e)⟩
  have hcases : b = c.toNat ∨ 128 ≤ b := by
    simp only [utf8Bytes] at hb
    split_ifs at hb <;> simp at hb <;> omega
  simp only [shouldEscape]
  rcases hcases with e | e
  · rw [if_neg (by omega), if_neg (by omega)]
  · rw [if_neg (by omega), if_neg (by omega)]

theorem upperhex_eq : ∀ n < 16, upperhex n = (Nat.digitChar n).toUpper := by
  decide

theorem QueryEscape_escaped (c : Char)
    (h : ¬ (c.isAlphanum = true ∨ c = '-' ∨ c = '_' ∨ c = '.' ∨ c = '~')) (hs : c ≠ ' ') :
    QueryEscape (String.singleton c)
      = String.mk ((utf8Bytes c).map (fun b =>
          ['%', (Nat.digitChar (b / 16)).toUpper, (Nat.digitChar (b % 16)).toUpper])).flatten := by
  have hd : (String.singleton c).data = [c] := rfl
  have hmap : (utf8Bytes c).map escapeByte
      = (utf8Bytes c).map (fun b =>
          ['%', (Nat.digitChar (b / 16)).toUpper, (Nat.digitChar (b % 16)).toUpper]) := by
    apply List.map_congr_left
    intro b hb
    obtain ⟨h1, h2⟩ := not_unreserved_toNat c h b hb
    have hlt := utf8Bytes_lt c b hb
    have hne : b ≠ 32 := fun e => hs (h2 e)
    simp only [escapeByte, h1, if_true, if_neg hne]
    rw [upperhex_eq (b / 16) (by omega), upperhex_eq (b % 16) (by omega)]
  simp only [QueryEscape, hd, List.map_cons, List.map_nil, List.flatten_cons,
    List.flatten_nil, List.append_nil, hmap]

theorem QueryEscape_append (s t : String) :
    QueryEscape (s ++ t) = QueryEscape s ++ QueryEscape t := by
  simp only [QueryEscape, String.data_append, List.map_append, List.flatten_append]
  rfl

theorem QueryEscape_unreserved (c : Char)
    (h : c.isAlphanum = true ∨ c = '-' ∨ c = '_' ∨ c = '.' ∨ c = '~') :
    QueryEscape (String.singleton c) = String.singleton c := by
  obtain ⟨h1, h2⟩ := unreserved_toNat c h
  have hd : (String.singleton c).data = [c] := rfl
  simp only [QueryEscape, hd, List.map_cons, List.map_nil, List.flatten_cons,
    List.flatten_nil, List.append_nil, utf8Bytes, if_pos h2, escapeByte, h1,
    Bool.false_eq_true, if_false, Char.ofNat_toNat]
  rfl

set_option maxRecDepth 100000 in
theorem escapeByte_safe : ∀ b < 256,
    (escapeByte b).all (fun ch => ch.isAlphanum || decide (ch ∈ ['-', '_', '.', '~', '+', '%']))
      = true := by
  decide

theorem QueryEscape_safe (s : String) :
    ∀ ch ∈ (QueryEscape s).data,
      ch.isAlphanum = true ∨ ch ∈ ['-', '_', '.', '~', '+', '%'] := by
  intro ch hch
  simp only [QueryEscape, List.mem_flatten, List.mem_map] at hch
  obtain ⟨l, ⟨b, hb, rfl⟩, hl⟩ := hch
  have hb2 := mem_flatten_utf8Bytes s.data b (by
    simp only [List.mem_flatten, List.mem_map]
    exact hb)
  have h := escapeByte_safe b hb2
  rw [List.all_eq_true] at h
  have := h ch hl
  simpa using this

set_option maxRecDepth 8000 in
/-- Claim C24: for every country and every cutoff, the URL of `newURL` is the
base URL (which ends in `sort=-record_date&format=json`) followed by
`&filter=record_date:gte:`, the cutoff in the layout `2006-01-02`,
`,country:eq:`, the query-escaped country and `&page[size]=1&page[number]=1`;
the cutoff of a date at midnight UTC of a year from 0 to 9999 is written as
four digits of the year, two of the month and two of the day; the country
`United Kingdom` and the cutoff 2023-04-12 give the URL of the test.
The query-escaped country is, for every country: read back by
`url.QueryUnescape` as the bytes of the country; made of letters, digits and
the marks `-`, `_`, `.`, `~`, `+`, `%` alone; the escaped parts one after the
other; a letter, a digit or one of `-`, `_`, `.`, `~` as it is; `+` for a
space; and for every other character `%` with two upper-case hexadecimal
digits for each byte of its UTF-8 encoding. -/
theorem newURL_eq :
    (∀ (country : String) (cutoff : Time),
      newURL country cutoff
        = "https://api.fiscaldata.treasury.gov/services/api/fiscal_service/v1/accounting/od/rates_of_exchange?sort=-record_date&format=json"
          ++ "&filter=record_date:gte:" ++ cutoff.Format ++ ",country:eq:"
          ++ QueryEscape country ++ "&page[size]=1&page[number]=1")
    ∧ (∀ (Y : Int) (m : Nat) (d : Int), 1 ≤ m → m ≤ 12 → 1 ≤ d → d ≤ daysIn m Y →
        0 ≤ Y → Y ≤ 9999 →
        (Date Y m d).Format
          = String.mk [digitChar (Y.toNat / 1000), digitChar (Y.toNat / 100),
              digitChar (Y.toNat / 10), digitChar Y.toNat, '-', digitChar (m / 10),
              digitChar m, '-', digitChar (d.toNat / 10), digitChar d.toNat])
    ∧ QueryEscape "United Kingdom" = "United+Kingdom"
    ∧ newURL "United Kingdom" (Date 2023 4 12)
        = "https://api.fiscaldata.treasury.gov/services/api/fiscal_service/v1/accounting/od/rates_of_exchange?sort=-record_date&format=json&filter=record_date:gte:2023-04-12,country:eq:United+Kingdom&page[size]=1&page[number]=1"
    ∧ (∀ country : String,
        QueryUnescape (QueryEscape country) = some (country.data.map utf8Bytes).flatten)
    ∧ (∀ country : String, ∀ ch ∈ (QueryEscape country).data,
        ch.isAlphanum = true ∨ ch ∈ ['-', '_', '.', '~', '+', '%'])
    ∧ (∀ s t : String, QueryEscape (s ++ t) = QueryEscape s ++ QueryEscape t)
    ∧ (∀ c : Char, (c.isAlphanum = true ∨ c = '-' ∨ c = '_' ∨ c = '.' ∨ c = '~') →
        QueryEscape (String.singleton c) = String.singleton c)
    ∧ QueryEscape " " = "+"
    ∧ (∀ c : Char, ¬ (c.isAlphanum = true ∨ c = '-' ∨ c = '_' ∨ c = '.' ∨ c = '~') →
        c ≠ ' ' →
        QueryEscape (String.singleton c)
          = String.mk ((utf8Bytes c).map (fun b =>
              ['%', (Nat.digitChar (b / 16)).toUpper,
                (Nat.digitChar (b % 16)).toUpper])).flatten)
    ∧ (∀ c : Char, (utf8Bytes c).length = c.utf8Size ∧ ∀ b ∈ utf8Bytes c, b < 256)
    ∧ utf8Bytes 'é' = [195, 169] ∧ utf8Bytes '€' = [226, 130, 172]
    ∧ utf8Bytes '😀' = [240, 159, 152, 128]
    ∧ QueryEscape "São Tomé & Príncipe" = "S%C3%A3o+Tom%C3%A9+%26+Pr%C3%ADncipe"
    ∧ QueryEscape "a&b=c/d?e%f" = "a%26b%3Dc%2Fd%3Fe%25f"
    ∧ QueryEscape "Zürich-1_2.3~4+€" = "Z%C3%BCrich-1_2.3~4%2B%E2%82%AC"
    ∧ newURL "São Tomé & Príncipe" (Date 2022 11 1)
        = "https://api.fiscaldata.treasury.gov/services/api/fiscal_service/v1/accounting/od/rates_of_exchange?sort=-record_date&format=json&filter=record_date:gte:2022-11-01,country:eq:S%C3%A3o+Tom%C3%A9+%26+Pr%C3%ADncipe&page[size]=1&page[number]=1" := by
  refine ⟨?_, ?_, by decide, by decide, QueryUnescape_QueryEscape, QueryEscape_safe,
    QueryEscape_append, QueryEscape_unreserved, by decide, QueryEscape_escaped,
    fun c => ⟨utf8Bytes_length c, utf8Bytes_lt c⟩, by decide, by decide, by decide,
    by decide, by decide, by decide, by decide⟩
  · intro country cutoff
    have h1 : itoa pageSize = "1" := by decide
    have h2 : itoa pageNumber = "1" := by decide
    simp only [newURL, baseURL, h1, h2, String.append_assoc]
    rfl
  · intro Y m d hm1 hm2 hd1 hd2 hy0 hy
    exact Format_Date Y m d hm1 hm2 hd1 hd2 hy0 hy

/-- Claim C24 at the cutoff 2022-11-01 of the integration tests, and on a
letter, which is kept, and the ampersand, which is escaped. -/
theorem newURL_eq_witness :
    (Date 2022 11 1).Format = String.mk ['2', '0', '2', '2', '-', '1', '1', '-', '0', '1']
    ∧ newURL "United Kingdom" (Date 2022 11 1)
        = "https://api.fiscaldata.treasury.gov/services/api/fiscal_service/v1/accounting/od/rates_of_exchange?sort=-record_date&format=json"
          ++ "&filter=record_date:gte:" ++ (Date 2022 11 1).Format ++ ",country:eq:"
          ++ QueryEscape "United Kingdom" ++ "&page[size]=1&page[number]=1"
    ∧ QueryEscape "U" = "U"
    ∧ QueryEscape "&" = "%26"
    ∧ QueryUnescape "United+Kingdom"
        = some [85, 110, 105, 116, 101, 100, 32, 75, 105, 110, 103, 100, 111, 109] :=
  ⟨newURL_eq.2.1 2022 11 1 (by decide) (by decide) (by decide) (by decide) (by decide)
      (by decide),
    newURL_eq.1 "United Kingdom" (Date 2022 11 1),
    newURL_eq.2.2.2.2.2.2.2.1 'U' (Or.inl (by decide)),
    newURL_eq.2.2.2.2.2.2.2.2.2.1 '&' (by decide) (by decide),
    newURL_eq.2.2.2.2.1 "United Kingdom"⟩

end forex

namespace forex

open GoTime

/-- Claim C25: what `FindByCountry` returns for the answer of the upstream.
With the status 200 and a body that `json.Unmarshal` accepts, it returns the
first element of `data` and no error, or the empty `Record` and no error when
`data` is empty. With any status other than 200 it returns the empty `Record`
and an error (that names the status and the body, or the error of reading
the body); with a body that cannot be read or cannot be parsed it returns
the empty `Record` and that error; and so it does with the error of a call
that fails. -/
theorem FindByCountry_response {σ : Type} (Unmarshal : String → APIResponse × Option GoError)
    (r : TreasuryRepository σ) (country : String) (cutoff : Time) (w : σ) :
    (∀ response w1 body first rest,
      r.httpClient.Do ⟨"GET", newURL country cutoff⟩ w = ((response, none), w1) →
      response.StatusCode = 200 → response.Body = (body, none) →
      Unmarshal body = (⟨first :: rest⟩, none) →
      r.FindByCountry Unmarshal country cutoff w = ((first, none), w1))
    ∧ (∀ response w1 body,
      r.httpClient.Do ⟨"GET", newURL country cutoff⟩ w = ((response, none), w1) →
      response.StatusCode = 200 → response.Body = (body, none) →
      Unmarshal body = (⟨[]⟩, none) →
      r.FindByCountry Unmarshal country cutoff w = ((Record.zero, none), w1))
    ∧ (∀ response w1 body,
      r.httpClient.Do ⟨"GET", newURL country cutoff⟩ w = ((response, none), w1) →
      response.StatusCode ≠ 200 → response.Body = (body, none) →
      r.FindByCountry Unmarshal country cutoff w
        = ((Record.zero, some (GoError.other ("http status " ++ itoa response.StatusCode
            ++ " received from treasury api. response body: " ++ body))), w1))
    ∧ (∀ response w1 body err,
      r.httpClient.Do ⟨"GET", newURL country cutoff⟩ w = ((response, none), w1) →
      response.Body = (body, some err) →
      r.FindByCountry Unmarshal country cutoff w = ((Record.zero, some err), w1))
    ∧ (∀ response w1 body unmarshalled err,
      r.httpClient.Do ⟨"GET", newURL country cutoff⟩ w = ((response, none), w1) →
      response.StatusCode = 200 → response.Body = (body, none) →
      Unmarshal body = (unmarshalled, some err) →
      r.FindByCountry Unmarshal country cutoff w = ((Record.zero, some err), w1))
    ∧ (∀ response w1 err,
      r.httpClient.Do ⟨"GET", newURL country cutoff⟩ w = ((response, some err), w1) →
      r.FindByCountry Unmarshal country cutoff w = ((Record.zero, some err), w1)) := by
  refine ⟨?_, ?_, ?_, ?_, ?_, ?_⟩
  · intro response w1 body first rest hdo hs hb hu
    simp [TreasuryRepository.FindByCountry, NewRequestWithContext, hdo, hs, parseResponse,
      read, hb, hu]
  · intro response w1 body hdo hs hb hu
    simp [TreasuryRepository.FindByCountry, NewRequestWithContext, hdo, hs, parseResponse,
      read, hb, hu]
  · intro response w1 body hdo hs hb
    simp [TreasuryRepository.FindByCountry, NewRequestWithContext, hdo, hs, read, hb,
      statusError]
  · intro response w1 body err hdo hb
    by_cases hs : response.StatusCode = 200
    · simp [TreasuryRepository.FindByCountry, NewRequestWithContext, hdo, hs, parseResponse,
        read, hb, APIResponse.zero]
    · simp [TreasuryRepository.FindByCountry, NewRequestWithContext, hdo, hs, read, hb]
  · intro response w1 body unmarshalled err hdo hs hb hu
    simp [TreasuryRepository.FindByCountry, NewRequestWithContext, hdo, hs, parseResponse,
      read, hb, hu, APIResponse.zero]
  · intro response w1 err hdo
    simp [TreasuryRepository.FindByCountry, NewRequestWithContext, hdo]

set_option maxRecDepth 8000 in
/-- Claim C25 on the mock client of the repository tests: the status 200 with
the body of one record, the status 200 with the body of no record, the status
500 with the body `*error-payload*`, the status 200 with that body, and a
client that fails. -/
theorem FindByCountry_response_witness :
    ((TreasuryRepository.FindByCountry fixture.Unmarshal
        ⟨fixture.MockHttpClient 200 fixture.treasuryBody⟩ "United Kingdom"
        (Date 2023 4 12) none).1
      = (⟨Date 2020 8 1, GoFloat64.finite (Float64.ofConst false 345 1000), none⟩, none))
    ∧ ((TreasuryRepository.FindByCountry fixture.Unmarshal
        ⟨fixture.MockHttpClient 200 fixture.noExchangeRateTreasuryBody⟩ "United Kingdom"
        (Date 2023 4 12) none).1 = (Record.zero, none))
    ∧ ((TreasuryRepository.FindByCountry fixture.Unmarshal
        ⟨fixture.MockHttpClient 500 "*error-payload*"⟩ "United Kingdom"
        (Date 2023 4 12) none).1
      = (Record.zero, some (GoError.other
          "http status 500 received from treasury api. response body: *error-payload*")))
    ∧ ((TreasuryRepository.FindByCountry fixture.Unmarshal
        ⟨fixture.MockHttpClient 200 "*error-payload*"⟩ "United Kingdom"
        (Date 2023 4 12) none).1
      = (Record.zero,
          some (GoError.other "invalid character '*' looking for beginning of value")))
    ∧ ((TreasuryRepository.FindByCountry fixture.Unmarshal
        ⟨fixture.failingHttpClient (GoError.other "connection refused")⟩ "United Kingdom"
        (Date 2023 4 12) ()).1
      = (Record.zero, some (GoError.other "connection refused"))) :=
  ⟨congrArg Prod.fst ((FindByCountry_response fixture.Unmarshal
      ⟨fixture.MockHttpClient 200 fixture.treasuryBody⟩ "United Kingdom" (Date 2023 4 12)
      none).1 ⟨200, (fixture.treasuryBody, none)⟩ _ fixture.treasuryBody
      ⟨Date 2020 8 1, GoFloat64.finite (Float64.ofConst false 345 1000), none⟩ [] rfl rfl rfl
      (by decide)),
    congrArg Prod.fst ((FindByCountry_response fixture.Unmarshal
      ⟨fixture.MockHttpClient 200 fixture.noExchangeRateTreasuryBody⟩ "United Kingdom"
      (Date 2023 4 12) none).2.1 ⟨200, (fixture.noExchangeRateTreasuryBody, none)⟩ _
      fixture.noExchangeRateTreasuryBody rfl rfl rfl (by decide)),
    congrArg Prod.fst ((FindByCountry_response fixture.Unmarshal
      ⟨fixture.MockHttpClient 500 "*error-payload*"⟩ "United Kingdom" (Date 2023 4 12)
      none).2.2.1 ⟨500, ("*error-payload*", none)⟩ _ "*error-payload*" rfl (by decide) rfl),
    congrArg Prod.fst ((FindByCountry_response fixture.Unmarshal
      ⟨fixture.MockHttpClient 200 "*error-payload*"⟩ "United Kingdom" (Date 2023 4 12)
      none).2.2.2.2.1 ⟨200, ("*error-payload*", none)⟩ _ "*error-payload*" APIResponse.zero
      (GoError.other "invalid character '*' looking for beginning of value") rfl rfl rfl
      (by decide)),
    congrArg Prod.fst ((FindByCountry_response fixture.Unmarshal
      ⟨fixture.failingHttpClient (GoError.other "connection refused")⟩ "United Kingdom"
      (Date 2023 4 12) ()).2.2.2.2.2 ⟨0, ("", none)⟩ () (GoError.other "connection refused")
      rfl)⟩

/-- Claim C23, amended: a non-empty record that `FindByCountry` returns
without error is the first element of the data of the upstream response (of
status 200, read and parsed without error), whatever its record date; the
cutoff is sent to the upstream in the URL and the record is compared with it
nowhere. The record is on or after the cutoff when the records of the
upstream response are. -/
theorem FindByCountry_returns_first_of_upstream {σ : Type}
    (Unmarshal : String → APIResponse × Option GoError) (r : TreasuryRepository σ)
    (country : String) (cutoff : Time) (w w1 : σ) (record : Record)
    (h : r.FindByCountry Unmarshal country cutoff w = ((record, none), w1))
    (hne : record.isZero = false) :
    ∃ response body rest,
      r.httpClient.Do ⟨"GET", newURL country cutoff⟩ w = ((response, none), w1)
      ∧ response.StatusCode = 200 ∧ response.Body = (body, none)
      ∧ Unmarshal body = (⟨record :: rest⟩, none)
      ∧ ((∀ x ∈ (Unmarshal body).1.Data, cutoff.After x.RecordDate = false) →
          cutoff.After record.RecordDate = false) := by
  have hz : Record.zero.isZero = true := by decide
  simp only [TreasuryRepository.FindByCountry, NewRequestWithContext] at h
  rcases hdo : r.httpClient.Do ⟨"GET", newURL country cutoff⟩ w with ⟨⟨response, err⟩, w2⟩
  rw [hdo] at h
  cases err with
  | some e => simp at h
  | none =>
    simp only at h
    by_cases hs : response.StatusCode = 200
    · rw [if_neg (not_not.mpr hs)] at h
      simp only [parseResponse, read] at h
      rcases hb : response.Body with ⟨body, rerr⟩
      rw [hb] at h
      cases rerr with
      | some e => simp at h
      | none =>
        simp only at h
        rcases hu : Unmarshal body with ⟨⟨data⟩, uerr⟩
        rw [hu] at h
        cases uerr with
        | some e => simp at h
        | none =>
          cases data with
          | nil =>
            simp only [Prod.mk.injEq, and_true, true_and] at h
            rw [← h.1, hz] at hne
            exact absurd hne (by simp)
          | cons first rest =>
            simp only [Prod.mk.injEq, and_true, true_and] at h
            obtain ⟨h1, h2⟩ := h
            subst h1 h2
            exact ⟨response, body, rest, rfl, hs, hb, hu,
              fun hall => hall _ (by rw [hu]; exact List.mem_cons_self _ _)⟩
    · rw [if_pos hs] at h
      simp only [read] at h
      rcases hb : response.Body with ⟨body, rerr⟩
      rw [hb] at h
      cases rerr <;> simp at h

/-- Claim C23 on the mock client of the repository tests, with the body of
one record of 2023-05-01 and the cutoff 2023-04-12. -/
theorem FindByCountry_returns_first_of_upstream_witness :
    ∃ response body rest,
      (fixture.MockHttpClient 200 "one record").Do
          ⟨"GET", newURL "United Kingdom" (Date 2023 4 12)⟩ none
        = ((response, none), some ⟨"GET", newURL "United Kingdom" (Date 2023 4 12)⟩)
      ∧ response.StatusCode = 200 ∧ response.Body = (body, none)
      ∧ (fun _ => ((⟨[⟨Date 2023 5 1, GoFloat64.finite (Float64.ofConst false 345 1000), none⟩]⟩
            : APIResponse), (none : Option GoError))) body
          = (⟨⟨Date 2023 5 1, GoFloat64.finite (Float64.ofConst false 345 1000), none⟩ :: rest⟩, none)
      ∧ ((∀ x ∈ ((fun _ => ((⟨[⟨Date 2023 5 1,
              GoFloat64.finite (Float64.ofConst false 345 1000), none⟩]⟩ : APIResponse),
              (none : Option GoError))) body).1.Data,
            (Date 2023 4 12).After x.RecordDate = false) →
          (Date 2023 4 12).After
            (⟨Date 2023 5 1, GoFloat64.finite (Float64.ofConst false 345 1000), none⟩ : Record).RecordDate
            = false) :=
  FindByCountry_returns_first_of_upstream
    (fun _ => (⟨[⟨Date 2023 5 1, GoFloat64.finite (Float64.ofConst false 345 1000), none⟩]⟩, none))
    ⟨fixture.MockHttpClient 200 "one record"⟩ "United Kingdom" (Date 2023 4 12) none
    (some ⟨"GET", newURL "United Kingdom" (Date 2023 4 12)⟩)
    ⟨Date 2023 5 1, GoFloat64.finite (Float64.ofConst false 345 1000), none⟩ rfl (by decide)

set_option maxRecDepth 8000 in
/-- Claim C23 as stated fails on the case of the repository test: for the
cutoff 2023-04-12 and an upstream response whose one record is of 2020-08-01,
`FindByCountry` returns that record without error, although it is older than
the cutoff. -/
theorem FindByCountry_returns_record_older_than_cutoff :
    (TreasuryRepository.FindByCountry fixture.Unmarshal
        ⟨fixture.MockHttpClient 200 fixture.treasuryBody⟩ "United Kingdom"
        (Date 2023 4 12) none).1
      = (⟨Date 2020 8 1, GoFloat64.finite (Float64.ofConst false 345 1000), none⟩, none)
    ∧ (⟨Date 2020 8 1, GoFloat64.finite (Float64.ofConst false 345 1000), none⟩ : Record).isZero
      = false
    ∧ (Date 2023 4 12).After (Date 2020 8 1) = true := by
  decide

end forex

/-! ## The error-handling middleware -/

namespace errorhandling

open gin transaction GoTime

/-- The text of a business error starts with `[message`, so it is never the
text `BAD_REQUEST`. -/
theorem business_Error_ne_BadRequest (e : business.Error) :
    (GoError.business e).Error ≠ BadRequest := by
  intro h
  have h2 := congrArg String.data h
  simp [GoError.Error, business.Error.Error, BadRequest, String.data_append] at h2

/-- The middleware after a handler that has recorded one error and written
nothing: a business error is answered with 422 and the error itself. -/
theorem handleFirst_business (e : business.Error) :
    handleFirst ⟨[GoError.business e], none⟩ [GoError.business e]
      = some ⟨[GoError.business e], some (422, some (Body.businessError e))⟩ := by
  simp [handleFirst, if_neg (business_Error_ne_BadRequest e), handleBusinessError,
    Context.JSON]

/-- The same for an error that is no business error: the loop handles it only
when its text is `BAD_REQUEST`. -/
theorem handleFirst_other (text : String) :
    handleFirst ⟨[GoError.other text], none⟩ [GoError.other text]
      = if text = "BAD_REQUEST" then
          some ⟨[GoError.other text], some (400, some (Body.errorResponse ⟨"BAD_REQUEST"⟩))⟩
        else none := by
  by_cases h : text = "BAD_REQUEST" <;>
    simp [handleFirst, GoError.Error, BadRequest, handleBadRequest, badRequestErrorMessage,
      Context.JSON, h]

/-- The store handler when the service returns an error: the error is
recorded and nothing is written. -/
theorem NewStoreHandler_err {σ : Type} (service : Storer σ) (request : StoreRequest)
    (w w1 : σ) (response : StoreResponse) (err : GoError)
    (h : service.Store request w = some ((response, some err), w1)) :
    NewStoreHandler service (Except.ok request) Context.new w = some (⟨[err], none⟩, w1) := by
  simp [NewStoreHandler, h, Context.new, Context.Error]

/-- The fetch handler when the service returns an error. -/
theorem NewFetchHandler_err {σ : Type} (service : Fetcher σ) (id country : String)
    (w w1 : σ) (response : FetchResponse) (err : GoError)
    (h : service.Fetch id country w = some ((response, some err), w1)) :
    NewFetchHandler service id country Context.new w = some (⟨[err], none⟩, w1) := by
  simp [NewFetchHandler, h, Context.new, Context.Error]

/-- Claim C27: when `Store` or `Fetch` returns a business error, which the
handler records, the middleware answers with the status 422 and, as the
body, that business error unchanged; written as JSON the body has the
message, and the member `fields` with the field violations exactly when
there is one. -/
theorem business_error_answered_422 (e : business.Error) :
    (∀ (σ : Type) (service : Storer σ) (request : StoreRequest) (w w1 : σ)
        (response : StoreResponse),
        service.Store request w = some ((response, some (GoError.business e)), w1) →
        NewMiddleware (NewStoreHandler service (Except.ok request)) Context.new w
          = some (⟨[GoError.business e], some (422, some (Body.businessError e))⟩, w1))
    ∧ (∀ (σ : Type) (service : Fetcher σ) (id country : String) (w w1 : σ)
        (response : FetchResponse),
        service.Fetch id country w = some ((response, some (GoError.business e)), w1) →
        NewMiddleware (NewFetchHandler service id country) Context.new w
          = some (⟨[GoError.business e], some (422, some (Body.businessError e))⟩, w1))
    ∧ (e.Fields = [] →
        e.toJSON = json.Value.obj [("message", json.Value.str e.Message)])
    ∧ (e.Fields ≠ [] →
        e.toJSON = json.Value.obj
          [("fields", json.Value.arr (e.Fields.map business.FieldError.toJSON)),
            ("message", json.Value.str e.Message)]) := by
  refine ⟨?_, ?_, ?_, ?_⟩
  · intro σ service request w w1 response h
    simp only [NewMiddleware, NewStoreHandler_err service request w w1 response _ h,
      handleFirst_business]
  · intro σ service id country w w1 response h
    simp only [NewMiddleware, NewFetchHandler_err service id country w w1 response _ h,
      handleFirst_business]
  · intro h
    simp [business.Error.toJSON, h]
  · intro h
    have hl : e.Fields.length ≠ 0 := fun h0 => h (List.length_eq_zero.mp h0)
    simp [business.Error.toJSON, hl]

/-- Claim C27 on the service of the integration tests: the request without a
description (a validation failure with one violation) and the fetch of an id
that is not stored (TRANSACTION_NOT_FOUND, without the member `fields`). -/
theorem business_error_answered_422_witness :
    NewMiddleware
        (NewStoreHandler ((fixture.service forex.ConversionResult.zero none).storer
          (Date 2023 10 1)) (Except.ok ⟨none, some "2023-05-01", some 100⟩)) Context.new
        (NewInMemoryRepository 0)
      = some (⟨[GoError.business ⟨[⟨"description", "REQUIRED"⟩], "VALIDATION_ERROR"⟩],
          some (422, some (Body.businessError
            ⟨[⟨"description", "REQUIRED"⟩], "VALIDATION_ERROR"⟩))⟩, NewInMemoryRepository 0)
    ∧ NewMiddleware
        (NewFetchHandler (fixture.service forex.ConversionResult.zero none).fetcher
          "sequentialID-1" "United Kingdom") Context.new (NewInMemoryRepository 0)
      = some (⟨[GoError.business ⟨[], "TRANSACTION_NOT_FOUND"⟩],
          some (422, some (Body.businessError ⟨[], "TRANSACTION_NOT_FOUND"⟩))⟩,
          NewInMemoryRepository 0)
    ∧ business.Error.toJSON ⟨[], "TRANSACTION_NOT_FOUND"⟩
      = json.Value.obj [("message", json.Value.str "TRANSACTION_NOT_FOUND")]
    ∧ business.Error.toJSON ⟨[⟨"description", "REQUIRED"⟩], "VALIDATION_ERROR"⟩
      = json.Value.obj
        [("fields", json.Value.arr
            [json.Value.obj [("fieldName", json.Value.str "description"),
              ("reason", json.Value.str "REQUIRED")]]),
          ("message", json.Value.str "VALIDATION_ERROR")] :=
  ⟨(business_error_answered_422 _).1 _ _ ⟨none, some "2023-05-01", some 100⟩
      (NewInMemoryRepository 0) (NewInMemoryRepository 0) StoreResponse.zero rfl,
    (business_error_answered_422 _).2.1 _ _ "sequentialID-1" "United Kingdom"
      (NewInMemoryRepository 0) (NewInMemoryRepository 0) FetchResponse.zero rfl,
    (business_error_answered_422 ⟨[], "TRANSACTION_NOT_FOUND"⟩).2.2.1 rfl,
    (business_error_answered_422 ⟨[⟨"description", "REQUIRED"⟩], "VALIDATION_ERROR"⟩).2.2.2
      (by simp)⟩

/-- Claim C28, amended: when `Store` or `Fetch` returns an error that is no
business error and whose text is not `BAD_REQUEST`, the middleware answers
with the status 500 and the body `ErrorResponse{Message: "SYSTEM_ERROR"}`,
the same for every such text; an error whose text is `BAD_REQUEST` is
answered with the status 400 and the body
`ErrorResponse{Message: "BAD_REQUEST"}`. -/
theorem system_error_answered_500 (text : String) :
    (text ≠ "BAD_REQUEST" →
      (∀ (σ : Type) (service : Storer σ) (request : StoreRequest) (w w1 : σ)
          (response : StoreResponse),
          service.Store request w = some ((response, some (GoError.other text)), w1) →
          NewMiddleware (NewStoreHandler service (Except.ok request)) Context.new w
            = some (⟨[GoError.other text],
                some (500, some (Body.errorResponse ⟨"SYSTEM_ERROR"⟩))⟩, w1))
      ∧ (∀ (σ : Type) (service : Fetcher σ) (id country : String) (w w1 : σ)
          (response : FetchResponse),
          service.Fetch id country w = some ((response, some (GoError.other text)), w1) →
          NewMiddleware (NewFetchHandler service id country) Context.new w
            = some (⟨[GoError.other text],
                some (500, some (Body.errorResponse ⟨"SYSTEM_ERROR"⟩))⟩, w1)))
    ∧ (text = "BAD_REQUEST" →
      (∀ (σ : Type) (service : Storer σ) (request : StoreRequest) (w w1 : σ)
          (response : StoreResponse),
          service.Store request w = some ((response, some (GoError.other text)), w1) →
          NewMiddleware (NewStoreHandler service (Except.ok request)) Context.new w
            = some (⟨[GoError.other text],
                some (400, some (Body.errorResponse ⟨"BAD_REQUEST"⟩))⟩, w1))
      ∧ (∀ (σ : Type) (service : Fetcher σ) (id country : String) (w w1 : σ)
          (response : FetchResponse),
          service.Fetch id country w = some ((response, some (GoError.other text)), w1) →
          NewMiddleware (NewFetchHandler service id country) Context.new w
            = some (⟨[GoError.other text],
                some (400, some (Body.errorResponse ⟨"BAD_REQUEST"⟩))⟩, w1)))
    ∧ ErrorResponse.toJSON ⟨"SYSTEM_ERROR"⟩
      = json.Value.obj [("message", json.Value.str "SYSTEM_ERROR")] := by
  refine ⟨fun hne => ⟨?_, ?_⟩, fun heq => ⟨?_, ?_⟩, rfl⟩
  · intro σ service request w w1 response h
    simp [NewMiddleware, NewStoreHandler_err service request w w1 response _ h,
      handleFirst_other, hne, handleSystemError, systemErrorMessage, Context.JSON]
  · intro σ service id country w w1 response h
    simp [NewMiddleware, NewFetchHandler_err service id country w w1 response _ h,
      handleFirst_other, hne, handleSystemError, systemErrorMessage, Context.JSON]
  · intro σ service request w w1 response h
    simp [NewMiddleware, NewStoreHandler_err service request w w1 response _ h,
      handleFirst_other, heq]
  · intro σ service id country w w1 response h
    simp [NewMiddleware, NewFetchHandler_err service id country w w1 response _ h,
      handleFirst_other, heq]

/-- Claim C28 on a store whose id generator fails with `problem`, and on an
exchange-rate service that fails with `connection refused`. -/
theorem system_error_answered_500_witness :
    "problem" ≠ "BAD_REQUEST"
    ∧ NewMiddleware
        (NewStoreHandler
          (RepositoryService.storer
            (⟨InMemoryRepository.repository fixture.alwaysErrorIDGenerator,
              fixture.cannedForEx forex.ConversionResult.zero none⟩ :
              RepositoryService (InMemoryRepository Unit)) (Date 2023 10 1))
          (Except.ok ⟨some "A holiday", some "2023-01-02", some 100⟩))
        Context.new (NewInMemoryRepository ())
      = some (⟨[GoError.other "problem"],
          some (500, some (Body.errorResponse ⟨"SYSTEM_ERROR"⟩))⟩, NewInMemoryRepository ()) :=
  ⟨by decide,
    ((system_error_answered_500 "problem").1 (by decide)).1 _ _
      ⟨some "A holiday", some "2023-01-02", some 100⟩ (NewInMemoryRepository ())
      (NewInMemoryRepository ()) StoreResponse.zero rfl⟩

set_option maxRecDepth 8000 in
/-- Claim C28 as stated fails: a store whose id generator fails with an
error of the text `BAD_REQUEST`, which is no business error, makes `Store`
return that error for a valid request, and the middleware answers with the
status 400 and the body `ErrorResponse{Message: "BAD_REQUEST"}`, not with 500
and `SYSTEM_ERROR`. -/
theorem system_error_of_text_BAD_REQUEST_answered_400 :
    (RepositoryService.Store
        (⟨InMemoryRepository.repository (fixture.errorIDGenerator "BAD_REQUEST"),
          fixture.cannedForEx forex.ConversionResult.zero none⟩ :
          RepositoryService (InMemoryRepository Unit)) (Date 2023 10 1)
        ⟨some "A holiday", some "2023-01-02", some 100⟩ (NewInMemoryRepository ())).err
      = some (GoError.other "BAD_REQUEST")
    ∧ (NewMiddleware
        (NewStoreHandler
          (RepositoryService.storer
            (⟨InMemoryRepository.repository (fixture.errorIDGenerator "BAD_REQUEST"),
              fixture.cannedForEx forex.ConversionResult.zero none⟩ :
              RepositoryService (InMemoryRepository Unit)) (Date 2023 10 1))
          (Except.ok ⟨some "A holiday", some "2023-01-02", some 100⟩))
        Context.new (NewInMemoryRepository ())).map Prod.fst
      = some ⟨[GoError.other "BAD_REQUEST"],
          some (400, some (Body.errorResponse ⟨"BAD_REQUEST"⟩))⟩ := by
  decide

end errorhandling

/-! ## The required string -/

namespace validation

open business

/-- Claim C33, amended: `IsRequiredString` returns the `REQUIRED` field error
for the given field name exactly when the value is `nil`; for every string
that is present, the empty string too, it returns `nil`. -/
theorem IsRequiredString_nil_only (fieldName : String) (value : Option String) :
    IsRequiredString fieldName value
      = match value with
        | none => some ⟨fieldName, "REQUIRED"⟩
        | some _ => none := by
  cases value <;> simp [IsRequiredString, NewFieldError, Required]

/-- Claim C33 as stated fails on the empty string, the case of the test: the
value is present and `IsRequiredString` returns `nil`. -/
theorem IsRequiredString_empty_string :
    IsRequiredString "*field-name*" (some "") = none
    ∧ IsRequiredString "*field-name*" none = some ⟨"*field-name*", "REQUIRED"⟩ := by
  decide

end validation

/-! ## From an accepted request to the entity -/

namespace transaction

open business GoTime

/-- Claim C38: for every request that passes Store validation the three
fields are present and the date parses, so `mapToEntity` returns without a
run-time panic and without error the entity with the empty ID, the
description and the amount of the request and the parsed date, which is a
day of the calendar at midnight UTC whose text is the date of the request;
`Store` does not panic on it. -/
theorem mapToEntity_of_valid (now : Time) (req : StoreRequest)
    (h : storeValidator.validate now req = none) :
    (∃ d t a p, req = ⟨some d, some t, some a⟩ ∧ Parse t = some p
      ∧ mapToEntity req = some (⟨"", d, p, a⟩, none)
      ∧ p.nsec = 0 ∧ p.offset = 0 ∧ p.sec % 86400 = 0 ∧ p.Format = t)
    ∧ ∀ (σ : Type) (s : RepositoryService σ) (w : σ), (s.Store now req w).panicked = false := by
  obtain ⟨d, t, a, p, rfl, _, _, hp, _, _⟩ := (validate_eq_none_iff now req).mp h
  refine ⟨⟨d, t, a, p, rfl, hp, mapToEntity_valid d t a p hp, ?_, ?_, ?_, Format_Parse t p hp⟩, ?_⟩
  · obtain ⟨_, _, _, _, _, _, _, _, _, _, _, _, _, _, _, _, _, _, _, _, _, ht⟩ := Parse_some t p hp
    rw [ht]; rfl
  · obtain ⟨_, _, _, _, _, _, _, _, _, _, _, _, _, _, _, _, _, _, _, _, _, ht⟩ := Parse_some t p hp
    rw [ht]; rfl
  · obtain ⟨_, _, _, _, _, _, _, _, _, _, _, _, _, _, _, _, _, _, _, _, _, ht⟩ := Parse_some t p hp
    rw [ht]
    simp only [Date, secondsPerDay]
    exact Int.mul_emod_left _ _
  · intro σ s w
    simp only [RepositoryService.Store, h, mapToEntity_valid d t a p hp]
    split <;> rfl

set_option maxRecDepth 8000 in
/-- Claim C38 on the request of the integration test. -/
theorem mapToEntity_of_valid_witness :
    storeValidator.validate (Date 2023 10 1)
        ⟨some "A holiday somewhere nice", some "2023-05-01", some 100⟩ = none
    ∧ mapToEntity ⟨some "A holiday somewhere nice", some "2023-05-01", some 100⟩
      = some (⟨"", "A holiday somewhere nice", Date 2023 5 1, 100⟩, none)
    ∧ ((∃ d t a p, (⟨some "A holiday somewhere nice", some "2023-05-01", some 100⟩
          : StoreRequest) = ⟨some d, some t, some a⟩ ∧ Parse t = some p
        ∧ mapToEntity ⟨some "A holiday somewhere nice", some "2023-05-01", some 100⟩
          = some (⟨"", d, p, a⟩, none)
        ∧ p.nsec = 0 ∧ p.offset = 0 ∧ p.sec % 86400 = 0 ∧ p.Format = t)
      ∧ ∀ (σ : Type) (s : RepositoryService σ) (w : σ),
        (s.Store (Date 2023 10 1)
          ⟨some "A holiday somewhere nice", some "2023-05-01", some 100⟩ w).panicked = false) :=
  ⟨by decide, by decide,
    mapToEntity_of_valid (Date 2023 10 1)
      ⟨some "A holiday somewhere nice", some "2023-05-01", some 100⟩ (by decide)⟩

/-! ## The order of the violations -/

/-- Claim C31: for a request with its three fields present and a clock that
is not before the zero time, Store validation returns the violations of the
description, then of the date, then of the amount, at most one for each:
`MIN_LENGTH` or else `MAX_LENGTH`; `DATE_BAD_FORMAT` for a date that does not
parse, and only then `DATE_IN_FUTURE` for a parsed date after the clock;
`ZERO_VALUE`. The field names of the violations form a sublist of
`description`, `transactionDate`, `amountInCents`. -/
theorem storeValidator_validate_order (now : Time) (d t : String) (a : Int)
    (hnow : Time.zero.After now = false) :
    storeValidator.validate now ⟨some d, some t, some a⟩ = checkForErrors
      ((if validation.len d < 1 then [⟨"description", "MIN_LENGTH"⟩]
          else if validation.len d > 50 then [⟨"description", "MAX_LENGTH"⟩] else [])
        ++ (match Parse t with
            | none => [⟨"transactionDate", "DATE_BAD_FORMAT"⟩]
            | some p =>
                if p.After now = true then [⟨"transactionDate", "DATE_IN_FUTURE"⟩] else [])
        ++ (if a = 0 then [⟨"amountInCents", "ZERO_VALUE"⟩] else []))
    ∧ ∀ fields, storeValidator.validate now ⟨some d, some t, some a⟩
          = some (GoError.business ⟨fields, "VALIDATION_ERROR"⟩) →
        (fields.map FieldError.FieldName).Sublist
          ["description", "transactionDate", "amountInCents"] := by
  have e : storeValidator.validate now ⟨some d, some t, some a⟩ = checkForErrors
      ((if validation.len d < 1 then [⟨"description", "MIN_LENGTH"⟩]
          else if validation.len d > 50 then [⟨"description", "MAX_LENGTH"⟩] else [])
        ++ (match Parse t with
            | none => [⟨"transactionDate", "DATE_BAD_FORMAT"⟩]
            | some p =>
                if p.After now = true then [⟨"transactionDate", "DATE_IN_FUTURE"⟩] else [])
        ++ (if a = 0 then [⟨"amountInCents", "ZERO_VALUE"⟩] else [])) := by
    rw [validate_present, correctness_eq, hnow]
    congr 2
    · congr 1
      by_cases h1 : validation.len d < 1
      · have h2 : ¬ validation.len d > 50 := by omega
        simp [h1, h2]
      · simp [h1]
  refine ⟨e, ?_⟩
  intro fields hf
  rw [e] at hf
  have hfields : ∀ L : List FieldError,
      checkForErrors L = some (GoError.business ⟨fields, "VALIDATION_ERROR"⟩) → fields = L := by
    intro L hL
    cases L with
    | nil => rw [checkForErrors_nil] at hL; exact absurd hL (by simp)
    | cons f fs =>
      rw [checkForErrors_cons] at hL
      simp only [Option.some.injEq, GoError.business.injEq, Error.mk.injEq, and_true] at hL
      exact hL.symm
  rw [hfields _ hf]
  cases Parse t with
  | none => simp only []; split_ifs <;> decide
  | some p => simp only []; split_ifs <;> decide

set_option maxRecDepth 8000 in
/-- Claim C31 on a request with the empty description, a date that does not
parse and the amount 0. -/
theorem storeValidator_validate_order_witness :
    Time.zero.After (Date 2023 10 1) = false
    ∧ storeValidator.validate (Date 2023 10 1) ⟨some "", some "abcd", some 0⟩
      = some (GoError.business
        ⟨[⟨"description", "MIN_LENGTH"⟩, ⟨"transactionDate", "DATE_BAD_FORMAT"⟩,
          ⟨"amountInCents", "ZERO_VALUE"⟩], "VALIDATION_ERROR"⟩)
    ∧ ([(⟨"description", "MIN_LENGTH"⟩ : FieldError), ⟨"transactionDate", "DATE_BAD_FORMAT"⟩,
          ⟨"amountInCents", "ZERO_VALUE"⟩].map FieldError.FieldName).Sublist
        ["description", "transactionDate", "amountInCents"] :=
  ⟨by decide, by decide,
    (storeValidator_validate_order (Date 2023 10 1) "" "abcd" 0 (by decide)).2 _ (by decide)⟩

end transaction

/-! ## Parsing the text of a date, and back -/

namespace GoTime

theorem digitChar_isDigit (n : Nat) :
    isDigitChar (digitChar n) = true ∧ digitVal (digitChar n) = n % 10 := by
  have h : n % 10 < 10 := Nat.mod_lt _ (by norm_num)
  simp only [digitChar]
  generalize n % 10 = k at h
  interval_cases k <;> decide

/-- The text of a day of the calendar of a year from 0 to 9999 parses to that
day at midnight UTC. -/
theorem Parse_Format_Date (Y : Int) (m : Nat) (d : Int) (hm1 : 1 ≤ m) (hm2 : m ≤ 12)
    (hd1 : 1 ≤ d) (hd2 : d ≤ daysIn m Y) (hy0 : 0 ≤ Y) (hy : Y ≤ 9999) :
    Parse (Date Y m d).Format = some (Date Y m d) := by
  rw [Format_Date Y m d hm1 hm2 hd1 hd2 hy0 hy]
  have hd31 := (daysIn_le m Y hm1 hm2).2
  obtain ⟨y, rfl⟩ := Int.eq_ofNat_of_zero_le hy0
  obtain ⟨k, rfl⟩ := Int.eq_ofNat_of_zero_le (le_trans (by norm_num) hd1 : (0 : Int) ≤ d)
  have ey : digitVal (digitChar (y / 1000)) * 1000 + digitVal (digitChar (y / 100)) * 100
      + digitVal (digitChar (y / 10)) * 10 + digitVal (digitChar y) = y := by
    simp only [(digitChar_isDigit _).2]; omega
  have em : digitVal (digitChar (m / 10)) * 10 + digitVal (digitChar m) = m := by
    simp only [(digitChar_isDigit _).2]; omega
  have ek : digitVal (digitChar (k / 10)) * 10 + digitVal (digitChar k) = k := by
    simp only [(digitChar_isDigit _).2]; omega
  have hm0 : ¬ (m ≤ 0 ∨ 12 < m) := by omega
  have hk0 : ¬ ((k : Int) < 1 ∨ (k : Int) > daysIn m y) := by omega
  simp only [Parse, Int.toNat_ofNat, getyear4, getnum2, skipDash, (digitChar_isDigit _).1,
    and_self, if_true, ey, em, ek, if_neg hm0, ne_eq, not_true_eq_false, if_false, if_neg hk0]

end GoTime

namespace validation

open business GoTime

/-- Claim C32: `IsDate` and the format of a date. For every text that
`IsDate` accepts, the returned time is a day of the calendar, of a year from
0 to 9999, at midnight UTC, and formatting it with the layout `2006-01-02`,
as `FormattedDate` does, gives the text back. The texts accepted are exactly
the texts of these days: every other text is rejected with `DATE_BAD_FORMAT`
and the zero time, among them the empty text, `123456` and `2023-10-32`. An
absent value gives the zero time and no error. -/
theorem IsDate_roundtrip (fieldName : String) :
    (∀ (s : String) (t : Time), IsDate fieldName (some s) = (t, none) →
      t.Format = s ∧ t.nsec = 0 ∧ t.offset = 0 ∧ t.sec % 86400 = 0
      ∧ ∃ (Y : Int) (m : Nat) (d : Int), 0 ≤ Y ∧ Y ≤ 9999 ∧ 1 ≤ m ∧ m ≤ 12 ∧ 1 ≤ d
          ∧ d ≤ daysIn m Y ∧ t = Date Y m d ∧ t.civilDate = (Y, m, d))
    ∧ (∀ (Y : Int) (m : Nat) (d : Int), 0 ≤ Y → Y ≤ 9999 → 1 ≤ m → m ≤ 12 → 1 ≤ d →
        d ≤ daysIn m Y →
        IsDate fieldName (some (Date Y m d).Format) = (Date Y m d, none))
    ∧ (∀ s : String,
        (¬ ∃ (Y : Int) (m : Nat) (d : Int), 0 ≤ Y ∧ Y ≤ 9999 ∧ 1 ≤ m ∧ m ≤ 12 ∧ 1 ≤ d
          ∧ d ≤ daysIn m Y ∧ (Date Y m d).Format = s) →
        IsDate fieldName (some s) = (Time.zero, some ⟨fieldName, "DATE_BAD_FORMAT"⟩))
    ∧ IsDate fieldName (some "") = (Time.zero, some ⟨fieldName, "DATE_BAD_FORMAT"⟩)
    ∧ IsDate fieldName (some "123456") = (Time.zero, some ⟨fieldName, "DATE_BAD_FORMAT"⟩)
    ∧ IsDate fieldName (some "2023-10-32") = (Time.zero, some ⟨fieldName, "DATE_BAD_FORMAT"⟩)
    ∧ IsDate fieldName none = (Time.zero, none) := by
  have hsome : ∀ (s : String) (t : Time), Parse s = some t →
      t.Format = s ∧ t.nsec = 0 ∧ t.offset = 0 ∧ t.sec % 86400 = 0
      ∧ ∃ (Y : Int) (m : Nat) (d : Int), 0 ≤ Y ∧ Y ≤ 9999 ∧ 1 ≤ m ∧ m ≤ 12 ∧ 1 ≤ d
          ∧ d ≤ daysIn m Y ∧ t = Date Y m d ∧ t.civilDate = (Y, m, d) := by
    intro s t hp
    obtain ⟨a, b, c, d, e, f, g, k, _, ha, hb, hc, hd, he, hf, hg, hk, hm1, hm2, hd1, hd2, ht⟩ :=
      Parse_some s t hp
    have la := digitVal_le a ha
    have lb := digitVal_le b hb
    have lc := digitVal_le c hc
    have ld := digitVal_le d hd
    refine ⟨Format_Parse s t hp, ?_, ?_, ?_, _, _, _, by omega, by omega, hm1, hm2, hd1, hd2,
      ?_, ?_⟩
    · rw [ht]; rfl
    · rw [ht]; rfl
    · rw [ht]
      simp only [Date, secondsPerDay]
      exact Int.mul_emod_left _ _
    · exact ht
    · rw [ht]
      exact civilDate_Date _ _ _ hm1 hm2 hd1 hd2
  have hnone : ∀ s : String, Parse s = none →
      IsDate fieldName (some s) = (Time.zero, some ⟨fieldName, "DATE_BAD_FORMAT"⟩) := by
    intro s hp
    simp [IsDate, parseDate, hp, NewFieldError, DateBadFormat]
  refine ⟨?_, ?_, ?_, hnone _ (by decide), hnone _ (by decide), hnone _ (by decide), rfl⟩
  · intro s t h
    cases hp : Parse s with
    | none => rw [hnone s hp] at h; simp at h
    | some p =>
      have e : IsDate fieldName (some s) = (p, none) := by simp [IsDate, parseDate, hp]
      rw [e] at h
      simp only [Prod.mk.injEq, and_true] at h
      subst h
      exact hsome s p hp
  · intro Y m d hy0 hy hm1 hm2 hd1 hd2
    simp [IsDate, parseDate, Parse_Format_Date Y m d hm1 hm2 hd1 hd2 hy0 hy]
  · intro s hs
    cases hp : Parse s with
    | none => exact hnone s hp
    | some p =>
      obtain ⟨hf, _, _, _, Y, m, d, h1, h2, h3, h4, h5, h6, ht, _⟩ := hsome s p hp
      exact absurd ⟨Y, m, d, h1, h2, h3, h4, h5, h6, by rw [← ht]; exact hf⟩ hs

set_option maxRecDepth 8000 in
/-- Claim C32 on the date of the test, 2023-10-25. -/
theorem IsDate_roundtrip_witness :
    IsDate "*field-name*" (some "2023-10-25") = (Date 2023 10 25, none)
    ∧ (Date 2023 10 25).Format = "2023-10-25"
    ∧ IsDate "*field-name*" (some (Date 2023 10 25).Format) = (Date 2023 10 25, none) :=
  ⟨by decide,
    ((IsDate_roundtrip "*field-name*").1 "2023-10-25" (Date 2023 10 25) (by decide)).1,
    (IsDate_roundtrip "*field-name*").2.1 2023 10 25 (by decide) (by decide) (by decide)
      (by decide) (by decide) (by decide)⟩

end validation

/-! ## The cutoff is about half a year before the date -/

namespace GoTime

/-- The seconds of a date at midnight UTC with a month from 1 to 12. -/
theorem Date_sec (Y : Int) (m : Nat) (d : Int) (hm1 : 1 ≤ m) (hm2 : m ≤ 12) :
    (Date Y m d).sec
      = (daysSinceEpoch Y + daysBefore (m - 1)
          + (if isLeap Y = true ∧ 3 ≤ m then 1 else 0) + (d - 1)) * 86400 := by
  have h1 : ((m : Int) - 1) / 12 = 0 := by omega
  have h2 : ((m : Int) - 1) % 12 = (m : Int) - 1 := by omega
  have h3 : ((m : Int) - 1).toNat = m - 1 := by omega
  have h4 : ((m : Int) - 1 ≥ 2) ↔ 3 ≤ m := by omega
  simp only [Date, h1, h2, h3, h4, add_zero, secondsPerDay]

/-- The days of the year before `Y`. -/
theorem daysSinceEpoch_pred (Y : Int) :
    daysSinceEpoch Y = daysSinceEpoch (Y - 1) + (if isLeap (Y - 1) = true then 366 else 365) := by
  have hl := isLeap_iff (Y - 1)
  simp only [daysSinceEpoch]
  by_cases h : isLeap (Y - 1) = true
  · rw [if_pos h]
    have := hl.mp h
    omega
  · rw [if_neg h]
    have : ¬ ((Y - 1) % 4 = 0 ∧ ((Y - 1) % 100 ≠ 0 ∨ (Y - 1) % 400 = 0)) := fun c => h (hl.mpr c)
    omega

end GoTime

namespace transaction

open GoTime

/-- Claim C36: for every day of the calendar at midnight UTC, the cutoff
`monthsOlderThan(date, 6)` is a whole number of days before the date, at
least 181 and at most 184, so strictly earlier, also when the day of the
month does not exist six months earlier; 2023-08-31 gives 2023-03-03, 181
days earlier. -/
theorem monthsOlderThan_six_days (Y : Int) (m : Nat) (d : Int) (hm1 : 1 ≤ m) (hm2 : m ≤ 12)
    (hd1 : 1 ≤ d) (hd2 : d ≤ daysIn m Y) :
    (∃ k : Int, 181 ≤ k ∧ k ≤ 184
      ∧ (monthsOlderThan (Date Y m d) 6).sec + k * 86400 = (Date Y m d).sec)
    ∧ (monthsOlderThan (Date Y m d) 6).nsec = 0
    ∧ (monthsOlderThan (Date Y m d) 6).offset = 0
    ∧ (Date Y m d).After (monthsOlderThan (Date Y m d) 6) = true
    ∧ monthsOlderThan (Date 2023 8 31) 6 = Date 2023 3 3
    ∧ (monthsOlderThan (Date 2023 8 31) 6).Format = "2023-03-03"
    ∧ (monthsOlderThan (Date 2023 8 31) 6).sec + 181 * 86400 = (Date 2023 8 31).sec := by
  have e := (monthsOlderThan_six Y m d hm1 hm2 hd1 hd2).1
  have hk : ∃ k : Int, 181 ≤ k ∧ k ≤ 184
      ∧ (monthsOlderThan (Date Y m d) 6).sec + k * 86400 = (Date Y m d).sec := by
    rw [e]
    have hp := daysSinceEpoch_pred Y
    have hl := isLeap_iff Y
    have hl1 := isLeap_iff (Y - 1)
    by_cases h6 : m ≤ 6
    · simp only [h6, if_true]
      rw [Date_sec Y m d hm1 hm2, Date_sec (Y - 1) (m + 6) d (by omega) (by omega), hp]
      refine ⟨(if isLeap (Y - 1) = true then 366 else 365) + daysBefore (m - 1)
          + (if isLeap Y = true ∧ 3 ≤ m then 1 else 0) - daysBefore (m + 6 - 1)
          - (if isLeap (Y - 1) = true ∧ 3 ≤ m + 6 then 1 else 0), ?_, ?_, by ring⟩
      · interval_cases m <;> simp [daysBefore] <;> split_ifs <;> omega
      · interval_cases m <;> simp [daysBefore] <;> split_ifs <;> omega
    · simp only [h6, if_false]
      rw [Date_sec Y m d hm1 hm2, Date_sec Y (m - 6) d (by omega) (by omega)]
      refine ⟨daysBefore (m - 1) + (if isLeap Y = true ∧ 3 ≤ m then 1 else 0)
          - daysBefore (m - 6 - 1) - (if isLeap Y = true ∧ 3 ≤ m - 6 then 1 else 0), ?_, ?_,
          by ring⟩
      · interval_cases m <;> simp [daysBefore] <;> split_ifs <;> omega
      · interval_cases m <;> simp [daysBefore] <;> split_ifs <;> omega
  refine ⟨hk, ?_, ?_, ?_, by decide, by decide, by decide⟩
  · rw [e]; rfl
  · rw [e]; rfl
  · obtain ⟨k, h1, _, h3⟩ := hk
    simp only [Time.After, Bool.or_eq_true, decide_eq_true_eq]
    left
    omega

/-- Claim C36 on the date 2024-02-29. -/
theorem monthsOlderThan_six_days_witness :
    (1 : Int) ≤ 29 ∧ (29 : Int) ≤ daysIn 2 2024
    ∧ ∃ k : Int, 181 ≤ k ∧ k ≤ 184
      ∧ (monthsOlderThan (Date 2024 2 29) 6).sec + k * 86400 = (Date 2024 2 29).sec :=
  ⟨by decide, by decide,
    (monthsOlderThan_six_days 2024 2 29 (by decide) (by decide) (by decide) (by decide)).1⟩

end transaction

/-! ## The sign of the amount and of the rate -/

namespace big

theorem round_ne_zero (m : Nat) (e : Int) (h : m ≠ 0) : (round m e).1 ≠ 0 := by
  by_cases hlt : m < 2 ^ 53
  · rw [round_small m e hlt]; exact h
  · have hge : 2 ^ 53 ≤ m := Nat.le_of_not_lt hlt
    obtain ⟨_, _, h3⟩ := bitLen_gt m hge
    have hq : 2 ^ 52 ≤ m / 2 ^ (bitLen m - 53) :=
      (Nat.le_div_iff_mul_le (Nat.two_pow_pos _)).mpr h3
    simp only [round, if_neg hlt]
    split <;> omega

/-- The low 64 bits of the negated number are those of the negated low 64
bits; short of the least `int64` this is the negated number. -/
theorem Int64_neg (x : ℤ) :
    Int64 (-x) = Int64 (-Int64 x)
    ∧ (Int64 x ≠ -9223372036854775808 → Int64 (-x) = -Int64 x) := by
  simp only [Int64]
  constructor <;> omega

/-- Flipping the sign of the first factor flips the sign of the product. -/
theorem Mul_flip_left (neg : Bool) (m : Nat) (e : ℤ) (y : Float) :
    Float.Mul ⟨!neg, m, e⟩ y
      = ⟨!(Float.Mul ⟨neg, m, e⟩ y).neg, (Float.Mul ⟨neg, m, e⟩ y).mant,
          (Float.Mul ⟨neg, m, e⟩ y).exp⟩ := by
  simp only [Float.Mul]
  split <;> cases neg <;> cases y.neg <;> rfl

/-- Flipping the sign of the second factor flips the sign of the product. -/
theorem Mul_flip_right (x : Float) (neg : Bool) (m : Nat) (e : ℤ) :
    Float.Mul x ⟨!neg, m, e⟩
      = ⟨!(Float.Mul x ⟨neg, m, e⟩).neg, (Float.Mul x ⟨neg, m, e⟩).mant,
          (Float.Mul x ⟨neg, m, e⟩).exp⟩ := by
  simp only [Float.Mul]
  split <;> cases neg <;> cases x.neg <;> rfl

end big

namespace forex

/-- The conversion `float64(-a)` is `-float64(a)`. -/
theorem ofInt_neg (a : ℤ) (ha : a ≠ 0) : Float64.ofInt (-a) = (Float64.ofInt a).negate := by
  simp only [Float64.ofInt, Float64.negate, Int.natAbs_neg]
  have h : decide (-a < 0) = !decide (a < 0) := by
    by_cases h1 : a < 0
    · have h2 : ¬ (-a < 0) := by omega
      simp [h1, h2]
    · have h2 : -a < 0 := by omega
      simp [h1, h2]
  rw [h]

/-- Flipping the sign of a value flips the sign of the integer it is rounded
to. -/
theorem roundToNearestBigInt_flip (neg : Bool) (m : Nat) (e : ℤ) :
    roundToNearestBigInt ⟨!neg, m, e⟩ = -roundToNearestBigInt ⟨neg, m, e⟩ := by
  by_cases hm0 : m = 0
  · subst hm0
    rw [roundToNearestBigInt_zero, roundToNearestBigInt_zero]; rfl
  · rw [roundToNearestBigInt_mk _ m e hm0, roundToNearestBigInt_mk _ m e hm0,
      big.Add_same_sign _ m 1 e (-1) hm0 (by norm_num),
      big.Add_same_sign _ m 1 e (-1) hm0 (by norm_num), big.truncate_mk, big.truncate_mk]
    cases neg <;>
      simp only [Bool.not_false, Bool.not_true, if_true, Bool.false_eq_true, if_false] <;> ring

/-- The big integer before the conversion to `int` is negated with the
amount and with the rate. -/
theorem rounded_product_neg (a : ℤ) (r : Float64) :
    roundToNearestBigInt ((big.NewFloat (Float64.ofInt (-a))).Mul (big.NewFloat r))
      = -roundToNearestBigInt ((big.NewFloat (Float64.ofInt a)).Mul (big.NewFloat r))
    ∧ roundToNearestBigInt ((big.NewFloat (Float64.ofInt a)).Mul (big.NewFloat r.negate))
      = -roundToNearestBigInt ((big.NewFloat (Float64.ofInt a)).Mul (big.NewFloat r)) := by
  constructor
  · by_cases ha : a = 0
    · subst ha
      have h0 : Float64.ofInt 0 = ⟨false, 0, 0⟩ := by decide
      simp only [neg_zero, h0, big.NewFloat, big.Float.Mul, true_or, if_true,
        roundToNearestBigInt_zero]
    · rw [ofInt_neg a ha]
      simp only [Float64.negate, big.NewFloat]
      rw [big.Mul_flip_left, roundToNearestBigInt_flip]
  · simp only [Float64.negate, big.NewFloat]
    rw [big.Mul_flip_right, roundToNearestBigInt_flip]

/-- Claim C34: the conversion is symmetric about zero. For every amount and
every finite rate, negating the amount or the rate negates the big integer
that `roundToNearestBigInt` returns (the offset of one half takes the sign of
the product), so `Convert(-a, r)` and `Convert(a, -r)` are `-Convert(a, r)`
as Go computes it on `int`, and are the negated number whenever
`Convert(a, r)` is not the least `int`. -/
theorem Convert_symmetric (a : ℤ) (r : Float64) :
    Converter.Convert (-a) r = big.Int64 (-Converter.Convert a r)
    ∧ Converter.Convert a r.negate = big.Int64 (-Converter.Convert a r)
    ∧ (Converter.Convert a r ≠ -9223372036854775808 →
        Converter.Convert (-a) r = -Converter.Convert a r
        ∧ Converter.Convert a r.negate = -Converter.Convert a r) := by
  obtain ⟨h1, h2⟩ := rounded_product_neg a r
  have e : ∀ (b : ℤ) (q : Float64), Converter.Convert b q
      = big.Int64 (roundToNearestBigInt
          ((big.NewFloat (Float64.ofInt b)).Mul (big.NewFloat q))) := fun _ _ => rfl
  rw [e (-a) r, e a r.negate, e a r, h1, h2]
  exact ⟨(big.Int64_neg _).1, (big.Int64_neg _).1,
    fun h => ⟨(big.Int64_neg _).2 h, (big.Int64_neg _).2 h⟩⟩

set_option maxRecDepth 8000 in
/-- Claim C34 on the rows `big` and `big negative` of the test table, and on
the rate 0.745. -/
theorem Convert_symmetric_witness :
    Converter.Convert 1000000000 (Float64.ofConst false 1000000 1) ≠ -9223372036854775808
    ∧ Converter.Convert (-1000000000) (Float64.ofConst false 1000000 1)
      = -Converter.Convert 1000000000 (Float64.ofConst false 1000000 1)
    ∧ Converter.Convert 1000000000 (Float64.ofConst false 1000000 1).negate
      = -Converter.Convert 1000000000 (Float64.ofConst false 1000000 1)
    ∧ Converter.Convert (-25) (Float64.ofConst false 745 1000) = -19 :=
  ⟨by decide,
    ((Convert_symmetric 1000000000 (Float64.ofConst false 1000000 1)).2.2 (by decide)).1,
    ((Convert_symmetric 1000000000 (Float64.ofConst false 1000000 1)).2.2 (by decide)).2,
    by decide⟩

end forex

/-! ## The conversion never fails on a finite rate -/

namespace big

theorem bitLen_le (n k : Nat) (h : n < 2 ^ k) : bitLen n ≤ k := by
  by_cases h0 : n = 0
  · subst h0; simp [bitLen, bitLenFuel]
  · have h1 := (bitLenFuel_spec n n (le_refl n)).2 h0
    have h2 : 2 ^ (bitLen n - 1) < 2 ^ k := lt_of_le_of_lt h1 h
    have h3 := (Nat.pow_lt_pow_iff_right (by norm_num : 1 < 2)).mp h2
    omega

/-- The exponent of a rounded mantissa lies between the exponent and the
exponent plus the bit length. -/
theorem round_exp_bounds (m : Nat) (e : ℤ) :
    e ≤ (round m e).2 ∧ (round m e).2 ≤ e + bitLen m := by
  by_cases hlt : m < 2 ^ 53
  · rw [round_small m e hlt]
    constructor <;> omega
  · simp only [round, if_neg hlt]
    constructor <;> omega

/-- Within a wide margin of the exponent range `setExpAndRound` rounds and
returns a finite value. -/
theorem setExpAndRound_finite (neg : Bool) (m : Nat) (e : ℤ) (h1 : -1073741824 ≤ e)
    (h2 : e + bitLen m ≤ 1073741824) :
    setExpAndRound neg m e = GoFloat.finite ⟨neg, (round m e).1, (round m e).2⟩ := by
  have hb := round_exp_bounds m e
  have hq : bitLen (round m e).1 ≤ 54 :=
    bitLen_le _ 54 (lt_of_le_of_lt (round_le m e) (by norm_num))
  have c1 : ¬ ((bitLen m : ℤ) + e < MinExp) := by simp only [MinExp]; omega
  have c2 : ¬ ((bitLen m : ℤ) + e > MaxExp) := by simp only [MaxExp]; omega
  have c3 : ¬ ((bitLen (round m e).1 : ℤ) + (round m e).2 > MaxExp) := by
    simp only [MaxExp]; omega
  simp only [setExpAndRound, if_neg c1, if_neg c2, if_neg c3]

/-- The product of two finite values of at most 64 bits and of exponents
within a wide margin is finite: the `Mul` of the finite values. -/
theorem Mul_finite (x y : Float) (hx : x.mant < 2 ^ 64) (hy : y.mant < 2 ^ 64)
    (hx1 : -1048576 ≤ x.exp) (hx2 : x.exp ≤ 1048576) (hy1 : -1048576 ≤ y.exp)
    (hy2 : y.exp ≤ 1048576) :
    GoFloat.Mul (GoFloat.finite x) (GoFloat.finite y) = some (GoFloat.finite (x.Mul y)) := by
  by_cases hz : x.mant = 0 ∨ y.mant = 0
  · simp only [GoFloat.Mul, Float.Mul, if_pos hz]
  · have hb : bitLen (x.mant * y.mant) ≤ 128 := by
      apply bitLen_le
      calc x.mant * y.mant < 2 ^ 64 * 2 ^ 64 :=
            Nat.mul_lt_mul_of_lt_of_le hx (Nat.le_of_lt hy) (by norm_num)
        _ = 2 ^ 128 := by norm_num
    simp only [GoFloat.Mul, Float.Mul, if_neg hz]
    rw [setExpAndRound_finite _ _ _ (by omega) (by omega)]

/-- The sum of two non-zero finite values of the same sign, of at most 64
bits and of exponents within a wide margin, is finite: the `Add` of the
finite values. -/
theorem Add_finite (neg : Bool) (m1 m2 : Nat) (e1 e2 : ℤ) (h1 : m1 ≠ 0) (h2 : m2 ≠ 0)
    (hm1 : m1 < 2 ^ 64) (hm2 : m2 < 2 ^ 64) (he1 : -1048576 ≤ e1) (he1' : e1 ≤ 1048576)
    (he2 : -1048576 ≤ e2) (he2' : e2 ≤ 1048576) :
    GoFloat.Add (GoFloat.finite ⟨neg, m1, e1⟩) (GoFloat.finite ⟨neg, m2, e2⟩)
      = some (GoFloat.finite (Float.Add ⟨neg, m1, e1⟩ ⟨neg, m2, e2⟩)) := by
  have hz : ¬ (m1 = 0 ∨ m2 = 0) := by omega
  rw [Add_same_sign neg m1 m2 e1 e2 h1 h2]
  simp only [GoFloat.Add, if_neg hz]
  generalize hj1 : (e1 - min e1 e2).toNat = j1
  generalize hj2 : (e2 - min e1 e2).toNat = j2
  have hp1 : 0 < m1 * 2 ^ j1 := Nat.mul_pos (Nat.pos_of_ne_zero h1) (Nat.two_pow_pos _)
  have a1 : m1 * 2 ^ j1 < 2 ^ 64 * 2 ^ max j1 j2 :=
    Nat.mul_lt_mul_of_lt_of_le hm1
      (Nat.pow_le_pow_right (by norm_num) (le_max_left _ _)) (Nat.two_pow_pos _)
  have a2 : m2 * 2 ^ j2 < 2 ^ 64 * 2 ^ max j1 j2 :=
    Nat.mul_lt_mul_of_lt_of_le hm2
      (Nat.pow_le_pow_right (by norm_num) (le_max_right _ _)) (Nat.two_pow_pos _)
  have a3 : 2 ^ (65 + max j1 j2) = 2 * (2 ^ 64 * 2 ^ max j1 j2) := by
    rw [pow_add]; norm_num; ring
  have hmax : (max j1 j2 : ℤ) ≤ 2097152 := by
    have : (j1 : ℤ) ≤ 2097152 := by omega
    have : (j2 : ℤ) ≤ 2097152 := by omega
    omega
  have he0 : -1048576 ≤ min e1 e2 ∧ min e1 e2 ≤ 1048576 := by
    constructor <;> omega
  generalize min e1 e2 = e0 at he0 ⊢
  generalize m1 * 2 ^ j1 = A at hp1 a1 ⊢
  generalize m2 * 2 ^ j2 = B at a2 ⊢
  have hb : bitLen (A + B) ≤ 65 + max j1 j2 := by
    apply bitLen_le
    omega
  have hs : (if neg = true then -(A : ℤ) else (A : ℤ))
      + (if neg = true then -(B : ℤ) else (B : ℤ)) ≠ 0 := by
    cases neg <;> simp only [if_true, if_false, Bool.false_eq_true] <;> omega
  have hn : ((if neg = true then -(A : ℤ) else (A : ℤ))
      + (if neg = true then -(B : ℤ) else (B : ℤ))).natAbs = A + B := by
    cases neg <;> simp only [if_true, if_false, Bool.false_eq_true] <;> omega
  rw [if_neg hs, hn, setExpAndRound_finite _ _ _ (by omega) (by omega)]
  simp

end big

namespace forex

/-- The function `roundToNearestBigInt` on a finite value of at most 64 bits
and of an exponent within a wide margin: neither `Add` nor `Int` fails, and
the result is that of the function on finite values. -/
theorem roundToNearestBigIntOrPanic_finite (p : big.Float) (hm : p.mant < 2 ^ 64)
    (he1 : -1048576 ≤ p.exp) (he2 : p.exp ≤ 1048576) :
    roundToNearestBigIntOrPanic (big.GoFloat.finite p) = some (some (roundToNearestBigInt p)) := by
  obtain ⟨neg, m, e⟩ := p
  simp only at hm he1 he2
  by_cases hm0 : m = 0
  · subst hm0
    simp [roundToNearestBigIntOrPanic, roundToNearestBigInt, big.GoFloat.Sign, big.Float.Sign,
      big.NewFloatOrPanic, big.NewFloat, big.GoFloat.Add, big.GoFloat.Int]
  · have hd1 : big.NewFloat (⟨false, 1, -1⟩ : Float64) = ⟨false, 1, -1⟩ := rfl
    have hd2 : big.NewFloat (⟨true, 1, -1⟩ : Float64) = ⟨true, 1, -1⟩ := rfl
    cases neg
    · simp only [roundToNearestBigIntOrPanic, roundToNearestBigInt, big.GoFloat.Sign,
        big.Float.Sign, hm0, if_false, Bool.false_eq_true, big.NewFloatOrPanic, hd1]
      simp only [show ¬ ((1 : ℤ) < 0) by norm_num, if_false, hd1]
      rw [big.Add_finite false m 1 e (-1) hm0 (by norm_num) hm (by norm_num) he1 he2
          (by norm_num) (by norm_num)]
      rfl
    · simp only [roundToNearestBigIntOrPanic, roundToNearestBigInt, big.GoFloat.Sign,
        big.Float.Sign, hm0, if_false, if_true, big.NewFloatOrPanic, hd2]
      simp only [show ((-1 : ℤ) < 0) by norm_num, if_true, hd2]
      rw [big.Add_finite true m 1 e (-1) hm0 (by norm_num) hm (by norm_num) he1 he2
          (by norm_num) (by norm_num)]
      rfl

/-- The `float64` of an `int`: at most 53 bits and an exponent from 0 to
64. -/
theorem ofInt_bounds (amount : ℤ) (ha1 : -9223372036854775808 ≤ amount)
    (ha2 : amount < 9223372036854775808) :
    (Float64.ofInt amount).mant ≤ 2 ^ 53 ∧ 0 ≤ (Float64.ofInt amount).exp
      ∧ (Float64.ofInt amount).exp ≤ 64 := by
  have hb : big.bitLen amount.natAbs ≤ 64 := by
    apply big.bitLen_le
    norm_num
    omega
  have h1 := big.round_le amount.natAbs 0
  have h2 := big.round_exp_bounds amount.natAbs 0
  simp only [Float64.ofInt]
  refine ⟨h1, h2.1, ?_⟩
  omega

/-- The product of the `float64` of an `int` and a `float64`: at most 53 bits
and an exponent within a wide margin. -/
theorem product_bounds (amount : ℤ) (x : Float64) (ha1 : -9223372036854775808 ≤ amount)
    (ha2 : amount < 9223372036854775808) (hm : x.mant < 2 ^ 53) (he1 : -1074 ≤ x.exp)
    (he2 : x.exp ≤ 971) :
    ((big.NewFloat (Float64.ofInt amount)).Mul (big.NewFloat x)).mant ≤ 2 ^ 53
    ∧ -1074 ≤ ((big.NewFloat (Float64.ofInt amount)).Mul (big.NewFloat x)).exp
    ∧ ((big.NewFloat (Float64.ofInt amount)).Mul (big.NewFloat x)).exp ≤ 1142 := by
  obtain ⟨b1, b2, b3⟩ := ofInt_bounds amount ha1 ha2
  refine ⟨Mul_mant_le _ _, ?_⟩
  simp only [big.Float.Mul, big.NewFloat]
  split
  · constructor <;> norm_num
  · have hb : big.bitLen ((Float64.ofInt amount).mant * x.mant) ≤ 107 := by
      apply big.bitLen_le
      calc (Float64.ofInt amount).mant * x.mant < (2 ^ 53 + 1) * 2 ^ 53 :=
            Nat.mul_lt_mul_of_lt_of_le (Nat.lt_succ_of_le b1) (Nat.le_of_lt hm) (by norm_num)
        _ ≤ 2 ^ 107 := by norm_num
    have hr := big.round_exp_bounds ((Float64.ofInt amount).mant * x.mant)
      ((Float64.ofInt amount).exp + x.exp)
    show -1074 ≤ (big.round ((Float64.ofInt amount).mant * x.mant)
        ((Float64.ofInt amount).exp + x.exp)).2
      ∧ (big.round ((Float64.ofInt amount).mant * x.mant)
        ((Float64.ofInt amount).exp + x.exp)).2 ≤ 1142
    constructor <;> omega

/-- Claim C37: for every `int` amount and every finite `float64` rate,
`Converter.Convert` taken statement by statement on values of `big.Float`
that may be infinite returns a value: the product is finite, the sum with
one half is finite, `Int` returns a number and not the `nil` pointer, and
the result is the one of `Convert` on finite values. -/
theorem ConvertSteps_finite (amount : ℤ) (x : Float64) (ha1 : -9223372036854775808 ≤ amount)
    (ha2 : amount < 9223372036854775808) (hm : x.mant < 2 ^ 53) (he1 : -1074 ≤ x.exp)
    (he2 : x.exp ≤ 971) :
    big.GoFloat.Mul (big.GoFloat.finite (big.NewFloat (Float64.ofInt amount)))
        (big.GoFloat.finite (big.NewFloat x))
      = some (big.GoFloat.finite ((big.NewFloat (Float64.ofInt amount)).Mul (big.NewFloat x)))
    ∧ roundToNearestBigIntOrPanic
        (big.GoFloat.finite ((big.NewFloat (Float64.ofInt amount)).Mul (big.NewFloat x)))
      = some (some (roundToNearestBigInt
          ((big.NewFloat (Float64.ofInt amount)).Mul (big.NewFloat x))))
    ∧ Converter.ConvertSteps amount (GoFloat64.finite x)
      = some (Converter.Convert amount x) := by
  obtain ⟨b1, b2, b3⟩ := ofInt_bounds amount ha1 ha2
  obtain ⟨p1, p2, p3⟩ := product_bounds amount x ha1 ha2 hm he1 he2
  have hmul : big.GoFloat.Mul (big.GoFloat.finite (big.NewFloat (Float64.ofInt amount)))
        (big.GoFloat.finite (big.NewFloat x))
      = some (big.GoFloat.finite
          ((big.NewFloat (Float64.ofInt amount)).Mul (big.NewFloat x))) := by
    apply big.Mul_finite
    · exact lt_of_le_of_lt b1 (by norm_num)
    · exact lt_trans hm (by norm_num)
    · simp only [big.NewFloat]; omega
    · simp only [big.NewFloat]; omega
    · simp only [big.NewFloat]; omega
    · simp only [big.NewFloat]; omega
  have hround := roundToNearestBigIntOrPanic_finite
    ((big.NewFloat (Float64.ofInt amount)).Mul (big.NewFloat x))
    (lt_of_le_of_lt p1 (by norm_num)) (by omega) (by omega)
  refine ⟨hmul, hround, ?_⟩
  simp only [Converter.ConvertSteps, big.NewFloatOrPanic, hmul, hround, Converter.Convert]

set_option maxRecDepth 8000 in
/-- Claim C37 on the largest `int` and the largest finite `float64`, and on
a row of the test table; a rate that is an infinity or a NaN makes the
statements panic. -/
theorem ConvertSteps_finite_witness :
    Converter.ConvertSteps 9223372036854775807 (GoFloat64.finite ⟨false, 2 ^ 53 - 1, 971⟩)
      = some (Converter.Convert 9223372036854775807 ⟨false, 2 ^ 53 - 1, 971⟩)
    ∧ Converter.ConvertSteps 25 (GoFloat64.finite (Float64.ofConst false 745 1000)) = some 19
    ∧ Converter.ConvertSteps 25 (GoFloat64.inf false) = none
    ∧ Converter.ConvertSteps 0 (GoFloat64.inf false) = none
    ∧ Converter.ConvertSteps 25 GoFloat64.nan = none :=
  ⟨(ConvertSteps_finite 9223372036854775807 ⟨false, 2 ^ 53 - 1, 971⟩ (by norm_num)
      (by norm_num) (by norm_num) (by norm_num) (by norm_num)).2.2,
    by decide, by decide, by decide, by decide⟩

end forex

/-! ## The conversion is monotone in the amount -/

namespace big

theorem round_eq_rne (m : Nat) (e : ℤ) (h : 2 ^ 53 ≤ m) :
    round m e = (rne m (bitLen m - 53), e + ((bitLen m - 53 : Nat) : ℤ)) := by
  have h3 : ¬ m < 2 ^ 53 := by omega
  simp only [round, rne, if_neg h3]

theorem rounded_small (m : Nat) (h : m < 2 ^ 53) : rounded m = m := by
  simp [rounded, round_small m 0 h]

theorem rounded_large (m : Nat) (h : 2 ^ 53 ≤ m) :
    rounded m = rne m (bitLen m - 53) * 2 ^ (bitLen m - 53) := by
  simp [rounded, round_eq_rne m 0 h]

/-- The result of `round` in terms of `rounded`. -/
theorem round_rounded (m : Nat) (e : ℤ) :
    e ≤ (round m e).2 ∧ (round m e).1 * 2 ^ ((round m e).2 - e).toNat = rounded m := by
  by_cases h : m < 2 ^ 53
  · rw [round_small m e h, rounded_small m h]
    simp
  · have h' : 2 ^ 53 ≤ m := Nat.le_of_not_lt h
    rw [round_eq_rne m e h', rounded_large m h']
    refine ⟨by simp, ?_⟩
    simp

theorem rne_le (m s : Nat) : m / 2 ^ s ≤ rne m s ∧ rne m s ≤ m / 2 ^ s + 1 := by
  simp only [rne]
  split <;> omega

theorem rne_mono (m n s : Nat) (h : m ≤ n) : rne m s ≤ rne n s := by
  have hq : m / 2 ^ s ≤ n / 2 ^ s := Nat.div_le_div_right h
  rcases Nat.lt_or_ge (m / 2 ^ s) (n / 2 ^ s) with hlt | hge
  · have h1 := (rne_le m s).2
    have h2 := (rne_le n s).1
    omega
  · have heq : m / 2 ^ s = n / 2 ^ s := by omega
    have dm := Nat.div_add_mod m (2 ^ s)
    have dn := Nat.div_add_mod n (2 ^ s)
    rw [heq] at dm
    have hr : m % 2 ^ s ≤ n % 2 ^ s := by omega
    simp only [rne, heq]
    split_ifs <;> omega

/-- A mantissa of the binade of shift `s` is rounded into `[2^52, 2^53]`. -/
theorem rne_bounds (m s : Nat) (h1 : 2 ^ 52 * 2 ^ s ≤ m) (h2 : m < 2 ^ 53 * 2 ^ s) :
    2 ^ 52 ≤ rne m s ∧ rne m s ≤ 2 ^ 53 := by
  have hq1 : 2 ^ 52 ≤ m / 2 ^ s := (Nat.le_div_iff_mul_le (Nat.two_pow_pos _)).mpr h1
  have hq2 : m / 2 ^ s < 2 ^ 53 := (Nat.div_lt_iff_lt_mul (Nat.two_pow_pos _)).mpr h2
  have := rne_le m s
  omega

end big

namespace big

theorem bitLen_pos (m : Nat) (h : m ≠ 0) : 2 ^ (bitLen m - 1) ≤ m ∧ m < 2 ^ bitLen m ∧ 1 ≤ bitLen m := by
  obtain ⟨a, b⟩ := bitLenFuel_spec m m (le_refl m)
  have b := b h
  rw [← bitLen] at a b
  refine ⟨b, a, ?_⟩
  by_contra hc
  have : bitLen m = 0 := by omega
  rw [this] at a
  simp at a
  exact h a

theorem bitLen_mono (m n : Nat) (h : m ≤ n) : bitLen m ≤ bitLen n := by
  by_cases hn : n = 0
  · have : m = 0 := by omega
    subst hn; subst this; exact le_refl _
  · exact bitLen_le m (bitLen n) (lt_of_le_of_lt h (bitLen_pos n hn).2.1)

theorem bitLen_mul_pow (m j : Nat) (h : m ≠ 0) : bitLen (m * 2 ^ j) = bitLen m + j := by
  obtain ⟨a, b, c⟩ := bitLen_pos m h
  have e : bitLen m + j = (bitLen m - 1 + j) + 1 := by omega
  rw [e]
  apply bitLen_eq
  · rw [pow_add]; exact Nat.mul_le_mul_right _ a
  · have : bitLen m - 1 + j + 1 = bitLen m + j := by omega
    rw [this, pow_add]
    exact Nat.mul_lt_mul_of_pos_right b (Nat.two_pow_pos _)

/-- The rounded number of the binade of `m`: between `2^(L-1)` and `2^L`. -/
theorem rounded_bounds (m : Nat) (h : 2 ^ 53 ≤ m) :
    2 ^ (bitLen m - 1) ≤ rounded m ∧ rounded m ≤ 2 ^ bitLen m := by
  obtain ⟨h1, h2, h3⟩ := bitLen_gt m h
  obtain ⟨b1, b2⟩ := rne_bounds m (bitLen m - 53) h3 h2
  rw [rounded_large m h]
  have e1 : bitLen m - 1 = 52 + (bitLen m - 53) := by omega
  have e2 : bitLen m = 53 + (bitLen m - 53) := by omega
  constructor
  · rw [e1, pow_add]; exact Nat.mul_le_mul_right _ b1
  · conv_rhs => rw [e2, pow_add]
    exact Nat.mul_le_mul_right _ b2

/-- Rounding to 53 bits is monotone. -/
theorem rounded_mono (m n : Nat) (h : m ≤ n) : rounded m ≤ rounded n := by
  by_cases hn : n < 2 ^ 53
  · rw [rounded_small m (by omega), rounded_small n hn]; exact h
  · have hn' : 2 ^ 53 ≤ n := Nat.le_of_not_lt hn
    by_cases hm : m < 2 ^ 53
    · rw [rounded_small m hm]
      have hb := (rounded_bounds n hn').1
      have hL := (bitLen_gt n hn').1
      have : 2 ^ 53 ≤ 2 ^ (bitLen n - 1) := Nat.pow_le_pow_right (by norm_num) (by omega)
      omega
    · have hm' : 2 ^ 53 ≤ m := Nat.le_of_not_lt hm
      have hL := bitLen_mono m n h
      rcases Nat.lt_or_ge (bitLen m) (bitLen n) with hlt | hge
      · have b1 := (rounded_bounds m hm').2
        have b2 := (rounded_bounds n hn').1
        have : 2 ^ bitLen m ≤ 2 ^ (bitLen n - 1) := Nat.pow_le_pow_right (by norm_num) (by omega)
        omega
      · have heq : bitLen m = bitLen n := by omega
        rw [rounded_large m hm', rounded_large n hn', heq]
        exact Nat.mul_le_mul_right _ (rne_mono m n _ h)

theorem rne_scale (m s j : Nat) (hs : 1 ≤ s) : rne (m * 2 ^ j) (s + j) = rne m s := by
  have e1 : m * 2 ^ j / 2 ^ (s + j) = m / 2 ^ s := by
    rw [pow_add]; exact Nat.mul_div_mul_right _ _ (Nat.two_pow_pos _)
  have e2 : m * 2 ^ j % 2 ^ (s + j) = m % 2 ^ s * 2 ^ j := by
    rw [pow_add]; exact Nat.mul_mod_mul_right _ _ _
  have e3 : 2 ^ (s + j - 1) = 2 ^ (s - 1) * 2 ^ j := by
    rw [← pow_add]; congr 1; omega
  have hp : 0 < 2 ^ j := Nat.two_pow_pos j
  simp only [rne, e1, e2, e3]
  have c1 : m % 2 ^ s * 2 ^ j > 2 ^ (s - 1) * 2 ^ j ↔ m % 2 ^ s > 2 ^ (s - 1) :=
    Nat.mul_lt_mul_right hp
  have c2 : m % 2 ^ s * 2 ^ j = 2 ^ (s - 1) * 2 ^ j ↔ m % 2 ^ s = 2 ^ (s - 1) :=
    Nat.mul_left_inj (by omega)
  simp only [c1, c2]

/-- Rounding commutes with a multiplication by a power of two. -/
theorem rounded_scale (m j : Nat) : rounded (m * 2 ^ j) = rounded m * 2 ^ j := by
  by_cases hm0 : m = 0
  · subst hm0
    simp [rounded_small]
  by_cases h1 : m * 2 ^ j < 2 ^ 53
  · have : m < 2 ^ 53 := lt_of_le_of_lt (Nat.le_mul_of_pos_right m (Nat.two_pow_pos j)) h1
    rw [rounded_small _ h1, rounded_small _ this]
  · have h1' : 2 ^ 53 ≤ m * 2 ^ j := Nat.le_of_not_lt h1
    have hb := bitLen_mul_pow m j hm0
    rw [rounded_large _ h1', hb]
    by_cases h2 : m < 2 ^ 53
    · rw [rounded_small m h2]
      have hL : bitLen m ≤ 53 := bitLen_le m 53 h2
      have hL2 := (bitLen_gt _ h1').1
      rw [hb] at hL2
      -- the shift is at most `j`, so nothing is cut off
      obtain ⟨t, ht⟩ : ∃ t, j = t + (bitLen m + j - 53) := ⟨53 - bitLen m, by omega⟩
      generalize hs : bitLen m + j - 53 = s at ht
      have hs1 : 1 ≤ s := by omega
      subst ht
      have e1 : m * 2 ^ (t + s) = m * 2 ^ t * 2 ^ s := by rw [pow_add, Nat.mul_assoc]
      have hq : m * 2 ^ t * 2 ^ s / 2 ^ s = m * 2 ^ t := Nat.mul_div_cancel _ (Nat.two_pow_pos _)
      have hr : m * 2 ^ t * 2 ^ s % 2 ^ s = 0 := Nat.mul_mod_left _ _
      have hh : 0 < 2 ^ (s - 1) := Nat.two_pow_pos _
      have c : ¬ (0 > 2 ^ (s - 1) ∨ (0 = 2 ^ (s - 1) ∧ m * 2 ^ t % 2 = 1)) := by omega
      rw [e1]
      simp only [rne, hq, hr, if_neg c]
    · have h2' : 2 ^ 53 ≤ m := Nat.le_of_not_lt h2
      have hL := (bitLen_gt m h2').1
      rw [rounded_large m h2']
      have e : bitLen m + j - 53 = (bitLen m - 53) + j := by omega
      rw [e, rne_scale m _ j (by omega), pow_add, Nat.mul_assoc]

end big

namespace big

/-- The magnitude of the integer that adding one half and truncating gives,
in terms of `rounded`, at any exponent `E` below the exponent of the value
and below -1. -/
theorem addHalf_Int_rounded (neg : Bool) (m : Nat) (e E : ℤ) (hm0 : m ≠ 0) (hE1 : E ≤ e)
    (hE2 : E ≤ -1) :
    (Float.Add ⟨neg, m, e⟩ ⟨neg, 1, -1⟩).Int
      = (if neg = true then -1 else 1)
        * ((rounded (m * 2 ^ (e - E).toNat + 2 ^ (-1 - E).toNat) / 2 ^ (-E).toNat : Nat) : ℤ) := by
  rw [Add_same_sign neg m 1 e (-1) hm0 (by norm_num), truncate_mk]
  congr 2
  have he0 : min e (-1) ≤ e ∧ min e (-1) ≤ -1 ∧ E ≤ min e (-1) := by
    refine ⟨min_le_left _ _, min_le_right _ _, le_min hE1 hE2⟩
  generalize min e (-1) = e0 at he0 ⊢
  obtain ⟨h1, h2, h3⟩ := he0
  obtain ⟨hf, hq⟩ := round_rounded (m * 2 ^ (e - e0).toNat + 1 * 2 ^ (-1 - e0).toNat) e0
  generalize hM : m * 2 ^ (e - e0).toNat + 1 * 2 ^ (-1 - e0).toNat = M at hf hq ⊢
  -- scaling to the exponent `E`
  have hsc : m * 2 ^ (e - E).toNat + 2 ^ (-1 - E).toNat = M * 2 ^ (e0 - E).toNat := by
    have x1 : (e - E).toNat = (e - e0).toNat + (e0 - E).toNat := by omega
    have x2 : (-1 - E).toNat = (-1 - e0).toNat + (e0 - E).toNat := by omega
    rw [← hM, x1, x2, pow_add, pow_add]
    ring
  have hD : (-E).toNat = (-e0).toNat + (e0 - E).toNat := by omega
  rw [hsc, rounded_scale, hD, pow_add, Nat.mul_div_mul_right _ _ (Nat.two_pow_pos _), ← hq]
  generalize (round M e0).1 = q at *
  generalize hfe : (round M e0).2 = f at *
  by_cases hf0 : 0 ≤ f
  · rw [if_pos hf0]
    have x : (f - e0).toNat = f.toNat + (-e0).toNat := by omega
    rw [x, pow_add, ← Nat.mul_assoc, Nat.mul_div_cancel _ (Nat.two_pow_pos _)]
  · rw [if_neg hf0]
    have x : (-e0).toNat = (-f).toNat + (f - e0).toNat := by omega
    rw [x, pow_add, Nat.mul_div_mul_right _ _ (Nat.two_pow_pos _)]

end big

namespace big

/-- The result of `round` as a number in units of `2^E`. -/
theorem round_at (m : Nat) (e E : ℤ) (he : E ≤ e) :
    (round m e).1 * 2 ^ ((round m e).2 - E).toNat = rounded (m * 2 ^ (e - E).toNat) := by
  obtain ⟨a, b⟩ := round_rounded m e
  have hx : ((round m e).2 - E).toNat = ((round m e).2 - e).toNat + (e - E).toNat := by omega
  rw [hx, pow_add, ← Nat.mul_assoc, b, rounded_scale]

theorem rounded_pow (k : Nat) : rounded (2 ^ k) = 2 ^ k := by
  have h := rounded_scale 1 k
  rw [Nat.one_mul, rounded_small 1 (by norm_num), Nat.one_mul] at h
  exact h

end big

namespace forex

/-- The magnitude of the integer that `Convert` computes for an amount of
the magnitude `A` and a rate of the mantissa `mr` and the exponent `er`: the
amount is rounded to a `float64`, the product with the rate is rounded, one
half is added and the sum is rounded, and the fraction is cut off. -/
theorem rounded_product_formula (a : ℤ) (rneg : Bool) (mr : Nat) (er : ℤ) :
    roundToNearestBigInt ((big.NewFloat (Float64.ofInt a)).Mul (big.NewFloat ⟨rneg, mr, er⟩))
      = (if (decide (a < 0) != rneg) = true then -1 else 1)
        * ((big.rounded (big.rounded (big.rounded a.natAbs * mr * 2 ^ (er - min er (-1)).toNat)
              + 2 ^ (-1 - min er (-1)).toNat) / 2 ^ (-min er (-1)).toNat : Nat) : ℤ) := by
  have hE : min er (-1) ≤ er ∧ min er (-1) ≤ -1 := ⟨min_le_left _ _, min_le_right _ _⟩
  generalize min er (-1) = E at hE ⊢
  obtain ⟨hE1, hE2⟩ := hE
  have hk : (-E).toNat = (-1 - E).toNat + 1 := by omega
  by_cases hz : a.natAbs = 0 ∨ mr = 0
  · -- a zero product
    have hp : ((big.NewFloat (Float64.ofInt a)).Mul (big.NewFloat ⟨rneg, mr, er⟩)).mant = 0 := by
      simp only [big.Float.Mul, big.NewFloat, Float64.ofInt]
      rcases hz with h | h
      · have h0 : big.round a.natAbs 0 = (0, 0) := by rw [h]; exact big.round_small 0 0 (by norm_num)
        simp [h0]
      · simp [h]
    have hG : big.rounded (big.rounded (big.rounded a.natAbs * mr * 2 ^ (er - E).toNat)
        + 2 ^ (-1 - E).toNat) / 2 ^ (-E).toNat = 0 := by
      have h0 : big.rounded a.natAbs * mr = 0 := by
        rcases hz with h | h
        · rw [h, big.rounded_small 0 (by norm_num)]; simp
        · rw [h]; simp
      rw [h0, Nat.zero_mul, big.rounded_small 0 (by norm_num), Nat.zero_add, big.rounded_pow, hk]
      exact Nat.div_eq_of_lt (Nat.pow_lt_pow_right (by norm_num) (by omega))
    rw [hG]
    generalize (big.NewFloat (Float64.ofInt a)).Mul (big.NewFloat ⟨rneg, mr, er⟩) = p at hp ⊢
    obtain ⟨pn, pm, pe⟩ := p
    simp only at hp
    subst hp
    rw [roundToNearestBigInt_zero]
    simp
  · have ha0 : a.natAbs ≠ 0 := fun h => hz (Or.inl h)
    have hm0 : mr ≠ 0 := fun h => hz (Or.inr h)
    have hqa := big.round_ne_zero a.natAbs 0 ha0
    have hsa := (big.round_rounded a.natAbs 0).1
    have hA := big.round_at a.natAbs 0 0 (le_refl 0)
    simp only [sub_zero, Int.toNat_zero, pow_zero, Nat.mul_one] at hA
    generalize hqa' : (big.round a.natAbs 0).1 = qa at hqa hA
    generalize hsa' : (big.round a.natAbs 0).2 = sa at hsa hA
    have hofInt : big.NewFloat (Float64.ofInt a) = ⟨decide (a < 0), qa, sa⟩ := by
      simp only [big.NewFloat, Float64.ofInt, hqa', hsa']
    have hnz : ¬ (qa = 0 ∨ mr = 0) := by
      rintro (h | h)
      · exact hqa h
      · exact hm0 h
    have hprod : (⟨decide (a < 0), qa, sa⟩ : big.Float).Mul (big.NewFloat ⟨rneg, mr, er⟩)
        = ⟨decide (a < 0) != rneg, (big.round (qa * mr) (sa + er)).1,
            (big.round (qa * mr) (sa + er)).2⟩ := by
      simp only [big.Float.Mul, big.NewFloat, if_neg hnz]
    have hqp := big.round_ne_zero (qa * mr) (sa + er) (Nat.mul_ne_zero hqa hm0)
    have hfp := (big.round_rounded (qa * mr) (sa + er)).1
    have hP := big.round_at (qa * mr) (sa + er) E (by omega)
    rw [hofInt, hprod, roundToNearestBigInt_mk _ _ _ hqp,
      big.addHalf_Int_rounded _ _ _ E hqp (by omega) hE2, hP]
    have hx : (sa + er - E).toNat = sa.toNat + (er - E).toNat := by omega
    have hy : qa * mr * 2 ^ (sa + er - E).toNat
        = big.rounded a.natAbs * mr * 2 ^ (er - E).toNat := by
      rw [hx, pow_add, ← hA]; ring
    rw [hy]

end forex

namespace forex

/-- The magnitude of the result grows with the magnitude of the amount. -/
theorem magnitude_mono (A B mr j k d : Nat) (h : A ≤ B) :
    big.rounded (big.rounded (big.rounded A * mr * 2 ^ j) + 2 ^ k) / 2 ^ d
      ≤ big.rounded (big.rounded (big.rounded B * mr * 2 ^ j) + 2 ^ k) / 2 ^ d := by
  apply Nat.div_le_div_right
  apply big.rounded_mono
  apply Nat.add_le_add_right
  apply big.rounded_mono
  apply Nat.mul_le_mul_right
  apply Nat.mul_le_mul_right
  exact big.rounded_mono _ _ h

/-- Claim C35: the conversion is monotone in the amount. For every finite
rate that is not negative and all amounts `a ≤ b`, the big integer that
`roundToNearestBigInt` returns for `a` is at most the one for `b`; so
`Convert(a, r) ≤ Convert(b, r)` whenever both big integers fit in an
`int`. -/
theorem Convert_monotone (a b : ℤ) (r : Float64) (hr : r.neg = false ∨ r.mant = 0)
    (hab : a ≤ b) :
    roundToNearestBigInt ((big.NewFloat (Float64.ofInt a)).Mul (big.NewFloat r))
      ≤ roundToNearestBigInt ((big.NewFloat (Float64.ofInt b)).Mul (big.NewFloat r))
    ∧ (-9223372036854775808
          ≤ roundToNearestBigInt ((big.NewFloat (Float64.ofInt a)).Mul (big.NewFloat r)) →
        roundToNearestBigInt ((big.NewFloat (Float64.ofInt b)).Mul (big.NewFloat r))
          < 9223372036854775808 →
        Converter.Convert a r ≤ Converter.Convert b r) := by
  have main : roundToNearestBigInt ((big.NewFloat (Float64.ofInt a)).Mul (big.NewFloat r))
      ≤ roundToNearestBigInt ((big.NewFloat (Float64.ofInt b)).Mul (big.NewFloat r)) := by
    obtain ⟨rneg, mr, er⟩ := r
    simp only at hr
    rw [rounded_product_formula a rneg mr er, rounded_product_formula b rneg mr er]
    rcases hr with hr | hr
    · subst hr
      simp only [Bool.bne_false, decide_eq_true_eq]
      have m1 : a.natAbs ≤ b.natAbs →
          big.rounded (big.rounded (big.rounded a.natAbs * mr * 2 ^ (er - min er (-1)).toNat)
              + 2 ^ (-1 - min er (-1)).toNat) / 2 ^ (-min er (-1)).toNat
            ≤ big.rounded (big.rounded (big.rounded b.natAbs * mr
              * 2 ^ (er - min er (-1)).toNat) + 2 ^ (-1 - min er (-1)).toNat)
              / 2 ^ (-min er (-1)).toNat := magnitude_mono _ _ _ _ _ _
      have m2 : b.natAbs ≤ a.natAbs →
          big.rounded (big.rounded (big.rounded b.natAbs * mr * 2 ^ (er - min er (-1)).toNat)
              + 2 ^ (-1 - min er (-1)).toNat) / 2 ^ (-min er (-1)).toNat
            ≤ big.rounded (big.rounded (big.rounded a.natAbs * mr
              * 2 ^ (er - min er (-1)).toNat) + 2 ^ (-1 - min er (-1)).toNat)
              / 2 ^ (-min er (-1)).toNat := magnitude_mono _ _ _ _ _ _
      generalize big.rounded (big.rounded (big.rounded a.natAbs * mr
          * 2 ^ (er - min er (-1)).toNat) + 2 ^ (-1 - min er (-1)).toNat)
          / 2 ^ (-min er (-1)).toNat = Ga at m1 m2 ⊢
      generalize big.rounded (big.rounded (big.rounded b.natAbs * mr
          * 2 ^ (er - min er (-1)).toNat) + 2 ^ (-1 - min er (-1)).toNat)
          / 2 ^ (-min er (-1)).toNat = Gb at m1 m2 ⊢
      by_cases ha : a < 0
      · by_cases hb : b < 0
        · have := m2 (by omega)
          rw [if_pos ha, if_pos hb]
          omega
        · rw [if_pos ha, if_neg hb]
          omega
      · have hb : ¬ b < 0 := by omega
        have := m1 (by omega)
        rw [if_neg ha, if_neg hb]
        omega
    · subst hr
      have hk : (-min er (-1)).toNat = (-1 - min er (-1)).toNat + 1 := by
        have := min_le_right er (-1)
        omega
      have h0 : ∀ A : Nat, big.rounded (big.rounded (big.rounded A * 0
            * 2 ^ (er - min er (-1)).toNat) + 2 ^ (-1 - min er (-1)).toNat)
          / 2 ^ (-min er (-1)).toNat = 0 := by
        intro A
        rw [Nat.mul_zero, Nat.zero_mul, big.rounded_small 0 (by norm_num), Nat.zero_add,
          big.rounded_pow, hk]
        exact Nat.div_eq_of_lt (Nat.pow_lt_pow_right (by norm_num) (by omega))
      rw [h0, h0]
      simp
  refine ⟨main, ?_⟩
  intro h1 h2
  have e : ∀ (c : ℤ), Converter.Convert c r
      = big.Int64 (roundToNearestBigInt
          ((big.NewFloat (Float64.ofInt c)).Mul (big.NewFloat r))) := fun _ => rfl
  rw [e a, e b]
  generalize roundToNearestBigInt ((big.NewFloat (Float64.ofInt a)).Mul (big.NewFloat r)) = x
    at main h1 ⊢
  generalize roundToNearestBigInt ((big.NewFloat (Float64.ofInt b)).Mul (big.NewFloat r)) = y
    at main h2 ⊢
  simp only [big.Int64]
  omega

set_option maxRecDepth 8000 in
/-- Claim C35 on the amounts 25 and 26 and the rate 0.745, and on the amounts
-26 and -25. -/
theorem Convert_monotone_witness :
    (Float64.ofConst false 745 1000).neg = false
    ∧ Converter.Convert 25 (Float64.ofConst false 745 1000)
      ≤ Converter.Convert 26 (Float64.ofConst false 745 1000)
    ∧ Converter.Convert (-26) (Float64.ofConst false 745 1000) = -19
    ∧ Converter.Convert (-25) (Float64.ofConst false 745 1000) = -19
    ∧ Converter.Convert 25 (Float64.ofConst false 745 1000) = 19
    ∧ Converter.Convert 26 (Float64.ofConst false 745 1000) = 19 :=
  ⟨by decide,
    (Convert_monotone 25 26 (Float64.ofConst false 745 1000) (Or.inl (by decide))
      (by decide)).2 (by decide) (by decide),
    by decide, by decide, by decide, by decide⟩

end forex

namespace forex

/-- A rate that is an infinity or a NaN makes the statements of `Convert`
panic, whatever the amount: `NewFloat` on a NaN, `Mul` of a zero with an
infinity, or `Int64` on the `nil` pointer that `Int` returns for an
infinity. -/
theorem ConvertSteps_not_finite (amount : ℤ) (neg : Bool) :
    Converter.ConvertSteps amount (GoFloat64.inf neg) = none
    ∧ Converter.ConvertSteps amount GoFloat64.nan = none := by
  refine ⟨?_, rfl⟩
  by_cases h : (big.NewFloat (Float64.ofInt amount)).mant = 0
  · simp [Converter.ConvertSteps, big.NewFloatOrPanic, big.GoFloat.Mul, h]
  · simp [Converter.ConvertSteps, big.NewFloatOrPanic, big.GoFloat.Mul, h,
      roundToNearestBigIntOrPanic, big.GoFloat.Add, big.GoFloat.Int]

end forex

/-! ## Two calls of `Save` at the same time -/

namespace transaction

open GoTime

set_option maxRecDepth 1000000 in
set_option maxHeartbeats 4000000 in
/-- Claim C29 fails in the code: two goroutines that call `Save` at the same
time on a repository with the `SequentialGenerator` can receive the same id.
`NewID` runs before `r.mu.Lock()`; when both goroutines increment
`previousID` before either formats its id, both calls return an entity with
the id `sequentialID-2`, the second write replaces the first, and the first
entity cannot be fetched again: `FindByID("sequentialID-2")` returns the
second entity and `FindByID("sequentialID-1")` the empty one. The map itself
is written under the lock alone: a goroutine at `Lock` waits while another
holds the lock. With the calls one after the other the ids are
`sequentialID-1` and `sequentialID-2` and both entities are stored, as
`InMemoryRepository.Save` gives them. Over every order of the statements of
the two calls (ten statements in any order, then enough turns for both to
return) the ids are the same exactly when the first two statements executed
are the two increments. -/
theorem concurrent_Save_same_id :
    ((Goroutines.start [Goroutine.Save ⟨"", "first", Date 2023 1 1, 100⟩,
          Goroutine.Save ⟨"", "second", Date 2023 1 2, 200⟩]).run
        [0, 1, 0, 1, 0, 0, 0, 1, 1, 1]).results
      = [some ⟨"sequentialID-2", "first", Date 2023 1 1, 100⟩,
          some ⟨"sequentialID-2", "second", Date 2023 1 2, 200⟩]
    ∧ (((Goroutines.start [Goroutine.Save ⟨"", "first", Date 2023 1 1, 100⟩,
          Goroutine.Save ⟨"", "second", Date 2023 1 2, 200⟩,
          Goroutine.FindByID "sequentialID-2", Goroutine.FindByID "sequentialID-1"]).run
        [0, 1, 0, 1, 0, 0, 0, 1, 1, 1, 2, 2, 2, 3, 3, 3]).results
      = [some ⟨"sequentialID-2", "first", Date 2023 1 1, 100⟩,
          some ⟨"sequentialID-2", "second", Date 2023 1 2, 200⟩,
          some ⟨"sequentialID-2", "second", Date 2023 1 2, 200⟩,
          some Entity.zero])
    ∧ (((Goroutines.start [Goroutine.Save ⟨"", "first", Date 2023 1 1, 100⟩,
          Goroutine.Save ⟨"", "second", Date 2023 1 2, 200⟩]).run
        [0, 1, 0, 1, 0, 0, 0, 1, 1, 1]).shared.data "sequentialID-1" = none)
    ∧ ((Goroutines.start [Goroutine.Save ⟨"", "first", Date 2023 1 1, 100⟩,
          Goroutine.Save ⟨"", "second", Date 2023 1 2, 200⟩]).run
        [0, 1, 0, 1, 0, 1, 1, 1]).running
      = [⟨Statement.write, ⟨"sequentialID-2", "first", Date 2023 1 1, 100⟩, "sequentialID-2"⟩,
          ⟨Statement.lock, ⟨"sequentialID-2", "second", Date 2023 1 2, 200⟩, "sequentialID-2"⟩]
    ∧ ((Goroutines.start [Goroutine.Save ⟨"", "first", Date 2023 1 1, 100⟩,
          Goroutine.Save ⟨"", "second", Date 2023 1 2, 200⟩,
          Goroutine.FindByID "sequentialID-1", Goroutine.FindByID "sequentialID-2"]).run
        [0, 0, 0, 0, 0, 1, 1, 1, 1, 1, 2, 2, 2, 3, 3, 3]).results
      = [some ⟨"sequentialID-1", "first", Date 2023 1 1, 100⟩,
          some ⟨"sequentialID-2", "second", Date 2023 1 2, 200⟩,
          some ⟨"sequentialID-1", "first", Date 2023 1 1, 100⟩,
          some ⟨"sequentialID-2", "second", Date 2023 1 2, 200⟩]
    ∧ (InMemoryRepository.Save id.SequentialGenerator ⟨"", "first", Date 2023 1 1, 100⟩
          (NewInMemoryRepository 0)).1
        = (⟨"sequentialID-1", "first", Date 2023 1 1, 100⟩, none)
    ∧ (InMemoryRepository.Save id.SequentialGenerator ⟨"", "second", Date 2023 1 2, 200⟩
          (InMemoryRepository.Save id.SequentialGenerator ⟨"", "first", Date 2023 1 1, 100⟩
            (NewInMemoryRepository 0)).2).1
        = (⟨"sequentialID-2", "second", Date 2023 1 2, 200⟩, none)
    ∧ (∀ a b c d e f g h i j : Fin 2,
      ((Goroutines.start [Goroutine.Save ⟨"", "first", Date 2023 1 1, 100⟩,
          Goroutine.Save ⟨"", "second", Date 2023 1 2, 200⟩]).run
        ([a.val, b.val, c.val, d.val, e.val, f.val, g.val, h.val, i.val, j.val]
          ++ [0, 0, 0, 0, 0, 1, 1, 1, 1, 1, 0, 0, 0, 0, 0])).results
      = if a = b then
          if a = 0 then
            [some ⟨"sequentialID-1", "first", Date 2023 1 1, 100⟩,
              some ⟨"sequentialID-2", "second", Date 2023 1 2, 200⟩]
          else
            [some ⟨"sequentialID-2", "first", Date 2023 1 1, 100⟩,
              some ⟨"sequentialID-1", "second", Date 2023 1 2, 200⟩]
        else
          [some ⟨"sequentialID-2", "first", Date 2023 1 1, 100⟩,
            some ⟨"sequentialID-2", "second", Date 2023 1 2, 200⟩]) := by
  decide

end transaction
